import Mathlib

/-!
Verification development for the Mixer chat connection
(`Source/MixerInteractivity/Private/MixerChatConnection.cpp`).

The chat-history cache is an intrusive doubly-linked list of
`FChatMessageMixerImpl` nodes held by `TSharedPtr` links
(`NextLink` points towards older messages, `PrevLink` towards newer
ones).  We embed it shallowly as an arena: nodes live in a list and a
"pointer" is an index into that list (`Option Nat`, `none` being an
invalid/reset shared pointer).  All operations below are direct
transcriptions of the corresponding C++ member functions.
-/

set_option maxHeartbeats 1000000

namespace MixerChat

/-- Shallow embedding of `FChatMessageMixerImpl`'s payload fields.
`FGuid` message ids are embedded as `Nat` (the 128-bit value of the
parsed GUID), user ids (`int32`) as `Int`. -/
structure Msg where
  msgId : Nat
  senderId : Int
  senderName : String
  body : String
  isWhisper : Bool
  isAction : Bool
  isModerated : Bool
deriving Repr, DecidableEq, Inhabited

/-- One arena node: the message plus the two intrusive links
(`NextLink` = towards older, `PrevLink` = towards newer). -/
structure Node where
  msg : Msg
  nextLink : Option Nat
  prevLink : Option Nat
deriving Repr, DecidableEq, Inhabited

/-- The chat-history cache portion of `FMixerChatConnection`:
`ChatHistoryNewest`, `ChatHistoryOldest`, `ChatHistoryNum`,
`ChatHistoryMax`, plus the arena holding every node ever allocated
(a `TSharedPtr` that is unlinked simply becomes unreachable). -/
structure HistoryState where
  nodes : List Node
  chatHistoryNewest : Option Nat
  chatHistoryOldest : Option Nat
  chatHistoryNum : Int
  chatHistoryMax : Int
deriving Repr, DecidableEq, Inhabited

namespace HistoryState

/-- Dereference a node pointer (out-of-range reads return the default
node; they never occur on well-formed states). -/
def get (s : HistoryState) (i : Nat) : Node := s.nodes.getD i default

/-- Overwrite the node at index `i`. -/
def setNode (s : HistoryState) (i : Nat) (n : Node) : HistoryState :=
  { s with nodes := s.nodes.set i n }

/-- Assign `node->NextLink = v`. -/
def setNext (s : HistoryState) (i : Nat) (v : Option Nat) : HistoryState :=
  s.setNode i { s.get i with nextLink := v }

/-- Assign `node->PrevLink = v`. -/
def setPrev (s : HistoryState) (i : Nat) (v : Option Nat) : HistoryState :=
  s.setNode i { s.get i with prevLink := v }

end HistoryState

/-- A history cache with no allocated nodes and the given
`ChatHistoryMax`, as on a freshly constructed connection. -/
def emptyHistory (max : Int) : HistoryState :=
  { nodes := [], chatHistoryNewest := none, chatHistoryOldest := none
    chatHistoryNum := 0, chatHistoryMax := max }

/-- `FMixerChatConnection::AddMessageToChatHistory` (lines 775-802).
The incoming `TSharedRef` message is materialised as a fresh arena node;
if `ChatHistoryMax <= 0` or the message is a whisper nothing at all
happens (the node is owned solely by the caller and dropped). -/
def addMessageToChatHistory (s : HistoryState) (m : Msg) : HistoryState :=
  if s.chatHistoryMax > 0 && !m.isWhisper then
    -- allocate the node; ChatMessage->NextLink = ChatHistoryNewest
    let i := s.nodes.length
    let s1 : HistoryState :=
      { s with nodes := s.nodes ++ [{ msg := m, nextLink := s.chatHistoryNewest, prevLink := none }] }
    -- if (ChatHistoryNewest.IsValid()) ChatHistoryNewest->PrevLink = ChatMessage
    let s2 := match s1.chatHistoryNewest with
      | some oldNewest => s1.setPrev oldNewest (some i)
      | none => s1
    -- ChatHistoryNewest = ChatMessage; ++ChatHistoryNum
    let s3 := { s2 with chatHistoryNewest := some i, chatHistoryNum := s2.chatHistoryNum + 1 }
    match s3.chatHistoryOldest with
    | none => { s3 with chatHistoryOldest := some i }
    | some oldOldest =>
      if s3.chatHistoryNum > s3.chatHistoryMax then
        -- ChatHistoryOldest = ChatHistoryOldest->PrevLink
        let s4 := { s3 with chatHistoryOldest := (s3.get oldOldest).prevLink }
        let s5 := match s4.chatHistoryOldest with
          | some newOldest =>
            -- ChatHistoryOldest->NextLink->PrevLink.Reset(); ChatHistoryOldest->NextLink.Reset()
            let s5a := match (s4.get newOldest).nextLink with
              | some evicted => s4.setPrev evicted none
              | none => s4
            s5a.setNext newOldest none
          | none => s4
        { s5 with chatHistoryNum := s5.chatHistoryNum - 1 }
      else s3
  else s

/-- `FChatMessageMixerImpl::FlagAsDeleted` followed by the unlink block
of `DeleteFromChatHistoryIf` (lines 813-832), applied to the node at
index `cur`. -/
def deleteNodeFromHistory (s : HistoryState) (cur : Nat) : HistoryState :=
  -- ChatMessage->FlagAsDeleted(): Body.Empty(); bIsModerated = true
  let s1 := s.setNode cur
    { s.get cur with msg := { (s.get cur).msg with body := "", isModerated := true } }
  -- if (ChatMessage == ChatHistoryNewest) ChatHistoryNewest = ChatMessage->NextLink
  let s2 := if s1.chatHistoryNewest = some cur
    then { s1 with chatHistoryNewest := (s1.get cur).nextLink } else s1
  -- if (ChatMessage == ChatHistoryOldest) ChatHistoryOldest = ChatMessage->PrevLink
  let s3 := if s2.chatHistoryOldest = some cur
    then { s2 with chatHistoryOldest := (s2.get cur).prevLink } else s2
  -- if (ChatMessage->NextLink.IsValid()) ChatMessage->NextLink->PrevLink = ChatMessage->PrevLink
  let s4 := match (s3.get cur).nextLink with
    | some nxt => s3.setPrev nxt ((s3.get cur).prevLink)
    | none => s3
  -- if (ChatMessage->PrevLink.IsValid()) ChatMessage->PrevLink->NextLink = ChatMessage->NextLink
  let s5 := match (s4.get cur).prevLink with
    | some prv => s4.setNext prv ((s4.get cur).nextLink)
    | none => s4
  -- ChatMessage->NextLink.Reset(); ChatMessage->PrevLink.Reset(); --ChatHistoryNum
  let s6 := (s5.setNext cur none).setPrev cur none
  { s6 with chatHistoryNum := s6.chatHistoryNum - 1 }

/-- The walk of `DeleteFromChatHistoryIf` (lines 804-836).  `fuel`
bounds the number of loop iterations; on well-formed states the chain
is acyclic and shorter than the arena, so the bound is never hit.
Besides the final state we return the number of times the predicate
was evaluated (it is evaluated exactly once per visited node). -/
def deleteFromChatHistoryIfAux (pred : Msg → Bool) :
    Nat → Option Nat → HistoryState → HistoryState × Nat
  | _, none, s => (s, 0)
  | 0, some _, s => (s, 0)
  | fuel + 1, some cur, s =>
    -- TSharedPtr<...> NextMessage = ChatMessage->NextLink (captured before mutation)
    let nextMessage := (s.get cur).nextLink
    let s1 := if pred (s.get cur).msg then deleteNodeFromHistory s cur else s
    let r := deleteFromChatHistoryIfAux pred fuel nextMessage s1
    (r.1, r.2 + 1)

/-- `FMixerChatConnection::DeleteFromChatHistoryIf` (lines 804-836). -/
def deleteFromChatHistoryIf (pred : Msg → Bool) (s : HistoryState) : HistoryState × Nat :=
  deleteFromChatHistoryIfAux pred s.nodes.length s.chatHistoryNewest s

/-- The duplicate scan of `HandleHistoryReply` (lines 905-916):
starting from the head of the freshly built server chain, count nodes
(`++DupeCount` happens before the comparison, so the matching node is
included in the count) until one carries the target message id. -/
def scanForDupeAux (s : HistoryState) (target : Nat) :
    Nat → Option Nat → Nat × Option Nat
  | _, none => (0, none)
  | 0, some _ => (0, none)
  | fuel + 1, some cur =>
    if (s.get cur).msg.msgId = target then (1, some cur)
    else
      let r := scanForDupeAux s target fuel ((s.get cur).nextLink)
      (r.1 + 1, r.2)

/-- The history-merge portion of `FMixerChatConnection::HandleHistoryReply`
(lines 870-936), taking the successfully parsed server history entries
(oldest first, exactly as the `Data` array delivers them).  The local
chain is stashed, the member fields are reset with a temporary
`ChatHistoryMax` of `LocalHistoryMax - LocalHistoryNum`, the server
entries are pushed through `AddMessageToChatHistory`, and the local
chain is spliced back on the front with duplicate suppression keyed on
the local oldest message id. -/
def handleHistoryReplyCore (serverMsgs : List Msg) (s : HistoryState) : HistoryState :=
  let localNewest := s.chatHistoryNewest
  let localOldest := s.chatHistoryOldest
  let localNum := s.chatHistoryNum
  let localMax := s.chatHistoryMax
  let s1 : HistoryState :=
    { s with chatHistoryNewest := none, chatHistoryOldest := none
             chatHistoryNum := 0, chatHistoryMax := localMax - localNum }
  let s2 := serverMsgs.foldl addMessageToChatHistory s1
  if s2.chatHistoryNewest.isNone then
    -- server chain came out empty: adopt the stashed chain verbatim
    -- (note: ChatHistoryNum and ChatHistoryMax are NOT restored here)
    { s2 with chatHistoryNewest := localNewest, chatHistoryOldest := localOldest }
  else
    match localOldest with
    | none => s2
    | some lo =>
      let target := (s2.get lo).msg.msgId
      let scanned := scanForDupeAux s2 target s2.nodes.length s2.chatHistoryNewest
      let s3 := match scanned.2 with
        | some dupe =>
          -- LocalHistoryOldest->NextLink = ServerHistoryMessage->NextLink
          let s3a := s2.setNext lo ((s2.get dupe).nextLink)
          let s3b := match (s3a.get dupe).nextLink with
            | some succ => s3a.setPrev succ (some lo)
            | none => s3a
          { s3b with chatHistoryNum := s3b.chatHistoryNum - (scanned.1 : Int) }
        | none =>
          -- LocalHistoryOldest->NextLink = ChatHistoryNewest; ChatHistoryNewest->PrevLink = LocalHistoryOldest
          let s3a := s2.setNext lo s2.chatHistoryNewest
          match s2.chatHistoryNewest with
          | some serverHead => s3a.setPrev serverHead (some lo)
          | none => s3a
      { s3 with chatHistoryNewest := localNewest
                chatHistoryNum := s3.chatHistoryNum + localNum
                chatHistoryMax := localMax }

/-- Does following `NextLink` from pointer `c` traverse exactly the
indices `l` and then continue with pointer `e`?  `p` is the `PrevLink`
value the head of the segment must carry.  This is the well-formedness
predicate for a doubly-linked segment. -/
def chainSeg (ns : List Node) : Option Nat → Option Nat → List Nat → Option Nat → Bool
  | _, c, [], e => c = e
  | p, c, i :: rest, e =>
    c = some i && decide (i < ns.length) && ((ns.getD i default).prevLink = p)
      && chainSeg ns (some i) ((ns.getD i default).nextLink) rest e

/-- The full chain of a cache state: from `ChatHistoryNewest`, with a
`none` back-pointer at the head, ending in a `none` forward pointer. -/
def listChain (s : HistoryState) (l : List Nat) : Bool :=
  chainSeg s.nodes none s.chatHistoryNewest l none

/-- Well-formedness of the history cache relative to an explicit list
of linked node indices (newest first): the links traverse exactly `l`
with mutually consistent neighbours, `ChatHistoryOldest` is the last
linked node, `ChatHistoryNum` counts the linked nodes, and no node is
linked twice. -/
def WfChain (s : HistoryState) (l : List Nat) : Prop :=
  listChain s l = true ∧
  s.chatHistoryOldest = l.getLast? ∧
  s.chatHistoryNum = (l.length : Int) ∧
  l.Nodup

/-- Executable extraction of the linked message ids, newest first
(fuel-bounded walk of the `NextLink` chain). -/
def chainIdsAux (ns : List Node) : Nat → Option Nat → List Nat
  | _, none => []
  | 0, some _ => []
  | fuel + 1, some cur =>
    (ns.getD cur default).msg.msgId :: chainIdsAux ns fuel ((ns.getD cur default).nextLink)

/-- The message ids currently linked in the cache, newest first. -/
def chainIds (s : HistoryState) : List Nat :=
  chainIdsAux s.nodes s.nodes.length s.chatHistoryNewest

/-- The back-pointer expected by whatever follows the segment `l`
(whose own head expects back-pointer `p`). -/
def endPrev (p : Option Nat) (l : List Nat) : Option Nat :=
  match l.getLast? with
  | some j => some j
  | none => p

/-- A test message carrying only a message id. -/
def mkIdMsg (i : Nat) : Msg :=
  { msgId := i, senderId := 0, senderName := "", body := ""
    isWhisper := false, isAction := false, isModerated := false }

/-- A test whisper message. -/
def mkWhisperMsg (i : Nat) : Msg :=
  { mkIdMsg i with isWhisper := true }

/-- Message id at `ChatHistoryNewest`. -/
def newestId (s : HistoryState) : Option Nat :=
  s.chatHistoryNewest.map fun i => (s.get i).msg.msgId

/-- Message id at `ChatHistoryOldest`. -/
def oldestId (s : HistoryState) : Option Nat :=
  s.chatHistoryOldest.map fun i => (s.get i).msg.msgId

/-- A JSON value as produced by the engine deserializer
(`FJsonValue`/`FJsonObject`); an object is its field list. -/
inductive JVal where
  | jnull : JVal
  | jbool : Bool → JVal
  | jnum : Int → JVal
  | jstr : String → JVal
  | jarr : List JVal → JVal
  | jobj : List (String × JVal) → JVal

instance : Inhabited JVal := ⟨.jnull⟩

/-- Field access on a JSON object (first binding wins). -/
def getField : JVal → String → Option JVal
  | .jobj fields, name => fields.lookup name
  | _, _ => none

/-- `FJsonObject::TryGetStringField`: present with string type. -/
def tryGetString (o : JVal) (name : String) : Option String :=
  match getField o name with
  | some (.jstr s) => some s
  | _ => none

/-- `FJsonObject::TryGetNumberField` into an `int32` target. -/
def tryGetInt (o : JVal) (name : String) : Option Int :=
  match getField o name with
  | some (.jnum n) => some n
  | _ => none

/-- `FJsonObject::TryGetBoolField`. -/
def tryGetBool (o : JVal) (name : String) : Option Bool :=
  match getField o name with
  | some (.jbool b) => some b
  | _ => none

/-- `FJsonObject::TryGetObjectField`: fails if the field is absent or
not an object. -/
def tryGetObj (o : JVal) (name : String) : Option (List (String × JVal)) :=
  match getField o name with
  | some (.jobj fields) => some fields
  | _ => none

/-- `FJsonObject::TryGetArrayField`. -/
def tryGetArr (o : JVal) (name : String) : Option (List JVal) :=
  match getField o name with
  | some (.jarr vs) => some vs
  | _ => none

/-- Value of one hexadecimal digit. -/
def hexVal (c : Char) : Option Nat :=
  if c.isDigit then some (c.toNat - 48)
  else if c.toNat ≥ 97 && c.toNat ≤ 102 then some (c.toNat - 87)
  else if c.toNat ≥ 65 && c.toNat ≤ 70 then some (c.toNat - 55)
  else none

/-- Modelled from the spec: message ids are guids parsed by the
engine's `FGuid::Parse`, whose code is not part of this repository; we
model the digits-only format (32 hexadecimal characters) the chat
server uses, yielding the guid's value. -/
def parseGuid (s : String) : Option Nat :=
  let cs := s.toList
  if cs.length == 32 && cs.all (fun c => (hexVal c).isSome) then
    some (cs.foldl (fun acc c => acc * 16 + (hexVal c).getD 0) 0)
  else none

/-- A cached chat-room member (`FMixerChatUser`: display name,
numeric id and user level). -/
structure ChatUser where
  name : String
  uid : Int
  level : Int
deriving Repr, DecidableEq, Inhabited

/-- The member-function reply handlers that `SendMethodPacket` can
register (`HandleAuthReply`, `HandleHistoryReply`). -/
inductive HandlerTag where
  | authReply : HandlerTag
  | historyReply : HandlerTag
deriving Repr, DecidableEq, Inhabited

/-- The event handlers registered in `GetEventHandler`. -/
inductive EventTag where
  | welcome : EventTag
  | chatMessage : EventTag
  | userJoin : EventTag
  | userLeave : EventTag
  | deleteMessage : EventTag
  | clearMessages : EventTag
  | purgeMessage : EventTag
deriving Repr, DecidableEq, Inhabited

/-- One argument written by `WriteRemoteMethodParams`. -/
inductive MethodArg where
  | argStr : String → MethodArg
  | argInt : Int → MethodArg
deriving Repr, DecidableEq, Inhabited

/-- A method frame as written by `WriteRemoteMethodPacket`: type
"method", the method name, the argument array and the correlation id
passed by the caller. -/
structure MethodFrame where
  method : String
  args : List MethodArg
  id : Int
deriving Repr, DecidableEq, Inhabited

/-- Observable effects of the connection: frames written to the
socket, delegate triggers and log lines. -/
inductive OutEvent where
  | sentFrame : MethodFrame → OutEvent
  | connectAttemptFinished : Bool → String → OutEvent
  | memberJoined : Int → OutEvent
  | memberLeft : Int → OutEvent
  | roomMessage : Msg → OutEvent
  | privateMessage : Msg → OutEvent
  | decodeErrorLogged : OutEvent
  | warningLogged : OutEvent
  | unexpectedReplyLogged : Int → OutEvent
deriving Repr, DecidableEq, Inhabited

/-- The connection's mutable members used by the message paths:
`bIsReady`, the anonymity of the session, the next correlation id
(`MessageId`), the pending-reply table (`ReplyHandlers`, insertion
order kept), the user registry (`CachedUsers`) and the chat-history
cache. -/
structure ConnectionState where
  bIsReady : Bool
  anonymous : Bool
  messageId : Int
  replyHandlers : List (Int × Option HandlerTag)
  cachedUsers : List (Int × ChatUser)
  history : HistoryState
deriving Repr, DecidableEq, Inhabited

/-- Modelled from the spec: `IsAnonymous()` is declared in the
connection's header, which is not among this repository's files; per
the spec a session is anonymous when it was opened without
credentials, carried here as a state flag. -/
def IsAnonymous (s : ConnectionState) : Bool := s.anonymous

/-- `SendMethodPacket` (lines 707-714): registers the handler under
the current `MessageId`, increments `MessageId` and writes the
payload. -/
def sendMethodPacket (s : ConnectionState) (payload : MethodFrame)
    (handler : Option HandlerTag) : ConnectionState × List OutEvent :=
  ({ s with replyHandlers := s.replyHandlers ++ [(s.messageId, handler)],
            messageId := s.messageId + 1 },
   [.sentFrame payload])

/-- `SendChatMessage` (lines 642-663). -/
def sendChatMessageC (s : ConnectionState) (messageBody : String) :
    ConnectionState × List OutEvent × Bool :=
  if !s.bIsReady then (s, [.warningLogged], false)
  else if IsAnonymous s then (s, [.warningLogged], false)
  else
    let r := sendMethodPacket s
      { method := "msg", args := [.argStr messageBody], id := s.messageId } none
    (r.1, r.2, true)

/-- `SendWhisper` (lines 665-683). -/
def sendWhisperC (s : ConnectionState) (toUser messageBody : String) :
    ConnectionState × List OutEvent × Bool :=
  if !s.bIsReady then (s, [.warningLogged], false)
  else if IsAnonymous s then (s, [.warningLogged], false)
  else
    let r := sendMethodPacket s
      { method := "whisper", args := [.argStr toUser, .argStr messageBody],
        id := s.messageId } none
    (r.1, r.2, true)

/-- `SendAuth` (lines 685-699): credentials present means a
three-argument auth call, otherwise anonymous auth. -/
def sendAuthC (s : ConnectionState) (channelId : Int) (user : Option Int)
    (authKey : String) : ConnectionState × List OutEvent :=
  let packet : MethodFrame :=
    match user with
    | some userId =>
      if authKey = "" then { method := "auth", args := [.argInt channelId], id := s.messageId }
      else { method := "auth", args := [.argInt channelId, .argInt userId, .argStr authKey],
             id := s.messageId }
    | none => { method := "auth", args := [.argInt channelId], id := s.messageId }
  sendMethodPacket s packet (some .authReply)

/-- `SendHistory` (lines 701-705). -/
def sendHistoryC (s : ConnectionState) (messageCount : Int) :
    ConnectionState × List OutEvent :=
  sendMethodPacket s { method := "history", args := [.argInt messageCount], id := s.messageId }
    (some .historyReply)

/-- `HandleAuthReply` (lines 839-864). -/
def handleAuthReply (s : ConnectionState) (o : JVal) :
    ConnectionState × List OutEvent × Bool :=
  match tryGetObj o "error" with
  | some errFields =>
    let errorMessage := (tryGetString (.jobj errFields) "message").getD ""
    (s, [.connectAttemptFinished false errorMessage], false)
  | none =>
    let s1 := { s with bIsReady := true }
    if s1.history.chatHistoryMax > 0 then
      let r := sendHistoryC s1 (min s1.history.chatHistoryMax 100)
      (r.1, r.2 ++ [.connectAttemptFinished true ""], true)
    else
      (s1, [.connectAttemptFinished true ""], true)

/-- `HandleChatMessageEventMessageArrayEntry` (lines 545-554): the
appended fragment text, or `none` with an error log when a required
field is missing (the caller discards the failure). -/
def handleChatMessageEventMessageArrayEntry (o : JVal) : Option String × List OutEvent :=
  match tryGetString o "type" with
  | none => (none, [.decodeErrorLogged])
  | some _ =>
    match tryGetString o "text" with
    | none => (none, [.decodeErrorLogged])
    | some t => (some t, [])

/-- The fragment loop of `HandleChatMessageEventMessageObject` (lines
513-520): non-object fragments are skipped silently, entry failures
are logged but otherwise ignored. -/
def fragmentsFold : List JVal → String × List OutEvent
  | [] => ("", [])
  | f :: rest =>
    let hd :=
      match f with
      | .jobj fields =>
        let r := handleChatMessageEventMessageArrayEntry (.jobj fields)
        ((r.1.getD ""), r.2)
      | _ => ("", [])
    let tl := fragmentsFold rest
    (hd.1 ++ tl.1, hd.2 ++ tl.2)

/-- `HandleChatMessageEventMessageObject` (lines 509-543). -/
def handleChatMessageEventMessageObject (o : JVal) (m0 : Msg) : Option Msg × List OutEvent :=
  match tryGetArr o "message" with
  | none => (none, [.decodeErrorLogged])
  | some frags =>
    let bodyEvs := fragmentsFold frags
    let flags :=
      match tryGetObj o "meta" with
      | some metaFields =>
        ((tryGetBool (.jobj metaFields) "whisper").getD false,
         (tryGetBool (.jobj metaFields) "me").getD false)
      | none => (false, false)
    (some { m0 with body := bodyEvs.1, isWhisper := flags.1, isAction := flags.2 }, bodyEvs.2)

/-- Refresh of a registered user's level field. -/
def setUserLevel (users : List (Int × ChatUser)) (k lvl : Int) : List (Int × ChatUser) :=
  users.map (fun p => if p.1 = k then (p.1, { p.2 with level := lvl }) else p)

/-- `HandleChatMessageEventInternal` (lines 465-507) restricted to its
inputs: it reads and writes only the user registry, emits delegate and
log events, and returns the decoded message (or `none` on failure).
The just-in-time registration of an unseen sender and the level
refresh happen before the message payload is examined, so they survive
a later payload failure, exactly as in the code. -/
def chatMessageParse (users : List (Int × ChatUser)) (o : JVal) :
    List (Int × ChatUser) × List OutEvent × Option Msg :=
  match tryGetString o "user_name" with
  | none => (users, [.decodeErrorLogged], none)
  | some fromUserName =>
  match tryGetInt o "user_id" with
  | none => (users, [.decodeErrorLogged], none)
  | some fromUserId =>
  match tryGetObj o "message" with
  | none => (users, [.decodeErrorLogged], none)
  | some messageFields =>
  match tryGetString o "id" with
  | none => (users, [.decodeErrorLogged], none)
  | some idString =>
  match parseGuid idString with
  | none => (users, [.decodeErrorLogged], none)
  | some messageGuid =>
    let reg :=
      match users.lookup fromUserId with
      | some u => (users, u, false)
      | none =>
        let nu : ChatUser := { name := fromUserName, uid := fromUserId, level := 0 }
        (users ++ [(fromUserId, nu)], nu, true)
    let lvl :=
      match tryGetInt o "user_level" with
      | some n => (setUserLevel reg.1 fromUserId n, { reg.2.1 with level := n },
                   ([] : List OutEvent))
      | none => (reg.1, reg.2.1, [.warningLogged])
    let joinEvs := if reg.2.2 then [OutEvent.memberJoined fromUserId] else []
    let m0 : Msg := { msgId := messageGuid, senderId := fromUserId,
                      senderName := lvl.2.1.name, body := "", isWhisper := false,
                      isAction := false, isModerated := false }
    let r := handleChatMessageEventMessageObject (.jobj messageFields) m0
    (lvl.1, lvl.2.2 ++ joinEvs ++ r.2, r.1)

/-- `HandleChatMessageEvent` (lines 441-463), with
`HandleChatMessageEventInternal` threading the connection state. -/
def handleChatMessageEventC (s : ConnectionState) (o : JVal) :
    ConnectionState × List OutEvent × Bool :=
  let p := chatMessageParse s.cachedUsers o
  let s1 := { s with cachedUsers := p.1 }
  match p.2.2 with
  | none => (s1, p.2.1, false)
  | some m =>
    if m.isWhisper then (s1, p.2.1 ++ [.privateMessage m], true)
    else ({ s1 with history := addMessageToChatHistory s1.history m },
          p.2.1 ++ [.roomMessage m], true)

/-- `HandleUserJoinEvent` (lines 556-576). -/
def handleUserJoinEvent (s : ConnectionState) (o : JVal) :
    ConnectionState × List OutEvent × Bool :=
  match tryGetInt o "id" with
  | none => (s, [.decodeErrorLogged], false)
  | some joiningUserId =>
    match s.cachedUsers.lookup joiningUserId with
    | some _ => (s, [], true)
    | none =>
      match tryGetString o "username" with
      | none => (s, [.decodeErrorLogged], false)
      | some joiningUserName =>
        ({ s with cachedUsers := s.cachedUsers ++
            [(joiningUserId, { name := joiningUserName, uid := joiningUserId, level := 0 })] },
         [.memberJoined joiningUserId], true)

/-- Removal of the first binding of a key (`TMap::RemoveAndCopyValue`
on the user registry). -/
def removeUser (users : List (Int × ChatUser)) (k : Int) : List (Int × ChatUser) :=
  users.eraseP (fun p => p.1 == k)

/-- `HandleUserLeaveEvent` (lines 578-595). -/
def handleUserLeaveEvent (s : ConnectionState) (o : JVal) :
    ConnectionState × List OutEvent × Bool :=
  match tryGetInt o "id" with
  | none => (s, [.decodeErrorLogged], false)
  | some leavingUserId =>
    match s.cachedUsers.lookup leavingUserId with
    | none => (s, [], true)
    | some _ =>
      ({ s with cachedUsers := removeUser s.cachedUsers leavingUserId },
       [.memberLeft leavingUserId], true)

/-- `HandleDeleteMessageEvent` (lines 597-614). -/
def handleDeleteMessageEvent (s : ConnectionState) (o : JVal) :
    ConnectionState × List OutEvent × Bool :=
  match tryGetString o "id" with
  | none => (s, [.decodeErrorLogged], false)
  | some idString =>
    match parseGuid idString with
    | none => (s, [.decodeErrorLogged], false)
    | some g =>
      ({ s with history := (deleteFromChatHistoryIf (fun m => m.msgId == g) s.history).1 },
       [], true)

/-- `HandleClearMessagesEvent` (lines 616-628). -/
def handleClearMessagesEvent (s : ConnectionState) (o : JVal) :
    ConnectionState × List OutEvent × Bool :=
  ({ s with history := (deleteFromChatHistoryIf (fun _ => true) s.history).1 }, [], true)

/-- `HandlePurgeMessageEvent` (lines 630-640). -/
def handlePurgeMessageEvent (s : ConnectionState) (o : JVal) :
    ConnectionState × List OutEvent × Bool :=
  match tryGetInt o "user_id" with
  | none => (s, [.decodeErrorLogged], false)
  | some purgedUserId =>
    ({ s with history :=
        (deleteFromChatHistoryIf (fun m => m.senderId == purgedUserId) s.history).1 },
     [], true)

/-- `HandleWelcomeEvent` (lines 426-438). -/
def handleWelcomeEvent (s : ConnectionState) (o : JVal) :
    ConnectionState × List OutEvent × Bool :=
  (s, [], true)

/-- The entry loop of `HandleHistoryReply` (lines 885-893): each entry
is decoded with `HandleChatMessageEventInternal` and the successes are
collected in order. A non-object entry is modelled as a decode
failure: the C++ passes the null result of `AsObject()` straight into
the handler, which is undefined behaviour. -/
def historyEntriesParse (users : List (Int × ChatUser)) :
    List JVal → List (Int × ChatUser) × List OutEvent × List Msg
  | [] => (users, [], [])
  | e :: rest =>
    let entry :=
      match e with
      | .jobj fields => JVal.jobj fields
      | _ => JVal.jnull
    let p := chatMessageParse users entry
    let q := historyEntriesParse p.1 rest
    (q.1, p.2.1 ++ q.2.1,
     (match p.2.2 with | some m => [m] | none => []) ++ q.2.2)

/-- `HandleHistoryReply` (lines 866-939). The C++ loop interleaves
user-registry updates with pushes into the reset history, but the
entry decoding never reads or writes the history members and the
pushes never touch the registry or emit events, so the loop equals
this two-phase form; `handleHistoryReplyCore` is exactly the
stash/reset/push/splice sequence of lines 873-936 applied to the
collected successes. -/
def handleHistoryReply (s : ConnectionState) (o : JVal) :
    ConnectionState × List OutEvent × Bool :=
  match tryGetArr o "data" with
  | none => (s, [.decodeErrorLogged], false)
  | some entries =>
    let p := historyEntriesParse s.cachedUsers entries
    ({ s with cachedUsers := p.1, history := handleHistoryReplyCore p.2.2 s.history },
     p.2.1, true)

/-- `GetEventHandler` (lines 941-957). -/
def getEventHandler (eventType : String) : Option EventTag :=
  if eventType = "WelcomeEvent" then some .welcome
  else if eventType = "ChatMessage" then some .chatMessage
  else if eventType = "UserJoin" then some .userJoin
  else if eventType = "UserLeave" then some .userLeave
  else if eventType = "DeleteMessage" then some .deleteMessage
  else if eventType = "ClearMessages" then some .clearMessages
  else if eventType = "PurgeMessage" then some .purgeMessage
  else none

/-- Dispatch through the event-handler table. -/
def dispatchEvent (s : ConnectionState) (tag : EventTag) (payload : JVal) :
    ConnectionState × List OutEvent × Bool :=
  match tag with
  | .welcome => handleWelcomeEvent s payload
  | .chatMessage => handleChatMessageEventC s payload
  | .userJoin => handleUserJoinEvent s payload
  | .userLeave => handleUserLeaveEvent s payload
  | .deleteMessage => handleDeleteMessageEvent s payload
  | .clearMessages => handleClearMessagesEvent s payload
  | .purgeMessage => handlePurgeMessageEvent s payload

/-- Dispatch through a registered reply handler. -/
def dispatchReply (s : ConnectionState) (tag : HandlerTag) (o : JVal) :
    ConnectionState × List OutEvent × Bool :=
  match tag with
  | .authReply => handleAuthReply s o
  | .historyReply => handleHistoryReply s o

/-- `TMap::RemoveAndCopyValue` on the pending-reply table: the value
under the key and the table without that entry, or `none`. -/
def lookupRemove (l : List (Int × Option HandlerTag)) (k : Int) :
    Option (Option HandlerTag × List (Int × Option HandlerTag)) :=
  match l with
  | [] => none
  | (k2, v) :: rest =>
    if k2 = k then some (v, rest)
    else
      match lookupRemove rest k with
      | some (v2, rest2) => some (v2, (k2, v) :: rest2)
      | none => none

/-- `OnChatPacketInternal` (lines 384-424). The final component
records the dispatched handler's returned bool, which the C++
discards at lines 397 and 414; `bHandled` (third component) is true
whenever a handler was dispatched, regardless of that returned
value. -/
def onChatPacketInternal (s : ConnectionState) (o : JVal) :
    ConnectionState × List OutEvent × Bool × Option Bool :=
  match tryGetString o "type" with
  | none => (s, [.decodeErrorLogged], false, none)
  | some messageType =>
    if messageType = "reply" then
      match tryGetInt o "id" with
      | none => (s, [.decodeErrorLogged], false, none)
      | some replyingToMessageId =>
        match lookupRemove s.replyHandlers replyingToMessageId with
        | some hrest =>
          let s1 := { s with replyHandlers := hrest.2 }
          match hrest.1 with
          | some tag =>
            let r := dispatchReply s1 tag o
            (r.1, r.2.1, true, some r.2.2)
          | none => (s1, [], true, none)
        | none => (s, [.unexpectedReplyLogged replyingToMessageId], false, none)
    else if messageType = "event" then
      match tryGetString o "event" with
      | none => (s, [.decodeErrorLogged], false, none)
      | some eventType =>
        match tryGetObj o "data" with
        | none => (s, [.decodeErrorLogged], false, none)
        | some dataFields =>
          match getEventHandler eventType with
          | some tag =>
            let r := dispatchEvent s tag (.jobj dataFields)
            (r.1, r.2.1, true, some r.2.2)
          | none => (s, [.warningLogged], false, none)
    else (s, [], false, none)

/-- An externally triggered operation on the connection. -/
inductive ConnOp where
  | opSendChat : String → ConnOp
  | opSendWhisper : String → String → ConnOp
  | opSendAuth : Int → Option Int → String → ConnOp
  | opSendHistory : Int → ConnOp
  | opPacket : JVal → ConnOp

/-- One step of the connection: an application send or an inbound
packet. -/
def connStep (s : ConnectionState) : ConnOp → ConnectionState × List OutEvent
  | .opSendChat b => ((sendChatMessageC s b).1, (sendChatMessageC s b).2.1)
  | .opSendWhisper u b => ((sendWhisperC s u b).1, (sendWhisperC s u b).2.1)
  | .opSendAuth c u k => sendAuthC s c u k
  | .opSendHistory n => sendHistoryC s n
  | .opPacket o => ((onChatPacketInternal s o).1, (onChatPacketInternal s o).2.1)

/-- Running a sequence of operations, accumulating the emitted
events. -/
def runTrace (s : ConnectionState) : List ConnOp → ConnectionState × List OutEvent
  | [] => (s, [])
  | op :: rest =>
    let r := connStep s op
    let r2 := runTrace r.1 rest
    (r2.1, r.2 ++ r2.2)

/-- Correlation ids of the frames written to the socket, in order. -/
def sentIds (evs : List OutEvent) : List Int :=
  evs.filterMap (fun e => match e with | .sentFrame f => some f.id | _ => none)

/-- The router's invariant: every pending correlation id was issued
before the current `MessageId`, and no id is pending twice. -/
def RouterInv (s : ConnectionState) : Prop :=
  (∀ p ∈ s.replyHandlers, p.1 < s.messageId) ∧ (s.replyHandlers.map Prod.fst).Nodup

/-- A freshly constructed connection. -/
def initialConnection (max : Int) (anon : Bool) : ConnectionState :=
  { bIsReady := false, anonymous := anon, messageId := 0, replyHandlers := [],
    cachedUsers := [], history := emptyHistory max }

/-- Effect bound of one connection step on the router: `MessageId`
only grows, every new pending entry carries an id issued during the
step, the frames written carry strictly increasing ids issued during
the step, and the router invariant survives. -/
def StepOk (s s2 : ConnectionState) (evs : List OutEvent) : Prop :=
  s.messageId ≤ s2.messageId ∧
  (∀ p ∈ s2.replyHandlers, p ∈ s.replyHandlers ∨ (s.messageId ≤ p.1 ∧ p.1 < s2.messageId)) ∧
  (sentIds evs).Pairwise (fun i j => i < j) ∧
  (∀ i ∈ sentIds evs, s.messageId ≤ i ∧ i < s2.messageId) ∧
  (RouterInv s → RouterInv s2)

/-- Reading an untouched slot of an updated arena. -/
theorem getD_set_ne (ns : List Node) (i j : Nat) (n : Node) (h : i ≠ j) :
    (ns.set i n).getD j default = ns.getD j default := by
  simp [List.getD_eq_getElem?_getD, List.getElem?_set_ne h]

/-- Reading the updated slot of an arena. -/
theorem getD_set_self (ns : List Node) (i : Nat) (n : Node) (h : i < ns.length) :
    (ns.set i n).getD i default = n := by
  simp [List.getD_eq_getElem?_getD, List.getElem?_set_self h]

/-- Reading an old slot of an extended arena. -/
theorem getD_append_left (ns ms : List Node) (i : Nat) (h : i < ns.length) :
    (ns ++ ms).getD i default = ns.getD i default := by
  simp [List.getD_eq_getElem?_getD, List.getElem?_append_left h]

/-- Reading the freshly appended slot of an arena. -/
theorem getD_append_len (ns : List Node) (n : Node) :
    (ns ++ [n]).getD ns.length default = n := by
  simp [List.getD_eq_getElem?_getD, List.getElem?_append_right (Nat.le_refl _)]

/-- Every index traversed by a chain segment is a valid arena index. -/
theorem chainSeg_mem_lt (ns : List Node) (p c : Option Nat) (l : List Nat) (e : Option Nat)
    (h : chainSeg ns p c l e = true) : ∀ j ∈ l, j < ns.length := by
  induction l generalizing p c with
  | nil => simp
  | cons i rest ih =>
    simp only [chainSeg, Bool.and_eq_true, decide_eq_true_eq] at h
    obtain ⟨⟨⟨h1, h2⟩, h3⟩, h4⟩ := h
    intro j hj
    rcases List.mem_cons.mp hj with hj | hj
    · exact hj ▸ h2
    · exact ih _ _ h4 j hj

/-- Updating a node outside a segment does not disturb the segment. -/
theorem chainSeg_set_notMem (ns : List Node) (i : Nat) (n : Node) (p c : Option Nat)
    (l : List Nat) (e : Option Nat) (hi : i ∉ l) :
    chainSeg (ns.set i n) p c l e = chainSeg ns p c l e := by
  induction l generalizing p c with
  | nil => simp [chainSeg]
  | cons j rest ih =>
    have hji : i ≠ j := fun h => hi (h ▸ List.mem_cons_self _ _)
    have hrest : i ∉ rest := fun h => hi (List.mem_cons_of_mem _ h)
    simp only [chainSeg, List.length_set, getD_set_ne ns i j n hji, ih _ _ hrest]

/-- Extending the arena does not disturb an existing segment. -/
theorem chainSeg_extend (ns ms : List Node) (p c : Option Nat) (l : List Nat)
    (e : Option Nat) (h : chainSeg ns p c l e = true) :
    chainSeg (ns ++ ms) p c l e = true := by
  induction l generalizing p c with
  | nil => simpa [chainSeg] using h
  | cons i rest ih =>
    simp only [chainSeg, Bool.and_eq_true, decide_eq_true_eq] at h ⊢
    obtain ⟨⟨⟨h1, h2⟩, h3⟩, h4⟩ := h
    rw [getD_append_left ns ms i h2]
    refine ⟨⟨⟨h1, ?_⟩, h3⟩, ih _ _ h4⟩
    rw [List.length_append]
    exact Nat.lt_of_lt_of_le h2 (Nat.le_add_right _ _)

theorem endPrev_cons (p : Option Nat) (i : Nat) (rest : List Nat) :
    endPrev p (i :: rest) = endPrev (some i) rest := by
  cases rest with
  | nil => simp [endPrev]
  | cons j t =>
    simp only [endPrev, List.getLast?_cons_cons]
    cases h : (j :: t).getLast? with
    | none => exact absurd (List.getLast?_eq_none_iff.mp h) (by simp)
    | some b => rfl

/-- Splitting off the last node of a chain segment. -/
theorem chainSeg_snoc (ns : List Node) (p c : Option Nat) (l : List Nat) (b : Nat)
    (e : Option Nat) :
    chainSeg ns p c (l ++ [b]) e = true ↔
      (chainSeg ns p c l (some b) = true ∧ b < ns.length ∧
        (ns.getD b default).prevLink = endPrev p l ∧ (ns.getD b default).nextLink = e) := by
  induction l generalizing p c with
  | nil =>
    simp only [List.nil_append, chainSeg, Bool.and_eq_true, decide_eq_true_eq, endPrev]
    constructor
    · rintro ⟨⟨⟨h1, h2⟩, h3⟩, h4⟩
      exact ⟨h1, h2, h3, by simpa [chainSeg] using h4⟩
    · rintro ⟨h1, h2, h3, h4⟩
      exact ⟨⟨⟨h1, h2⟩, h3⟩, by simpa [chainSeg] using h4⟩
  | cons i rest ih =>
    constructor
    · intro h
      simp only [List.cons_append, chainSeg, Bool.and_eq_true, decide_eq_true_eq] at h
      obtain ⟨⟨⟨h1, h2⟩, h3⟩, h4⟩ := h
      rw [List.append_eq, ih] at h4
      obtain ⟨h5, h6, h7, h8⟩ := h4
      rw [endPrev_cons]
      refine ⟨?_, h6, h7, h8⟩
      simp only [chainSeg, Bool.and_eq_true, decide_eq_true_eq]
      exact ⟨⟨⟨h1, h2⟩, h3⟩, h5⟩
    · intro h
      obtain ⟨h5, h6, h7, h8⟩ := h
      simp only [chainSeg, Bool.and_eq_true, decide_eq_true_eq] at h5
      obtain ⟨⟨⟨h1, h2⟩, h3⟩, h4⟩ := h5
      simp only [List.cons_append, chainSeg, Bool.and_eq_true, decide_eq_true_eq]
      refine ⟨⟨⟨h1, h2⟩, h3⟩, ?_⟩
      rw [endPrev_cons] at h7
      rw [List.append_eq, ih]
      exact ⟨h4, h6, h7, h8⟩

/-- Concatenating two mutually consistent chain segments. -/
theorem chainSeg_concat (ns : List Node) (p c : Option Nat) (l1 : List Nat)
    (q : Option Nat) (l2 : List Nat) (e : Option Nat)
    (h1 : chainSeg ns p c l1 q = true)
    (h2 : chainSeg ns (endPrev p l1) q l2 e = true) :
    chainSeg ns p c (l1 ++ l2) e = true := by
  induction l1 generalizing p c with
  | nil =>
    simp only [chainSeg, decide_eq_true_eq] at h1
    simp only [endPrev] at h2
    simpa [h1] using h2
  | cons i rest ih =>
    simp only [chainSeg, Bool.and_eq_true, decide_eq_true_eq] at h1 ⊢
    rw [endPrev_cons] at h2
    exact ⟨h1.1, ih _ _ h1.2 h2⟩

/-- Rewriting the back-pointer stored in the head of a segment. -/
theorem chainSeg_head_prev (ns : List Node) (i : Nat) (rest : List Nat)
    (c e p : Option Nat) (p' : Option Nat) (hnd : i ∉ rest)
    (h : chainSeg ns p c (i :: rest) e = true) :
    chainSeg (ns.set i { ns.getD i default with prevLink := p' }) p' c (i :: rest) e = true := by
  simp only [chainSeg, Bool.and_eq_true, decide_eq_true_eq] at h
  obtain ⟨⟨⟨h1, h2⟩, _⟩, h4⟩ := h
  simp only [chainSeg, Bool.and_eq_true, decide_eq_true_eq, List.length_set,
    getD_set_self ns i _ h2]
  refine ⟨⟨⟨h1, h2⟩, trivial⟩, ?_⟩
  rw [chainSeg_set_notMem ns i _ _ _ _ _ hnd]
  exact h4

/-- Severing the forward pointer stored in the last node of a segment. -/
theorem chainSeg_cut_last (ns : List Node) (p c : Option Nat) (l0 : List Nat) (b0 : Nat)
    (q : Option Nat) (hnd : b0 ∉ l0)
    (h : chainSeg ns p c (l0 ++ [b0]) q = true) :
    chainSeg (ns.set b0 { ns.getD b0 default with nextLink := none }) p c (l0 ++ [b0]) none
      = true := by
  rw [chainSeg_snoc] at h
  obtain ⟨h1, h2, h3, _⟩ := h
  rw [chainSeg_snoc]
  refine ⟨?_, by simpa using h2, ?_, ?_⟩
  · rw [chainSeg_set_notMem ns b0 _ _ _ _ _ hnd]; exact h1
  · rw [getD_set_self ns b0 _ h2]; exact h3
  · rw [getD_set_self ns b0 _ h2]

/-- Patching a node's forward link never changes any stored message. -/
theorem getD_msg_set_next (ns : List Node) (k : Nat) (v : Option Nat) (j : Nat) :
    ((ns.set k { ns.getD k default with nextLink := v }).getD j default).msg
      = (ns.getD j default).msg := by
  by_cases h : k = j
  · subst h
    by_cases hk : k < ns.length
    · rw [getD_set_self _ _ _ hk]
    · rw [List.set_eq_of_length_le (Nat.le_of_not_lt hk)]
  · rw [getD_set_ne _ _ _ _ h]

/-- Patching a node's back link never changes any stored message. -/
theorem getD_msg_set_prev (ns : List Node) (k : Nat) (v : Option Nat) (j : Nat) :
    ((ns.set k { ns.getD k default with prevLink := v }).getD j default).msg
      = (ns.getD j default).msg := by
  by_cases h : k = j
  · subst h
    by_cases hk : k < ns.length
    · rw [getD_set_self _ _ _ hk]
    · rw [List.set_eq_of_length_le (Nat.le_of_not_lt hk)]
  · rw [getD_set_ne _ _ _ _ h]

/-- Reading through `getElem?` what a `getD` fact states. -/
theorem getD_to_getElemQ (ns : List Node) (i : Nat) (n : Node) (h : i < ns.length)
    (hg : ns.getD i default = n) : ns[i]? = some n := by
  rw [List.getD_eq_getElem?_getD, List.getElem?_eq_getElem h] at hg
  rw [List.getElem?_eq_getElem h]
  simpa using hg

/-- A duplicate-free list of valid arena indices is no longer than the arena. -/
theorem nodup_length_le (l : List Nat) (n : Nat) (hlt : ∀ j ∈ l, j < n)
    (hnd : l.Nodup) : l.length ≤ n := by
  classical
  have hsub : l.toFinset ⊆ Finset.range n := by
    intro j hj
    simp only [List.mem_toFinset] at hj
    exact Finset.mem_range.mpr (hlt j hj)
  have := Finset.card_le_card hsub
  rwa [List.toFinset_card_of_nodup hnd, Finset.card_range] at this

theorem wfChain_newest_none (s : HistoryState) (hwf : WfChain s []) :
    s.chatHistoryNewest = none := by
  have h := hwf.1
  simpa [listChain, chainSeg] using h

theorem wfChain_newest_cons (s : HistoryState) (a : Nat) (rest : List Nat)
    (hwf : WfChain s (a :: rest)) : s.chatHistoryNewest = some a := by
  have h := hwf.1
  simp only [listChain, chainSeg, Bool.and_eq_true, decide_eq_true_eq] at h
  exact h.1.1.1

/-- Closed form of `AddMessageToChatHistory` when the chain is non-empty
and no eviction triggers. -/
theorem addMessage_eq_push (s : HistoryState) (m : Msg) (a b : Nat)
    (hn : s.chatHistoryNewest = some a) (ho : s.chatHistoryOldest = some b)
    (hmax : 0 < s.chatHistoryMax) (hw : m.isWhisper = false)
    (hfit : s.chatHistoryNum + 1 ≤ s.chatHistoryMax) :
    addMessageToChatHistory s m =
      { nodes := (s.nodes ++ [({ msg := m, nextLink := some a, prevLink := none } : Node)]).set a
          { (s.nodes ++ [({ msg := m, nextLink := some a, prevLink := none } : Node)])[a]?.getD default
              with prevLink := some s.nodes.length }
        chatHistoryNewest := some s.nodes.length
        chatHistoryOldest := some b
        chatHistoryNum := s.chatHistoryNum + 1
        chatHistoryMax := s.chatHistoryMax } := by
  simp [addMessageToChatHistory, HistoryState.setPrev, HistoryState.setNode,
    HistoryState.get, hn, ho, hw, hmax, Int.not_lt.mpr hfit]

/-- Closed form of `AddMessageToChatHistory` when the chain is non-empty
and the oldest node is evicted.  `ns2` is the arena after linking the new
node (back-pointer of the old newest patched); `c` is the second-oldest
node that becomes the new oldest and `d` the node evicted from it. -/
theorem addMessage_eq_evict (s : HistoryState) (m : Msg) (a b c d : Nat) (ns2 : List Node)
    (hn : s.chatHistoryNewest = some a) (ho : s.chatHistoryOldest = some b)
    (hmax : 0 < s.chatHistoryMax) (hw : m.isWhisper = false)
    (hgt : s.chatHistoryMax < s.chatHistoryNum + 1)
    (hns2 : (s.nodes ++ [({ msg := m, nextLink := some a, prevLink := none } : Node)]).set a
        { (s.nodes ++ [({ msg := m, nextLink := some a, prevLink := none } : Node)])[a]?.getD default
            with prevLink := some s.nodes.length } = ns2)
    (hbp : (ns2[b]?.getD default).prevLink = some c)
    (hcn : (ns2[c]?.getD default).nextLink = some d)
    (hdc : d ≠ c) :
    addMessageToChatHistory s m =
      { nodes := (ns2.set d { ns2[d]?.getD default with prevLink := none }).set c
          { ns2[c]?.getD default with nextLink := none }
        chatHistoryNewest := some s.nodes.length
        chatHistoryOldest := some c
        chatHistoryNum := s.chatHistoryNum + 1 - 1
        chatHistoryMax := s.chatHistoryMax } := by
  simp [addMessageToChatHistory, HistoryState.setPrev, HistoryState.setNext, HistoryState.setNode,
    HistoryState.get, hn, ho, hw, hmax, hgt, hns2, hbp, hcn, List.getElem?_set_ne hdc]

/-- Pushing a message into a cache whose chain is empty. -/
theorem addMessage_wf_empty (s : HistoryState) (m : Msg)
    (hwf : WfChain s []) (hmax : 0 < s.chatHistoryMax) (hw : m.isWhisper = false) :
    WfChain (addMessageToChatHistory s m) [s.nodes.length] ∧
      (addMessageToChatHistory s m).chatHistoryNum ≤ (addMessageToChatHistory s m).chatHistoryMax ∧
      (addMessageToChatHistory s m).chatHistoryMax = s.chatHistoryMax ∧
      (addMessageToChatHistory s m).nodes.length = s.nodes.length + 1 ∧
      ((addMessageToChatHistory s m).get s.nodes.length).msg = m ∧
      (∀ j, j < s.nodes.length → ((addMessageToChatHistory s m).get j).msg = (s.get j).msg) ∧
      (∀ j, j < s.nodes.length → (addMessageToChatHistory s m).get j = s.get j) := by
  have hn : s.chatHistoryNewest = none := wfChain_newest_none s hwf
  have ho : s.chatHistoryOldest = none := by
    have := hwf.2.1
    simpa using this
  have hnum : s.chatHistoryNum = 0 := by simpa using hwf.2.2.1
  have heq : addMessageToChatHistory s m =
      { nodes := s.nodes ++ [{ msg := m, nextLink := none, prevLink := none }]
        chatHistoryNewest := some s.nodes.length
        chatHistoryOldest := some s.nodes.length
        chatHistoryNum := s.chatHistoryNum + 1
        chatHistoryMax := s.chatHistoryMax } := by
    simp [addMessageToChatHistory, hn, ho, hw, hmax]
  rw [heq]
  refine ⟨⟨?_, ?_, ?_, ?_⟩, ?_, ?_, ?_, ?_, ?_, ?_⟩
  · simp [listChain, chainSeg, HistoryState.get, getD_append_len]
  · simp
  · simp [hnum]
  · simp
  · simp [hnum]; omega
  · rfl
  · simp
  · simp [HistoryState.get, getD_append_len]
  · intro j hj
    simp only [HistoryState.get]
    rw [getD_append_left _ _ _ hj]
  · intro j hj
    simp only [HistoryState.get]
    rw [getD_append_left _ _ _ hj]

/-- Pushing a message into a cache with a non-empty chain and room left:
the new node is simply linked in front. -/
theorem addMessage_wf_push (s : HistoryState) (m : Msg) (a : Nat) (rest : List Nat)
    (hwf : WfChain s (a :: rest)) (hfit : s.chatHistoryNum + 1 ≤ s.chatHistoryMax)
    (hmax : 0 < s.chatHistoryMax) (hw : m.isWhisper = false) :
    WfChain (addMessageToChatHistory s m) (s.nodes.length :: a :: rest) ∧
      (addMessageToChatHistory s m).chatHistoryNum ≤ (addMessageToChatHistory s m).chatHistoryMax ∧
      (addMessageToChatHistory s m).chatHistoryMax = s.chatHistoryMax ∧
      (addMessageToChatHistory s m).nodes.length = s.nodes.length + 1 ∧
      ((addMessageToChatHistory s m).get s.nodes.length).msg = m ∧
      (∀ j, j < s.nodes.length → ((addMessageToChatHistory s m).get j).msg = (s.get j).msg) ∧
      (∀ j, j < s.nodes.length → j ∉ (a :: rest) →
        (addMessageToChatHistory s m).get j = s.get j) := by
  obtain ⟨hchain, holdest, hnum, hnodup⟩ := hwf
  have hn : s.chatHistoryNewest = some a := wfChain_newest_cons s a rest ⟨hchain, holdest, hnum, hnodup⟩
  have hb : s.chatHistoryOldest = some ((a :: rest).getLast (List.cons_ne_nil a rest)) := by
    rw [holdest]
    exact List.getLast?_eq_getLast _ _
  have hmem : ∀ j ∈ (a :: rest), j < s.nodes.length := by
    intro j hj
    refine chainSeg_mem_lt s.nodes none (some a) (a :: rest) none ?_ j hj
    rw [listChain, hn] at hchain
    exact hchain
  have ha : a < s.nodes.length := hmem a (List.mem_cons_self _ _)
  have hane : a ≠ s.nodes.length := Nat.ne_of_lt ha
  have hfresh : s.nodes.length ∉ (a :: rest) := fun hcon =>
    Nat.lt_irrefl _ (hmem _ hcon)
  rw [addMessage_eq_push s m a _ hn hb hmax hw hfit]
  simp only [← List.getD_eq_getElem?_getD]
  set nd : Node := { msg := m, nextLink := some a, prevLink := none } with hnd
  set ns2 : List Node := (s.nodes ++ [nd]).set a
    { (s.nodes ++ [nd]).getD a default with prevLink := some s.nodes.length } with hns2
  have hchain2 : chainSeg (s.nodes ++ [nd]) none (some a) (a :: rest) none = true := by
    refine chainSeg_extend _ _ _ _ _ _ ?_
    rw [listChain, hn] at hchain
    exact hchain
  have hanr : a ∉ rest := (List.nodup_cons.mp hnodup).1
  have hchain3 : chainSeg ns2 (some s.nodes.length) (some a) (a :: rest) none = true :=
    chainSeg_head_prev _ a rest (some a) none none (some s.nodes.length) hanr hchain2
  have hgi : ns2.getD s.nodes.length default = nd := by
    rw [hns2, getD_set_ne _ _ _ _ hane, getD_append_len]
  have hlen2 : ns2.length = s.nodes.length + 1 := by
    rw [hns2]
    simp
  refine ⟨⟨?_, ?_, ?_, ?_⟩, ?_, ?_, ?_, ?_, ?_, ?_⟩
  · rw [listChain]
    have hseg1 : chainSeg ns2 none (some s.nodes.length) [s.nodes.length] (some a) = true := by
      have hlt : s.nodes.length < ns2.length := by
        rw [hlen2]
        exact Nat.lt_succ_self _
      have hgE := (List.getElem_eq_iff (h := hlt)).mpr (getD_to_getElemQ ns2 _ nd hlt hgi)
      simp [chainSeg, hgi, hgE, hnd, hlen2]
    have hcat := chainSeg_concat ns2 none (some s.nodes.length) [s.nodes.length] (some a)
      (a :: rest) none hseg1 (by simpa [endPrev] using hchain3)
    simpa using hcat
  · simp only [List.getLast?_cons_cons]
    exact (List.getLast?_eq_getLast _ _).symm
  · simp only [List.length_cons] at hnum ⊢
    push_cast at hnum ⊢
    omega
  · exact List.nodup_cons.mpr ⟨hfresh, hnodup⟩
  · exact hfit
  · trivial
  · exact hlen2
  · simp only [HistoryState.get]
    rw [hgi]
  · intro j hj
    simp only [HistoryState.get, hns2, hnd]
    rw [getD_msg_set_prev, getD_append_left _ _ _ hj]
  · intro j hj hjl
    have hja : j ≠ a := fun hcon => hjl (hcon ▸ List.mem_cons_self _ _)
    simp only [HistoryState.get, hns2, hnd]
    rw [getD_set_ne _ _ _ _ (Ne.symm hja), getD_append_left _ _ _ hj]

/-- Messages survive the pair of link patches performed by an eviction. -/
theorem getD_msg_set2 (ns : List Node) (d c : Nat) (vd vc : Option Nat) (j : Nat) :
    (((ns.set d { ns.getD d default with prevLink := vd }).set c
        { ns.getD c default with nextLink := vc }).getD j default).msg
      = (ns.getD j default).msg := by
  by_cases hc : c = j
  · subst hc
    by_cases hlen : c < ns.length
    · rw [getD_set_self _ _ _ (by simpa using hlen)]
    · rw [List.set_eq_of_length_le (by simpa using Nat.le_of_not_lt hlen)]
      exact getD_msg_set_prev ns d vd c
  · rw [getD_set_ne _ _ _ _ hc]
    exact getD_msg_set_prev ns d vd j

/-- Pushing a message into a full cache: the new node is linked in front
and the oldest node is evicted. -/
theorem addMessage_wf_evict (s : HistoryState) (m : Msg) (a : Nat) (rest : List Nat)
    (hwf : WfChain s (a :: rest)) (hle : s.chatHistoryNum ≤ s.chatHistoryMax)
    (hgt : s.chatHistoryMax < s.chatHistoryNum + 1)
    (hmax : 0 < s.chatHistoryMax) (hw : m.isWhisper = false) :
    WfChain (addMessageToChatHistory s m) (s.nodes.length :: (a :: rest).dropLast) ∧
      (addMessageToChatHistory s m).chatHistoryNum ≤ (addMessageToChatHistory s m).chatHistoryMax ∧
      (addMessageToChatHistory s m).chatHistoryMax = s.chatHistoryMax ∧
      (addMessageToChatHistory s m).nodes.length = s.nodes.length + 1 ∧
      ((addMessageToChatHistory s m).get s.nodes.length).msg = m ∧
      (∀ j, j < s.nodes.length → ((addMessageToChatHistory s m).get j).msg = (s.get j).msg) ∧
      (∀ j, j < s.nodes.length → j ∉ (a :: rest) →
        (addMessageToChatHistory s m).get j = s.get j) := by
  obtain ⟨hchain, holdest, hnum, hnodup⟩ := hwf
  have hn : s.chatHistoryNewest = some a := wfChain_newest_cons s a rest ⟨hchain, holdest, hnum, hnodup⟩
  have hbLdef : (a :: rest).dropLast ++ [(a :: rest).getLast (List.cons_ne_nil a rest)]
      = a :: rest := List.dropLast_concat_getLast _
  have hb : s.chatHistoryOldest = some ((a :: rest).getLast (List.cons_ne_nil a rest)) := by
    rw [holdest]
    exact List.getLast?_eq_getLast _ _
  have hmem : ∀ j ∈ (a :: rest), j < s.nodes.length := by
    intro j hj
    refine chainSeg_mem_lt s.nodes none (some a) (a :: rest) none ?_ j hj
    rw [listChain, hn] at hchain
    exact hchain
  have ha : a < s.nodes.length := hmem a (List.mem_cons_self _ _)
  have hane : a ≠ s.nodes.length := Nat.ne_of_lt ha
  have hfresh : s.nodes.length ∉ (a :: rest) := fun hcon =>
    Nat.lt_irrefl _ (hmem _ hcon)
  set bL := (a :: rest).getLast (List.cons_ne_nil a rest) with hbL
  set l0 := (a :: rest).dropLast with hl0
  set nd : Node := { msg := m, nextLink := some a, prevLink := none } with hnd
  set ns2 : List Node := (s.nodes ++ [nd]).set a
    { (s.nodes ++ [nd]).getD a default with prevLink := some s.nodes.length } with hns2
  have hlen2 : ns2.length = s.nodes.length + 1 := by
    rw [hns2]
    simp
  have hchain2 : chainSeg (s.nodes ++ [nd]) none (some a) (a :: rest) none = true := by
    refine chainSeg_extend _ _ _ _ _ _ ?_
    rw [listChain, hn] at hchain
    exact hchain
  have hanr : a ∉ rest := (List.nodup_cons.mp hnodup).1
  have hchain3 : chainSeg ns2 (some s.nodes.length) (some a) (a :: rest) none = true :=
    chainSeg_head_prev _ a rest (some a) none none (some s.nodes.length) hanr hchain2
  have hchain4 : chainSeg ns2 (some s.nodes.length) (some a) (l0 ++ [bL]) none = true := by
    rw [hl0, hbL, hbLdef]
    exact hchain3
  rw [chainSeg_snoc] at hchain4
  obtain ⟨hseg, hbLlt, hbLp, hbLn⟩ := hchain4
  have hgi : ns2.getD s.nodes.length default = nd := by
    rw [hns2, getD_set_ne _ _ _ _ hane, getD_append_len]
  have hnodup0 : (l0 ++ [bL]).Nodup := by
    rw [hl0, hbL, hbLdef]
    exact hnodup
  have hbLnotl0 : bL ∉ l0 := by
    have hdisj := (List.nodup_append.mp hnodup0).2.2
    intro hcon
    exact hdisj hcon (List.mem_singleton_self _)
  -- the index that becomes the new oldest (`c`) and the evicted index (`d`)
  rcases eq_or_ne l0 [] with hl0e | hl0ne
  · -- singleton chain: the new node itself becomes the oldest,
    -- the previous single node is evicted
    have h2 : ([bL] : List Nat) = a :: rest := by
      have h3 := hbLdef
      rw [hl0e] at h3
      simpa using h3
    have hbLa : bL = a := by
      injection h2
    have hla : a :: rest = [a] := by
      rw [← h2, hbLa]
    have hbp : (ns2[bL]?.getD default).prevLink = some s.nodes.length := by
      rw [← List.getD_eq_getElem?_getD, hbLp, hl0e]
      simp [endPrev]
    have hcn : (ns2[s.nodes.length]?.getD default).nextLink = some a := by
      rw [← List.getD_eq_getElem?_getD, hgi, hnd]
    have heq := addMessage_eq_evict s m a bL s.nodes.length a ns2 hn hb hmax hw hgt
      (by rw [hns2, List.getD_eq_getElem?_getD]) hbp hcn hane
    rw [heq]
    simp only [← List.getD_eq_getElem?_getD]
    have hfin : ((ns2.set a { ns2.getD a default with prevLink := none }).set s.nodes.length
        { ns2.getD s.nodes.length default with nextLink := none }).getD s.nodes.length default
        = { nd with nextLink := none } := by
      rw [getD_set_self _ _ _ (by simp [hlen2]), hgi]
    refine ⟨⟨?_, ?_, ?_, ?_⟩, ?_, ?_, ?_, ?_, ?_, ?_⟩
    · rw [listChain, hl0e]
      have hlt : s.nodes.length < ((ns2.set a { ns2.getD a default with prevLink := none }).set
          s.nodes.length { ns2.getD s.nodes.length default with nextLink := none }).length := by
        simp [hlen2]
      have hgE := (List.getElem_eq_iff (h := hlt)).mpr
        (getD_to_getElemQ _ _ _ hlt hfin)
      have hgE2 := hgE
      simp only [List.getD_eq_getElem?_getD] at hgE2
      have hlt2 : s.nodes.length < ns2.length := by
        rw [hlen2]
        exact Nat.lt_succ_self _
      have hgiE := (List.getElem_eq_iff (h := hlt2)).mpr
        (getD_to_getElemQ _ _ _ hlt2 hgi)
      simp [chainSeg, hgE2, hgiE, hnd, hlen2]
    · rw [hl0e]
      rfl
    · rw [hl0e, hnum, hla]
      simp
    · rw [hl0e]
      simp
    · omega
    · trivial
    · simp [hlen2]
    · simp only [HistoryState.get]
      rw [hfin, hnd]
    · intro j hj
      simp only [HistoryState.get]
      rw [getD_msg_set2, hns2, getD_msg_set_prev, getD_append_left _ _ _ hj]
    · intro j hj hjl
      have hja : j ≠ a := fun hcon => hjl (hcon ▸ List.mem_cons_self _ _)
      have hji : j ≠ s.nodes.length := Nat.ne_of_lt hj
      simp only [HistoryState.get]
      rw [getD_set_ne _ _ _ _ (Ne.symm hji), getD_set_ne _ _ _ _ (Ne.symm hja),
        hns2, getD_set_ne _ _ _ _ (Ne.symm hja), getD_append_left _ _ _ hj]
  · -- chain of length at least two: the second-to-last node becomes the
    -- oldest and the old last node is evicted
    have hl00 : l0.dropLast ++ [l0.getLast hl0ne] = l0 := List.dropLast_concat_getLast _
    set b0 := l0.getLast hl0ne with hb0
    have hsegsp : chainSeg ns2 (some s.nodes.length) (some a) (l0.dropLast ++ [b0]) (some bL)
        = true := by
      rw [hb0, hl00]
      exact hseg
    rw [chainSeg_snoc] at hsegsp
    obtain ⟨hseg0, hb0lt, hb0p, hb0n⟩ := hsegsp
    have hb0l0 : b0 ∈ l0 := by
      rw [hb0]
      exact List.getLast_mem _
    have hb0bL : bL ≠ b0 := fun hcon => hbLnotl0 (hcon ▸ hb0l0)
    have hbp : (ns2[bL]?.getD default).prevLink = some b0 := by
      rw [← List.getD_eq_getElem?_getD, hbLp]
      rw [endPrev, ← hl00]
      simp [hb0]
    have hcn : (ns2[b0]?.getD default).nextLink = some bL := by
      rw [← List.getD_eq_getElem?_getD, hb0n]
    have heq := addMessage_eq_evict s m a bL b0 bL ns2 hn hb hmax hw hgt
      (by rw [hns2, List.getD_eq_getElem?_getD]) hbp hcn hb0bL
    rw [heq]
    simp only [← List.getD_eq_getElem?_getD]
    set ns3 : List Node := ns2.set bL { ns2.getD bL default with prevLink := none } with hns3
    have hlen3 : ns3.length = s.nodes.length + 1 := by
      rw [hns3]
      simpa using hlen2
    have hseg3 : chainSeg ns3 (some s.nodes.length) (some a) l0 (some bL) = true := by
      rw [hns3, chainSeg_set_notMem _ _ _ _ _ _ _ hbLnotl0]
      exact hseg
    have hseg3sp : chainSeg ns3 (some s.nodes.length) (some a) (l0.dropLast ++ [b0]) (some bL)
        = true := by
      rw [hb0, hl00]
      exact hseg3
    have hb0nl00 : b0 ∉ l0.dropLast := by
      have hnd0 : l0.Nodup := (List.nodup_append.mp hnodup0).1
      rw [← hl00] at hnd0
      have hdisj := (List.nodup_append.mp hnd0).2.2
      intro hcon
      exact hdisj hcon (List.mem_singleton_self _)
    have hcut := chainSeg_cut_last ns3 (some s.nodes.length) (some a) l0.dropLast b0
      (some bL) hb0nl00 hseg3sp
    have hns3b0 : ns3.getD b0 default = ns2.getD b0 default := by
      rw [hns3, getD_set_ne _ _ _ _ hb0bL]
    have hcut2 : chainSeg (ns3.set b0 { ns2.getD b0 default with nextLink := none })
        (some s.nodes.length) (some a) l0 none = true := by
      rw [← hns3b0]
      rw [hb0, hl00] at hcut
      exact hcut
    have hfreshl0 : s.nodes.length ∉ l0 := by
      intro hcon
      refine hfresh ?_
      rw [← hbLdef]
      exact List.mem_append_left _ hcon
    have hgi4 : ((ns3.set b0 { ns2.getD b0 default with nextLink := none }).getD
        s.nodes.length default) = nd := by
      rw [getD_set_ne _ _ _ _ (Nat.ne_of_lt (hmem b0 (by
        rw [← hbLdef]
        exact List.mem_append_left _ hb0l0)))]
      rw [hns3, getD_set_ne _ _ _ _ (Nat.ne_of_lt (hmem bL (by
        rw [← hbLdef]
        exact List.mem_append_right _ (List.mem_singleton_self _))))]
      exact hgi
    refine ⟨⟨?_, ?_, ?_, ?_⟩, ?_, ?_, ?_, ?_, ?_, ?_⟩
    · rw [listChain]
      have hseg1 : chainSeg (ns3.set b0 { ns2.getD b0 default with nextLink := none })
          none (some s.nodes.length) [s.nodes.length] (some a) = true := by
        have hlt : s.nodes.length < (ns3.set b0
            { ns2.getD b0 default with nextLink := none }).length := by
          simp [hlen3]
        have hgE := (List.getElem_eq_iff (h := hlt)).mpr
          (getD_to_getElemQ _ _ nd hlt hgi4)
        have hgE2 := hgE
        simp only [List.getD_eq_getElem?_getD] at hgE2
        simp [chainSeg, hgE2, hnd, hlen3]
      have hcat := chainSeg_concat _ none (some s.nodes.length) [s.nodes.length] (some a)
        l0 none hseg1 (by simpa [endPrev] using hcut2)
      simpa using hcat
    · rw [← hl00]
      rw [show (s.nodes.length :: (l0.dropLast ++ [b0]))
          = (s.nodes.length :: l0.dropLast) ++ [b0] by simp]
      rw [List.getLast?_concat]
    · have hlens : (a :: rest).length = l0.length + 1 := by
        rw [← hbLdef]
        simp
      rw [hnum, hlens]
      simp only [List.length_cons]
      push_cast
      ring
    · refine List.nodup_cons.mpr ⟨hfreshl0, ?_⟩
      exact (List.nodup_append.mp hnodup0).1
    · omega
    · trivial
    · simp [hlen3]
    · simp only [HistoryState.get]
      rw [hgi4, hnd]
    · intro j hj
      simp only [HistoryState.get]
      have : (ns3.set b0 { ns2.getD b0 default with nextLink := none })
          = ((ns2.set bL { ns2.getD bL default with prevLink := none }).set b0
            { ns2.getD b0 default with nextLink := none }) := by
        rw [hns3]
      rw [this, getD_msg_set2, hns2, getD_msg_set_prev, getD_append_left _ _ _ hj]
    · intro j hj hjl
      have hja : j ≠ a := fun hcon => hjl (hcon ▸ List.mem_cons_self _ _)
      have hjbL : j ≠ bL := by
        intro hcon
        refine hjl ?_
        rw [hcon, hbL]
        exact List.getLast_mem _
      have hjb0 : j ≠ b0 := by
        intro hcon
        refine hjl ?_
        rw [← hbLdef]
        exact List.mem_append_left _ (hcon ▸ hb0l0)
      simp only [HistoryState.get]
      rw [getD_set_ne _ _ _ _ (Ne.symm hjb0), hns3, getD_set_ne _ _ _ _ (Ne.symm hjbL),
        hns2, getD_set_ne _ _ _ _ (Ne.symm hja), getD_append_left _ _ _ hj]

/-- A push is a no-op when the cache is disabled or the message is a
whisper (the guard on line 777). -/
theorem addMessage_noop (s : HistoryState) (m : Msg)
    (h : s.chatHistoryMax ≤ 0 ∨ m.isWhisper = true) :
    addMessageToChatHistory s m = s := by
  rcases h with h | h
  · simp [addMessageToChatHistory, Int.not_lt.mpr h]
  · simp [addMessageToChatHistory, h]

/-- Effect of one `AddMessageToChatHistory` call on a well-formed cache
with room (or not) for the new message: the fresh node is linked in
front and, when the cache was full, the oldest node is evicted. -/
theorem addMessage_wf (s : HistoryState) (m : Msg) (l : List Nat)
    (hwf : WfChain s l) (hle : s.chatHistoryNum ≤ s.chatHistoryMax)
    (hmax : 0 < s.chatHistoryMax) (hw : m.isWhisper = false) :
    WfChain (addMessageToChatHistory s m)
        (if (l.length : Int) + 1 ≤ s.chatHistoryMax then s.nodes.length :: l
         else s.nodes.length :: l.dropLast) ∧
      (addMessageToChatHistory s m).chatHistoryNum ≤ (addMessageToChatHistory s m).chatHistoryMax ∧
      (addMessageToChatHistory s m).chatHistoryMax = s.chatHistoryMax ∧
      (addMessageToChatHistory s m).nodes.length = s.nodes.length + 1 ∧
      ((addMessageToChatHistory s m).get s.nodes.length).msg = m ∧
      (∀ j, j < s.nodes.length → ((addMessageToChatHistory s m).get j).msg = (s.get j).msg) ∧
      (∀ j, j < s.nodes.length → j ∉ l → (addMessageToChatHistory s m).get j = s.get j) := by
  have hnum := hwf.2.2.1
  cases l with
  | nil =>
    rw [if_pos (by simpa using hmax)]
    obtain ⟨h1, h2, h3, h4, h5, h6, h7⟩ := addMessage_wf_empty s m hwf hmax hw
    exact ⟨h1, h2, h3, h4, h5, h6, fun j hj _ => h7 j hj⟩
  | cons a rest =>
    by_cases hfit : s.chatHistoryNum + 1 ≤ s.chatHistoryMax
    · rw [if_pos (by rw [← hnum]; exact hfit)]
      exact addMessage_wf_push s m a rest hwf hfit hmax hw
    · rw [if_neg (by rw [← hnum]; exact hfit)]
      exact addMessage_wf_evict s m a rest hwf hle (Int.not_le.mp hfit) hmax hw

/-- Truncating before the dropped last element makes `dropLast`
invisible. -/
theorem take_cons_dropLast (A : List Msg) (x : Msg) (B : List Msg) (K : Nat)
    (hB : K ≤ B.length) :
    (A ++ x :: B.dropLast).take K = (A ++ x :: B).take K := by
  rw [List.take_append_eq_append_take, List.take_append_eq_append_take]
  congr 1
  cases hKA : K - A.length with
  | zero => simp
  | succ t =>
    simp only [List.take_succ_cons]
    congr 1
    rw [List.dropLast_eq_take, List.take_take]
    have ht : t ≤ B.length - 1 := by omega
    rw [Nat.min_eq_left ht]

theorem map_dropLast_node (f : Nat → Msg) (l : List Nat) :
    l.dropLast.map f = (l.map f).dropLast := by
  rw [List.dropLast_eq_take, List.dropLast_eq_take, List.map_take, List.length_map]

/-- Repeatedly pushing messages (the loop body of `HandleHistoryReply`,
and the per-event call in `HandleChatMessageEvent`) keeps the cache
well-formed, and its linked messages are exactly the last
`ChatHistoryMax` retained (non-whisper) messages, newest first, in
front of whatever initial content survives. -/
theorem pushSeq_wf (msgs : List Msg) (s : HistoryState) (l : List Nat)
    (hwf : WfChain s l) (hle : s.chatHistoryNum ≤ s.chatHistoryMax) :
    ∃ lr, WfChain (msgs.foldl addMessageToChatHistory s) lr ∧
      (msgs.foldl addMessageToChatHistory s).chatHistoryNum
        ≤ (msgs.foldl addMessageToChatHistory s).chatHistoryMax ∧
      (msgs.foldl addMessageToChatHistory s).chatHistoryMax = s.chatHistoryMax ∧
      lr.map (fun j => ((msgs.foldl addMessageToChatHistory s).get j).msg)
        = ((msgs.filter fun mm => !mm.isWhisper).reverse
            ++ l.map (fun j => (s.get j).msg)).take s.chatHistoryMax.toNat ∧
      s.nodes.length ≤ (msgs.foldl addMessageToChatHistory s).nodes.length ∧
      (∀ j ∈ lr, j ∈ l ∨ s.nodes.length ≤ j) ∧
      (∀ j, j < s.nodes.length → j ∉ l →
        (msgs.foldl addMessageToChatHistory s).get j = s.get j) ∧
      (∀ j, j < s.nodes.length →
        ((msgs.foldl addMessageToChatHistory s).get j).msg = (s.get j).msg) := by
  induction msgs generalizing s l with
  | nil =>
    refine ⟨l, hwf, hle, rfl, ?_, Nat.le_refl _, fun j hj => Or.inl hj,
      fun j _ _ => rfl, fun j _ => rfl⟩
    have hlen : (l.map fun j => (s.get j).msg).length ≤ s.chatHistoryMax.toNat := by
      rw [List.length_map]
      have h0 : (l.length : Int) ≤ s.chatHistoryMax := hwf.2.2.1 ▸ hle
      omega
    simp only [List.foldl_nil, List.filter_nil, List.reverse_nil, List.nil_append]
    rw [List.take_of_length_le hlen]
  | cons mm ms ih =>
    rw [List.foldl_cons]
    by_cases hwk : mm.isWhisper = true
    · rw [addMessage_noop s mm (Or.inr hwk)]
      obtain ⟨lr, h1, h2, h3, h4, h5, h6, h7, h8⟩ := ih s l hwf hle
      refine ⟨lr, h1, h2, h3, ?_, h5, h6, h7, h8⟩
      rw [h4, List.filter_cons_of_neg (by simp [hwk])]
    · have hw : mm.isWhisper = false := by
        cases hmm : mm.isWhisper
        · rfl
        · exact absurd hmm hwk
      by_cases hmax : 0 < s.chatHistoryMax
      · obtain ⟨ha1, ha2, ha3, ha4, ha5, ha6, ha7⟩ := addMessage_wf s mm l hwf hle hmax hw
        set s1 := addMessageToChatHistory s mm with hs1
        set l1 := (if (l.length : Int) + 1 ≤ s.chatHistoryMax then s.nodes.length :: l
          else s.nodes.length :: l.dropLast) with hl1
        obtain ⟨lr, h1, h2, h3, h4, h5, h6, h7, h8⟩ := ih s1 l1 ha1 ha2
        have hsub : ∀ j ∈ l1, j = s.nodes.length ∨ j ∈ l := by
          intro j hj
          rw [hl1] at hj
          by_cases hcond : (l.length : Int) + 1 ≤ s.chatHistoryMax
          · rw [if_pos hcond] at hj
            rcases List.mem_cons.mp hj with h | h
            · exact Or.inl h
            · exact Or.inr h
          · rw [if_neg hcond] at hj
            rcases List.mem_cons.mp hj with h | h
            · exact Or.inl h
            · exact Or.inr ((List.dropLast_sublist l).mem h)
        refine ⟨lr, h1, h2, h3.trans ha3, ?_, ?_, ?_, ?_, ?_⟩
        · -- the retained-messages characterisation
          rw [h4, ha3]
          have hmap1 : l1.map (fun j => (s1.get j).msg)
              = mm :: ((if (l.length : Int) + 1 ≤ s.chatHistoryMax
                  then l.map (fun j => (s.get j).msg)
                  else (l.map fun j => (s.get j).msg).dropLast)) := by
            rw [hl1]
            by_cases hcond : (l.length : Int) + 1 ≤ s.chatHistoryMax
            · rw [if_pos hcond, if_pos hcond]
              simp only [List.map_cons, ha5]
              congr 1
              refine List.map_congr_left ?_
              intro j hj
              exact ha6 j (chainSeg_mem_lt s.nodes none s.chatHistoryNewest l none hwf.1 j hj)
            · rw [if_neg hcond, if_neg hcond]
              simp only [List.map_cons, ha5]
              congr 1
              rw [← map_dropLast_node]
              refine List.map_congr_left ?_
              intro j hj
              refine ha6 j (chainSeg_mem_lt s.nodes none s.chatHistoryNewest l none hwf.1 j
                ((List.dropLast_sublist l).mem hj))
          rw [hmap1]
          by_cases hcond : (l.length : Int) + 1 ≤ s.chatHistoryMax
          · rw [if_pos hcond, List.filter_cons_of_pos (by simp [hw]), List.reverse_cons,
              List.append_assoc, List.singleton_append]
          · rw [if_neg hcond, List.filter_cons_of_pos (by simp [hw]), List.reverse_cons,
              List.append_assoc, List.singleton_append]
            refine take_cons_dropLast _ _ _ _ ?_
            rw [List.length_map]
            omega
        · omega
        · intro j hj
          rcases h6 j hj with hin | hge
          · rcases hsub j hin with h | h
            · exact Or.inr (h ▸ Nat.le_refl _)
            · exact Or.inl h
          · right
            omega
        · intro j hj hjl
          have hji : j ≠ s.nodes.length := Nat.ne_of_lt hj
          have hjl1 : j ∉ l1 := by
            intro hcon
            rcases hsub j hcon with h | h
            · exact hji h
            · exact hjl h
          rw [h7 j (by omega) hjl1, ha7 j hj hjl]
        · intro j hj
          rw [h8 j (by omega), ha6 j hj]
      · have hmax0 : s.chatHistoryMax ≤ 0 := Int.not_lt.mp hmax
        rw [addMessage_noop s mm (Or.inl hmax0)]
        obtain ⟨lr, h1, h2, h3, h4, h5, h6, h7, h8⟩ := ih s l hwf hle
        refine ⟨lr, h1, h2, h3, ?_, h5, h6, h7, h8⟩
        rw [h4]
        have hK : s.chatHistoryMax.toNat = 0 := by omega
        rw [hK]
        simp

/-- The cache of a freshly constructed connection is well-formed with
an empty chain. -/
theorem wfChain_empty (M : Int) : WfChain (emptyHistory M) [] := by
  refine ⟨?_, ?_, ?_, ?_⟩ <;> simp [listChain, chainSeg, emptyHistory]

/-- C2: for every sequence of pushes (`AddMessageToChatHistory`) against
a cache with `ChatHistoryMax = M`, after each call (equivalently: after
every such sequence from the empty cache) `0 <= ChatHistoryNum <= M`
and the linked messages are exactly the `M` most-recently-pushed
non-whisper messages in newest-first order; a push with `M <= 0` or of
a whisper message leaves the cache unchanged; and with `M = 3` and
pushes of ids 1,2,3,4 in order the retained ids are `[4,3,2]` with
newest 4 and oldest 2. -/
theorem pushes_retain_most_recent :
    (∀ (s : HistoryState) (m : Msg),
      s.chatHistoryMax ≤ 0 ∨ m.isWhisper = true → addMessageToChatHistory s m = s) ∧
    (∀ (M : Int) (msgs : List Msg), 0 ≤ M →
      0 ≤ (msgs.foldl addMessageToChatHistory (emptyHistory M)).chatHistoryNum ∧
      (msgs.foldl addMessageToChatHistory (emptyHistory M)).chatHistoryNum ≤ M ∧
      ∃ l, WfChain (msgs.foldl addMessageToChatHistory (emptyHistory M)) l ∧
        l.map (fun j => ((msgs.foldl addMessageToChatHistory (emptyHistory M)).get j).msg)
          = ((msgs.filter fun mm => !mm.isWhisper).reverse).take M.toNat) ∧
    (chainIds (([1, 2, 3, 4].map mkIdMsg).foldl addMessageToChatHistory (emptyHistory 3))
        = [4, 3, 2] ∧
      newestId (([1, 2, 3, 4].map mkIdMsg).foldl addMessageToChatHistory (emptyHistory 3))
        = some 4 ∧
      oldestId (([1, 2, 3, 4].map mkIdMsg).foldl addMessageToChatHistory (emptyHistory 3))
        = some 2 ∧
      (([1, 2, 3, 4].map mkIdMsg).foldl addMessageToChatHistory
        (emptyHistory 3)).chatHistoryNum = 3) := by
  refine ⟨addMessage_noop, ?_, by decide⟩
  intro M msgs hM
  obtain ⟨l, h1, h2, h3, h4, -, -, -, -⟩ :=
    pushSeq_wf msgs (emptyHistory M) [] (wfChain_empty M) (by simpa [emptyHistory] using hM)
  have hnum := h1.2.2.1
  refine ⟨by omega, ?_, l, h1, ?_⟩
  · have : (emptyHistory M).chatHistoryMax = M := rfl
    omega
  · rw [h4]
    simp [emptyHistory]

/-- Witness instantiating `pushes_retain_most_recent` at concrete
inputs, discharging its hypotheses. -/
theorem pushes_retain_most_recent_witness :
    (addMessageToChatHistory (emptyHistory 5) (mkWhisperMsg 9) = emptyHistory 5) ∧
    (0 ≤ (([mkIdMsg 1].foldl addMessageToChatHistory (emptyHistory 2))).chatHistoryNum ∧
      (([mkIdMsg 1].foldl addMessageToChatHistory (emptyHistory 2))).chatHistoryNum ≤ 2 ∧
      ∃ l, WfChain ([mkIdMsg 1].foldl addMessageToChatHistory (emptyHistory 2)) l ∧
        l.map (fun j => (([mkIdMsg 1].foldl addMessageToChatHistory (emptyHistory 2)).get j).msg)
          = (([mkIdMsg 1].filter fun mm => !mm.isWhisper).reverse).take (2 : Int).toNat) :=
  ⟨pushes_retain_most_recent.1 (emptyHistory 5) (mkWhisperMsg 9) (Or.inr (by decide)),
   pushes_retain_most_recent.2.1 2 [mkIdMsg 1] (by decide)⟩

/-- Closed form of `FlagAsDeleted` plus unlink when applied to the head
of a singleton chain. -/
theorem deleteNode_eq_single (s : HistoryState) (a : Nat)
    (ha : a < s.nodes.length)
    (hnewest : s.chatHistoryNewest = some a)
    (holdest : s.chatHistoryOldest = some a)
    (hap : s.nodes[a].prevLink = none)
    (han : s.nodes[a].nextLink = none) :
    deleteNodeFromHistory s a =
      { nodes := s.nodes.set a
          { msg := { s.nodes[a].msg with body := "", isModerated := true }
            nextLink := none, prevLink := none }
        chatHistoryNewest := none
        chatHistoryOldest := none
        chatHistoryNum := s.chatHistoryNum - 1
        chatHistoryMax := s.chatHistoryMax } := by
  simp [deleteNodeFromHistory, HistoryState.setPrev, HistoryState.setNext, HistoryState.setNode,
    HistoryState.get, hnewest, holdest, ha, hap, han]

/-- Closed form of `FlagAsDeleted` plus unlink when applied to the head
of a chain with a successor `b`; `x` is the chain's last node (not the
head, so `ChatHistoryOldest` is untouched). -/
theorem deleteNode_eq_cons (s : HistoryState) (a b x : Nat)
    (ha : a < s.nodes.length)
    (hnewest : s.chatHistoryNewest = some a)
    (holdest : s.chatHistoryOldest = some x) (hxa : x ≠ a)
    (hap : s.nodes[a].prevLink = none)
    (han : s.nodes[a].nextLink = some b) (hba : b ≠ a) :
    deleteNodeFromHistory s a =
      { nodes := ((s.nodes.set a
          { msg := { s.nodes[a].msg with body := "", isModerated := true }
            nextLink := some b, prevLink := none }).set b
          { s.nodes[b]?.getD default with prevLink := none }).set a
          { msg := { s.nodes[a].msg with body := "", isModerated := true }
            nextLink := none, prevLink := none }
        chatHistoryNewest := some b
        chatHistoryOldest := some x
        chatHistoryNum := s.chatHistoryNum - 1
        chatHistoryMax := s.chatHistoryMax } := by
  simp [deleteNodeFromHistory, HistoryState.setPrev, HistoryState.setNext, HistoryState.setNode,
    HistoryState.get, hnewest, holdest, ha, hap, han, hxa, hba,
    List.getElem?_set_ne (Ne.symm hba)]

/-- Deleting the head of a well-formed chain: the tail survives as a
well-formed chain, the head is tombstoned and unlinked, and nothing
else changes. -/
theorem deleteNode_head (s : HistoryState) (a : Nat) (rest : List Nat)
    (hchain : chainSeg s.nodes none s.chatHistoryNewest (a :: rest) none = true)
    (holdest : s.chatHistoryOldest = (a :: rest).getLast?)
    (hnodup : (a :: rest).Nodup) :
    (deleteNodeFromHistory s a).chatHistoryNewest = (s.get a).nextLink ∧
      chainSeg (deleteNodeFromHistory s a).nodes none ((s.get a).nextLink) rest none = true ∧
      (deleteNodeFromHistory s a).chatHistoryOldest = rest.getLast? ∧
      (deleteNodeFromHistory s a).chatHistoryNum = s.chatHistoryNum - 1 ∧
      (deleteNodeFromHistory s a).chatHistoryMax = s.chatHistoryMax ∧
      (deleteNodeFromHistory s a).nodes.length = s.nodes.length ∧
      (∀ j, j ≠ a → j ∉ rest → (deleteNodeFromHistory s a).get j = s.get j) ∧
      ((deleteNodeFromHistory s a).get a).msg.msgId = (s.get a).msg.msgId ∧
      ((deleteNodeFromHistory s a).get a).msg.body = "" ∧
      ((deleteNodeFromHistory s a).get a).msg.isModerated = true ∧
      ((deleteNodeFromHistory s a).get a).nextLink = none ∧
      ((deleteNodeFromHistory s a).get a).prevLink = none ∧
      (∀ j ∈ rest, ((deleteNodeFromHistory s a).get j).msg = (s.get j).msg) := by
  have hhead := hchain
  simp only [chainSeg, Bool.and_eq_true, decide_eq_true_eq] at hhead
  obtain ⟨⟨⟨hnewest, ha⟩, hapD⟩, htail⟩ := hhead
  have hgetA : s.get a = s.nodes[a] := by
    simp [HistoryState.get, List.getD_eq_getElem?_getD, List.getElem?_eq_getElem ha]
  have hap : s.nodes[a].prevLink = none := by
    rw [← hgetA]
    exact hapD
  cases rest with
  | nil =>
    have han : s.nodes[a].nextLink = none := by
      simp only [chainSeg, decide_eq_true_eq] at htail
      rw [← hgetA]
      exact htail
    have holdA : s.chatHistoryOldest = some a := by simpa using holdest
    rw [deleteNode_eq_single s a ha hnewest holdA hap han]
    refine ⟨by rw [hgetA, han], ?_, rfl, rfl, rfl, by simp, ?_, ?_, ?_, ?_, ?_, ?_, by simp⟩
    · rw [hgetA, han]
      simp [chainSeg]
    · intro j hja _
      simp only [HistoryState.get]
      rw [getD_set_ne _ _ _ _ (Ne.symm hja)]
    · simp only [HistoryState.get]
      rw [getD_set_self _ _ _ (by simpa using ha)]
      simp [List.getD_eq_getElem?_getD, List.getElem?_eq_getElem ha]
    · simp only [HistoryState.get]
      rw [getD_set_self _ _ _ (by simpa using ha)]
    · simp only [HistoryState.get]
      rw [getD_set_self _ _ _ (by simpa using ha)]
    · simp only [HistoryState.get]
      rw [getD_set_self _ _ _ (by simpa using ha)]
    · simp only [HistoryState.get]
      rw [getD_set_self _ _ _ (by simpa using ha)]
  | cons b rest2 =>
    have htl := htail
    simp only [chainSeg, Bool.and_eq_true, decide_eq_true_eq] at htl
    obtain ⟨⟨⟨hanD, hb⟩, hbpD⟩, htail2⟩ := htl
    have han : s.nodes[a].nextLink = some b := by rw [← hgetA]; exact hanD
    have hanotr : a ∉ (b :: rest2) := (List.nodup_cons.mp hnodup).1
    have hba : b ≠ a := by
      intro hcon
      exact hanotr (hcon ▸ List.mem_cons_self _ _)
    have hxdef : (b :: rest2).getLast? = some ((b :: rest2).getLast (List.cons_ne_nil _ _)) :=
      List.getLast?_eq_getLast _ _
    have hxa : (b :: rest2).getLast (List.cons_ne_nil _ _) ≠ a := by
      intro hcon
      exact hanotr (hcon ▸ List.getLast_mem _)
    have holdx : s.chatHistoryOldest = some ((b :: rest2).getLast (List.cons_ne_nil _ _)) := by
      rw [holdest, List.getLast?_cons_cons, hxdef]
    rw [deleteNode_eq_cons s a b _ ha hnewest holdx hxa hap han hba]
    have hbD : s.nodes[b]?.getD default = s.get b := by
      simp [HistoryState.get, List.getD_eq_getElem?_getD]
    have hgetb2 : ∀ j, j ≠ a → j ≠ b →
        (((s.nodes.set a
          { msg := { s.nodes[a].msg with body := "", isModerated := true }
            nextLink := some b, prevLink := none }).set b
          { s.nodes[b]?.getD default with prevLink := none }).set a
          { msg := { s.nodes[a].msg with body := "", isModerated := true }
            nextLink := none, prevLink := none }).getD j default = s.nodes.getD j default := by
      intro j hja hjb
      rw [getD_set_ne _ _ _ _ (Ne.symm hja), getD_set_ne _ _ _ _ (Ne.symm hjb),
        getD_set_ne _ _ _ _ (Ne.symm hja)]
    refine ⟨by rw [hgetA, han], ?_, by rw [hxdef], rfl, rfl,
      by simp, ?_, ?_, ?_, ?_, ?_, ?_, ?_⟩
    · rw [hgetA, han]
      have hstep1 : chainSeg (s.nodes.set a
          { msg := { s.nodes[a].msg with body := "", isModerated := true }
            nextLink := some b, prevLink := none }) (some a) (some b) (b :: rest2) none
          = true := by
        rw [chainSeg_set_notMem _ _ _ _ _ _ _ hanotr]
        simp only [chainSeg, Bool.and_eq_true, decide_eq_true_eq]
        refine ⟨⟨⟨?_, hb⟩, hbpD⟩, htail2⟩
        trivial
      have hstep2 := chainSeg_head_prev _ b rest2 (some b) none (some a) none
        (List.nodup_cons.mp ((List.nodup_cons.mp hnodup).2)).1 hstep1
      have hsetval : ((s.nodes.set a
          { msg := { s.nodes[a].msg with body := "", isModerated := true }
            nextLink := some b, prevLink := none }).getD b default)
          = s.nodes[b]?.getD default := by
        rw [getD_set_ne _ _ _ _ (Ne.symm hba), List.getD_eq_getElem?_getD]
      rw [hsetval] at hstep2
      rw [chainSeg_set_notMem _ _ _ _ _ _ _ hanotr]
      exact hstep2
    · intro j hja hjr
      have hjb : j ≠ b := fun hcon => hjr (hcon ▸ List.mem_cons_self _ _)
      simp only [HistoryState.get]
      exact hgetb2 j hja hjb
    · simp only [HistoryState.get]
      rw [getD_set_self _ _ _ (by simpa using ha)]
      simp [List.getD_eq_getElem?_getD, List.getElem?_eq_getElem ha]
    · simp only [HistoryState.get]
      rw [getD_set_self _ _ _ (by simpa using ha)]
    · simp only [HistoryState.get]
      rw [getD_set_self _ _ _ (by simpa using ha)]
    · simp only [HistoryState.get]
      rw [getD_set_self _ _ _ (by simpa using ha)]
    · simp only [HistoryState.get]
      rw [getD_set_self _ _ _ (by simpa using ha)]
    · intro j hj
      have hja : j ≠ a := fun hcon => hanotr (hcon ▸ hj)
      by_cases hjb : j = b
      · subst hjb
        simp only [HistoryState.get]
        rw [getD_set_ne _ _ _ _ (Ne.symm hja), getD_set_self _ _ _ (by simpa using hb), hbD]
        rfl
      · simp only [HistoryState.get]
        rw [hgetb2 j hja hjb]

/-- The `DeleteFromChatHistoryIf` walk with an always-true predicate
deletes every node of a well-formed chain, evaluating the predicate
exactly once per node. -/
theorem deleteAllAux_wf (l : List Nat) : ∀ (s : HistoryState) (fuel : Nat),
    chainSeg s.nodes none s.chatHistoryNewest l none = true →
    s.chatHistoryOldest = l.getLast? →
    l.Nodup →
    l.length ≤ fuel →
    (deleteFromChatHistoryIfAux (fun _ => true) fuel s.chatHistoryNewest s).1.chatHistoryNewest
        = none ∧
    (deleteFromChatHistoryIfAux (fun _ => true) fuel s.chatHistoryNewest s).1.chatHistoryOldest
        = none ∧
    (deleteFromChatHistoryIfAux (fun _ => true) fuel s.chatHistoryNewest s).1.chatHistoryNum
        = s.chatHistoryNum - l.length ∧
    (deleteFromChatHistoryIfAux (fun _ => true) fuel s.chatHistoryNewest s).1.chatHistoryMax
        = s.chatHistoryMax ∧
    (deleteFromChatHistoryIfAux (fun _ => true) fuel s.chatHistoryNewest s).1.nodes.length
        = s.nodes.length ∧
    (deleteFromChatHistoryIfAux (fun _ => true) fuel s.chatHistoryNewest s).2 = l.length ∧
    (∀ j, j ∉ l →
      (deleteFromChatHistoryIfAux (fun _ => true) fuel s.chatHistoryNewest s).1.get j = s.get j) ∧
    (∀ j ∈ l,
      ((deleteFromChatHistoryIfAux (fun _ => true) fuel s.chatHistoryNewest s).1.get j).msg.msgId
          = (s.get j).msg.msgId ∧
      ((deleteFromChatHistoryIfAux (fun _ => true) fuel s.chatHistoryNewest s).1.get j).msg.body
          = "" ∧
      ((deleteFromChatHistoryIfAux (fun _ => true) fuel
          s.chatHistoryNewest s).1.get j).msg.isModerated = true ∧
      ((deleteFromChatHistoryIfAux (fun _ => true) fuel s.chatHistoryNewest s).1.get j).nextLink
          = none ∧
      ((deleteFromChatHistoryIfAux (fun _ => true) fuel s.chatHistoryNewest s).1.get j).prevLink
          = none) := by
  induction l with
  | nil =>
    intro s fuel hchain holdest _ _
    have hn : s.chatHistoryNewest = none := by
      simpa [chainSeg] using hchain
    have ho : s.chatHistoryOldest = none := by simpa using holdest
    rw [hn]
    cases fuel <;>
      simp [deleteFromChatHistoryIfAux, hn, ho]
  | cons a rest ih =>
    intro s fuel hchain holdest hnodup hfuel
    have hn : s.chatHistoryNewest = some a := by
      simp only [chainSeg, Bool.and_eq_true, decide_eq_true_eq] at hchain
      exact hchain.1.1.1
    obtain ⟨fuel2, rfl⟩ : ∃ f2, fuel = f2 + 1 := by
      cases fuel with
      | zero => simp at hfuel
      | succ f2 => exact ⟨f2, rfl⟩
    rw [hn]
    obtain ⟨hd1, hd2, hd3, hd4, hd5, hd6, hd7, hd8, hd9, hd10, hd11, hd12, hd13⟩ :=
      deleteNode_head s a rest hchain holdest hnodup
    have hstep : deleteFromChatHistoryIfAux (fun _ => true) (fuel2 + 1) (some a) s
        = ((deleteFromChatHistoryIfAux (fun _ => true) fuel2 ((s.get a).nextLink)
            (deleteNodeFromHistory s a)).1,
           (deleteFromChatHistoryIfAux (fun _ => true) fuel2 ((s.get a).nextLink)
            (deleteNodeFromHistory s a)).2 + 1) := by
      simp [deleteFromChatHistoryIfAux]
    have hanr : a ∉ rest := (List.nodup_cons.mp hnodup).1
    have hrec := ih (deleteNodeFromHistory s a) fuel2 (hd1 ▸ hd2)
      hd3 (List.nodup_cons.mp hnodup).2 (by simpa using hfuel)
    rw [hd1] at hrec
    obtain ⟨hr1, hr2, hr3, hr4, hr5, hr6, hr7, hr8⟩ := hrec
    rw [hstep]
    refine ⟨hr1, hr2, ?_, hr4.trans hd5, hr5.trans hd6, ?_, ?_, ?_⟩
    · rw [hr3, hd4]
      simp only [List.length_cons]
      push_cast
      omega
    · rw [hr6]
      simp
    · intro j hj
      have hja : j ≠ a := fun hcon => hj (hcon ▸ List.mem_cons_self _ _)
      have hjr : j ∉ rest := fun hcon => hj (List.mem_cons_of_mem _ hcon)
      rw [hr7 j hjr, hd7 j hja hjr]
    · intro j hj
      rcases List.mem_cons.mp hj with hja | hjr
      · subst hja
        rw [hr7 j hanr]
        exact ⟨hd8, hd9, hd10, hd11, hd12⟩
      · obtain ⟨hm1, hm2, hm3, hm4, hm5⟩ := hr8 j hjr
        refine ⟨?_, hm2, hm3, hm4, hm5⟩
        rw [hm1, hd13 j hjr]

/-- C9: for any prior cache content (any well-formed chain),
`DeleteFromChatHistoryIf` with an always-true predicate leaves
`ChatHistoryNum == 0` and both `ChatHistoryNewest` and
`ChatHistoryOldest` empty; each deleted node is tombstoned (body
cleared, moderated flag set, message id unchanged) and fully unlinked;
and the predicate is evaluated exactly once per node that was live at
call time. -/
theorem delete_always_true_clears_cache (s : HistoryState) (l : List Nat)
    (hwf : WfChain s l) :
    (deleteFromChatHistoryIf (fun _ => true) s).1.chatHistoryNum = 0 ∧
    (deleteFromChatHistoryIf (fun _ => true) s).1.chatHistoryNewest = none ∧
    (deleteFromChatHistoryIf (fun _ => true) s).1.chatHistoryOldest = none ∧
    (deleteFromChatHistoryIf (fun _ => true) s).2 = l.length ∧
    (∀ j ∈ l,
      ((deleteFromChatHistoryIf (fun _ => true) s).1.get j).msg.msgId = (s.get j).msg.msgId ∧
      ((deleteFromChatHistoryIf (fun _ => true) s).1.get j).msg.body = "" ∧
      ((deleteFromChatHistoryIf (fun _ => true) s).1.get j).msg.isModerated = true ∧
      ((deleteFromChatHistoryIf (fun _ => true) s).1.get j).nextLink = none ∧
      ((deleteFromChatHistoryIf (fun _ => true) s).1.get j).prevLink = none) := by
  obtain ⟨hchain, holdest, hnum, hnodup⟩ := hwf
  have hmem : ∀ j ∈ l, j < s.nodes.length :=
    chainSeg_mem_lt s.nodes none s.chatHistoryNewest l none hchain
  have hfuel : l.length ≤ s.nodes.length := nodup_length_le l s.nodes.length hmem hnodup
  obtain ⟨h1, h2, h3, h4, h5, h6, h7, h8⟩ :=
    deleteAllAux_wf l s s.nodes.length hchain holdest hnodup hfuel
  exact ⟨by rw [deleteFromChatHistoryIf, h3, hnum]; ring, h1, h2, h6, h8⟩

/-- Witness instantiating `delete_always_true_clears_cache` on a cache
holding three messages, discharging its well-formedness hypothesis. -/
theorem delete_always_true_clears_cache_witness :
    WfChain (([1, 2, 3, 4].map mkIdMsg).foldl addMessageToChatHistory (emptyHistory 3))
      [3, 2, 1] ∧
    (deleteFromChatHistoryIf (fun _ => true)
      (([1, 2, 3, 4].map mkIdMsg).foldl addMessageToChatHistory
        (emptyHistory 3))).1.chatHistoryNum = 0 ∧
    (deleteFromChatHistoryIf (fun _ => true)
      (([1, 2, 3, 4].map mkIdMsg).foldl addMessageToChatHistory
        (emptyHistory 3))).1.chatHistoryNewest = none ∧
    (deleteFromChatHistoryIf (fun _ => true)
      (([1, 2, 3, 4].map mkIdMsg).foldl addMessageToChatHistory
        (emptyHistory 3))).1.chatHistoryOldest = none ∧
    (deleteFromChatHistoryIf (fun _ => true)
      (([1, 2, 3, 4].map mkIdMsg).foldl addMessageToChatHistory
        (emptyHistory 3))).2 = [3, 2, 1].length := by
  have hwf : WfChain (([1, 2, 3, 4].map mkIdMsg).foldl addMessageToChatHistory
      (emptyHistory 3)) [3, 2, 1] := by
    refine ⟨by decide, by decide, by decide, by decide⟩
  have h := delete_always_true_clears_cache _ [3, 2, 1] hwf
  exact ⟨hwf, h.1, h.2.1, h.2.2.1, h.2.2.2.1⟩

/-- A chain segment is insensitive to arena changes outside it. -/
theorem chainSeg_congr (ns ns2 : List Node) (p c : Option Nat) (l : List Nat)
    (e : Option Nat) (hlen : ns.length ≤ ns2.length)
    (hsame : ∀ j ∈ l, ns2.getD j default = ns.getD j default)
    (h : chainSeg ns p c l e = true) : chainSeg ns2 p c l e = true := by
  induction l generalizing p c with
  | nil => simpa [chainSeg] using h
  | cons i rest ih =>
    simp only [chainSeg, Bool.and_eq_true, decide_eq_true_eq] at h ⊢
    obtain ⟨⟨⟨h1, h2⟩, h3⟩, h4⟩ := h
    have hi := hsame i (List.mem_cons_self _ _)
    rw [hi]
    exact ⟨⟨⟨h1, Nat.lt_of_lt_of_le h2 hlen⟩, h3⟩,
      ih _ _ (fun j hj => hsame j (List.mem_cons_of_mem _ hj)) h4⟩

/-- The duplicate scan walks the entire chain and finds nothing when no
chain node carries the target id. -/
theorem scanForDupe_not_found (s : HistoryState) (target : Nat) (l : List Nat) :
    ∀ (fuel : Nat) (p c : Option Nat), chainSeg s.nodes p c l none = true →
    (∀ j ∈ l, (s.get j).msg.msgId ≠ target) →
    l.length ≤ fuel →
    scanForDupeAux s target fuel c = (l.length, none) := by
  induction l with
  | nil =>
    intro fuel p c hchain _ _
    have hc : c = none := by simpa [chainSeg] using hchain
    rw [hc]
    cases fuel <;> simp [scanForDupeAux]
  | cons i rest ih =>
    intro fuel p c hchain hnot hfuel
    simp only [chainSeg, Bool.and_eq_true, decide_eq_true_eq] at hchain
    obtain ⟨⟨⟨h1, h2⟩, _⟩, h4⟩ := hchain
    obtain ⟨f2, rfl⟩ : ∃ f2, fuel = f2 + 1 := by
      cases fuel with
      | zero => simp at hfuel
      | succ f2 => exact ⟨f2, rfl⟩
    rw [h1]
    have hne : (s.get i).msg.msgId ≠ target := hnot i (List.mem_cons_self _ _)
    have hrec := ih f2 (some i) ((s.nodes.getD i default).nextLink) h4
      (fun j hj => hnot j (List.mem_cons_of_mem _ hj)) (by simpa using hfuel)
    simp only [scanForDupeAux, HistoryState.get] at hrec ⊢
    rw [if_neg (by simpa [HistoryState.get] using hne), hrec]
    simp

/-- The duplicate scan stops at the first chain node carrying the
target id, counting it and every node before it. -/
theorem scanForDupe_found (s : HistoryState) (target : Nat) (pre : List Nat) :
    ∀ (fuel : Nat) (p c : Option Nat) (d : Nat) (post : List Nat),
    chainSeg s.nodes p c (pre ++ d :: post) none = true →
    (∀ j ∈ pre, (s.get j).msg.msgId ≠ target) →
    (s.get d).msg.msgId = target →
    pre.length + 1 ≤ fuel →
    scanForDupeAux s target fuel c = (pre.length + 1, some d) := by
  induction pre with
  | nil =>
    intro fuel p c d post hchain _ hd hfuel
    simp only [List.nil_append, chainSeg, Bool.and_eq_true, decide_eq_true_eq] at hchain
    obtain ⟨f2, rfl⟩ : ∃ f2, fuel = f2 + 1 := by
      cases fuel with
      | zero => simp at hfuel
      | succ f2 => exact ⟨f2, rfl⟩
    rw [hchain.1.1.1]
    simp only [scanForDupeAux]
    rw [if_pos (by simpa [HistoryState.get] using hd)]
    simp
  | cons i pre2 ih =>
    intro fuel p c d post hchain hnot hd hfuel
    simp only [List.cons_append, chainSeg, Bool.and_eq_true, decide_eq_true_eq] at hchain
    obtain ⟨⟨⟨h1, h2⟩, _⟩, h4⟩ := hchain
    obtain ⟨f2, rfl⟩ : ∃ f2, fuel = f2 + 1 := by
      cases fuel with
      | zero => simp at hfuel
      | succ f2 => exact ⟨f2, rfl⟩
    rw [h1]
    have hne : (s.get i).msg.msgId ≠ target := hnot i (List.mem_cons_self _ _)
    have hrec := ih f2 (some i) ((s.nodes.getD i default).nextLink) d post h4
      (fun j hj => hnot j (List.mem_cons_of_mem _ hj)) hd (by simpa using hfuel)
    simp only [scanForDupeAux, HistoryState.get]
    rw [if_neg (by simpa [HistoryState.get] using hne), hrec]
    simp

/-- Closed form of the `HandleHistoryReply` merge when the local chain
was empty and the server-built chain is not: the server chain is
adopted as-is (note that `ChatHistoryMax` keeps its temporary value,
which in this case equals the original since `LocalHistoryNum = 0` on
well-formed states). -/
theorem historyCore_eq_localEmpty (s s2 : HistoryState) (serverMsgs : List Msg) (sh : Nat)
    (hs2 : serverMsgs.foldl addMessageToChatHistory
      { s with chatHistoryNewest := none, chatHistoryOldest := none
               chatHistoryNum := 0, chatHistoryMax := s.chatHistoryMax - s.chatHistoryNum } = s2)
    (holdest : s.chatHistoryOldest = none)
    (hnewest2 : s2.chatHistoryNewest = some sh) :
    handleHistoryReplyCore serverMsgs s = s2 := by
  simp [handleHistoryReplyCore, hs2, holdest, hnewest2]

/-- Closed form of the `HandleHistoryReply` merge when both chains are
non-empty and the scan finds no duplicate of the local oldest id: the
local chain is spliced in front of the server chain. -/
theorem historyCore_eq_noDupe (s s2 : HistoryState) (serverMsgs : List Msg)
    (lo sh : Nat) (cnt : Nat)
    (hs2 : serverMsgs.foldl addMessageToChatHistory
      { s with chatHistoryNewest := none, chatHistoryOldest := none
               chatHistoryNum := 0, chatHistoryMax := s.chatHistoryMax - s.chatHistoryNum } = s2)
    (holdest : s.chatHistoryOldest = some lo)
    (hnewest2 : s2.chatHistoryNewest = some sh)
    (hshlo : sh ≠ lo)
    (hscan : scanForDupeAux s2 ((s2.nodes[lo]?.getD default).msg.msgId) s2.nodes.length (some sh)
      = (cnt, none)) :
    handleHistoryReplyCore serverMsgs s =
      { nodes := (s2.nodes.set lo { s2.nodes[lo]?.getD default with nextLink := some sh }).set sh
          { s2.nodes[sh]?.getD default with prevLink := some lo }
        chatHistoryNewest := s.chatHistoryNewest
        chatHistoryOldest := s2.chatHistoryOldest
        chatHistoryNum := s2.chatHistoryNum + s.chatHistoryNum
        chatHistoryMax := s.chatHistoryMax } := by
  simp [handleHistoryReplyCore, HistoryState.setPrev, HistoryState.setNext, HistoryState.setNode,
    HistoryState.get, hs2, holdest, hnewest2, hscan, hshlo, List.getElem?_set_ne (Ne.symm hshlo)]

/-- Closed form of the `HandleHistoryReply` merge when the scan finds a
duplicate that has a successor: the local oldest is spliced onto that
successor and `DupeCount` nodes are subtracted. -/
theorem historyCore_eq_dupeMid (s s2 : HistoryState) (serverMsgs : List Msg)
    (lo dupe succ sh : Nat) (cnt : Nat)
    (hs2 : serverMsgs.foldl addMessageToChatHistory
      { s with chatHistoryNewest := none, chatHistoryOldest := none
               chatHistoryNum := 0, chatHistoryMax := s.chatHistoryMax - s.chatHistoryNum } = s2)
    (holdest : s.chatHistoryOldest = some lo)
    (hnewest2 : s2.chatHistoryNewest = some sh)
    (hscan : scanForDupeAux s2 ((s2.nodes[lo]?.getD default).msg.msgId) s2.nodes.length (some sh)
      = (cnt, some dupe))
    (hdn : (s2.nodes[dupe]?.getD default).nextLink = some succ)
    (hdupelo : dupe ≠ lo) (hsucclo : succ ≠ lo) :
    handleHistoryReplyCore serverMsgs s =
      { nodes := (s2.nodes.set lo
            { s2.nodes[lo]?.getD default with nextLink := some succ }).set succ
          { s2.nodes[succ]?.getD default with prevLink := some lo }
        chatHistoryNewest := s.chatHistoryNewest
        chatHistoryOldest := s2.chatHistoryOldest
        chatHistoryNum := s2.chatHistoryNum - (cnt : Int) + s.chatHistoryNum
        chatHistoryMax := s.chatHistoryMax } := by
  simp [handleHistoryReplyCore, HistoryState.setPrev, HistoryState.setNext, HistoryState.setNode,
    HistoryState.get, hs2, holdest, hnewest2, hscan, hdn,
    List.getElem?_set_ne (Ne.symm hdupelo), List.getElem?_set_ne (Ne.symm hsucclo)]

/-- Closed form of the `HandleHistoryReply` merge when the scan finds a
duplicate at the very end of the server chain: the local oldest's
forward link is cleared and the whole server chain is discarded (note
that `ChatHistoryOldest` is left pointing at the discarded server
node). -/
theorem historyCore_eq_dupeEnd (s s2 : HistoryState) (serverMsgs : List Msg)
    (lo dupe sh : Nat) (cnt : Nat)
    (hs2 : serverMsgs.foldl addMessageToChatHistory
      { s with chatHistoryNewest := none, chatHistoryOldest := none
               chatHistoryNum := 0, chatHistoryMax := s.chatHistoryMax - s.chatHistoryNum } = s2)
    (holdest : s.chatHistoryOldest = some lo)
    (hnewest2 : s2.chatHistoryNewest = some sh)
    (hscan : scanForDupeAux s2 ((s2.nodes[lo]?.getD default).msg.msgId) s2.nodes.length (some sh)
      = (cnt, some dupe))
    (hdn : (s2.nodes[dupe]?.getD default).nextLink = none)
    (hdupelo : dupe ≠ lo) :
    handleHistoryReplyCore serverMsgs s =
      { nodes := s2.nodes.set lo { s2.nodes[lo]?.getD default with nextLink := none }
        chatHistoryNewest := s.chatHistoryNewest
        chatHistoryOldest := s2.chatHistoryOldest
        chatHistoryNum := s2.chatHistoryNum - (cnt : Int) + s.chatHistoryNum
        chatHistoryMax := s.chatHistoryMax } := by
  simp [handleHistoryReplyCore, HistoryState.setPrev, HistoryState.setNext, HistoryState.setNode,
    HistoryState.get, hs2, holdest, hnewest2, hscan, hdn,
    List.getElem?_set_ne (Ne.symm hdupelo)]

/-- The stash-and-rebuild prefix of `HandleHistoryReply` (lines
873-893): after resetting the member fields with the temporary
`ChatHistoryMax` and pushing the parsed server entries, a well-formed
server chain results, disjoint (by index) from the stashed local
nodes, which are untouched. -/
theorem mergeSetup (s : HistoryState) (l : List Nat) (serverMsgs : List Msg)
    (hwf : WfChain s l) (hle : s.chatHistoryNum ≤ s.chatHistoryMax) :
    ∃ ls, WfChain (serverMsgs.foldl addMessageToChatHistory
        { s with chatHistoryNewest := none, chatHistoryOldest := none,
                 chatHistoryNum := 0, chatHistoryMax := s.chatHistoryMax - s.chatHistoryNum }) ls ∧
      (serverMsgs.foldl addMessageToChatHistory
        { s with chatHistoryNewest := none, chatHistoryOldest := none,
                 chatHistoryNum := 0, chatHistoryMax := s.chatHistoryMax - s.chatHistoryNum }).chatHistoryMax
        = s.chatHistoryMax - s.chatHistoryNum ∧
      ls.map (fun j => ((serverMsgs.foldl addMessageToChatHistory
        { s with chatHistoryNewest := none, chatHistoryOldest := none,
                 chatHistoryNum := 0, chatHistoryMax := s.chatHistoryMax - s.chatHistoryNum }).get j).msg)
        = ((serverMsgs.filter fun mm => !mm.isWhisper).reverse).take
            (s.chatHistoryMax - s.chatHistoryNum).toNat ∧
      s.nodes.length ≤ (serverMsgs.foldl addMessageToChatHistory
        { s with chatHistoryNewest := none, chatHistoryOldest := none,
                 chatHistoryNum := 0, chatHistoryMax := s.chatHistoryMax - s.chatHistoryNum }).nodes.length ∧
      (∀ j ∈ ls, s.nodes.length ≤ j) ∧
      (∀ j, j < s.nodes.length →
        (serverMsgs.foldl addMessageToChatHistory
          { s with chatHistoryNewest := none, chatHistoryOldest := none,
                   chatHistoryNum := 0,
                   chatHistoryMax := s.chatHistoryMax - s.chatHistoryNum }).get j = s.get j) := by
  have hwf1 : WfChain { s with chatHistoryNewest := none, chatHistoryOldest := none,
                                chatHistoryNum := 0,
                                chatHistoryMax := s.chatHistoryMax - s.chatHistoryNum } [] := by
    refine ⟨?_, rfl, rfl, List.nodup_nil⟩
    simp [listChain, chainSeg]
  have hle1 : ({ s with chatHistoryNewest := none, chatHistoryOldest := none,
                        chatHistoryNum := 0,
                        chatHistoryMax := s.chatHistoryMax - s.chatHistoryNum }
        : HistoryState).chatHistoryNum
      ≤ ({ s with chatHistoryNewest := none, chatHistoryOldest := none,
                  chatHistoryNum := 0,
                  chatHistoryMax := s.chatHistoryMax - s.chatHistoryNum }
        : HistoryState).chatHistoryMax := by
    simp only
    omega
  obtain ⟨ls, h1, h2, h3, h4, h5, h6, h7, h8⟩ := pushSeq_wf serverMsgs _ [] hwf1 hle1
  refine ⟨ls, h1, h3, ?_, h5, ?_, ?_⟩
  · rw [h4]
    simp
  · intro j hj
    rcases h6 j hj with h | h
    · exact absurd h (List.not_mem_nil _)
    · exact h
  · intro j hj
    exact h7 j hj (List.not_mem_nil _)

/-- The splice performed at the end of `HandleHistoryReply`: pointing
the local oldest (`lo`) at a segment head (`sh`) and the segment head
back at `lo` concatenates the two chains. -/
theorem chainSeg_splice (ns : List Node) (ca : Option Nat) (l0 : List Nat) (lo : Nat)
    (q p0 : Option Nat) (sh : Nat) (post : List Nat)
    (hl : chainSeg ns none ca (l0 ++ [lo]) q = true)
    (hs : chainSeg ns p0 (some sh) (sh :: post) none = true)
    (hd1 : lo ∉ l0) (hd2 : sh ∉ post) (hd3 : lo ∉ (sh :: post)) (hd4 : sh ∉ l0 ++ [lo]) :
    chainSeg ((ns.set lo { ns.getD lo default with nextLink := some sh }).set sh
        { ns.getD sh default with prevLink := some lo }) none ca
      ((l0 ++ [lo]) ++ (sh :: post)) none = true := by
  have hshlo : sh ≠ lo := fun hcon => hd4 (hcon ▸ List.mem_append_right _ (List.mem_singleton_self _))
  rw [chainSeg_snoc] at hl
  obtain ⟨h1, hlolt, hloprev, _⟩ := hl
  have h1a : chainSeg (ns.set lo { ns.getD lo default with nextLink := some sh })
      none ca l0 (some lo) = true := by
    rw [chainSeg_set_notMem _ _ _ _ _ _ _ hd1]
    exact h1
  have h2 : chainSeg (ns.set lo { ns.getD lo default with nextLink := some sh })
      none ca (l0 ++ [lo]) (some sh) = true := by
    rw [chainSeg_snoc]
    refine ⟨h1a, by simpa using hlolt, ?_, ?_⟩
    · rw [getD_set_self _ _ _ hlolt]
      exact hloprev
    · rw [getD_set_self _ _ _ hlolt]
  have h3 : chainSeg ((ns.set lo { ns.getD lo default with nextLink := some sh }).set sh
      { ns.getD sh default with prevLink := some lo }) none ca (l0 ++ [lo]) (some sh) = true := by
    rw [chainSeg_set_notMem _ _ _ _ _ _ _ hd4]
    exact h2
  have hs1 : chainSeg (ns.set lo { ns.getD lo default with nextLink := some sh })
      p0 (some sh) (sh :: post) none = true := by
    rw [chainSeg_set_notMem _ _ _ _ _ _ _ hd3]
    exact hs
  have hs2 := chainSeg_head_prev _ sh post (some sh) none p0 (some lo) hd2 hs1
  have hsetval : (ns.set lo
      { ns.getD lo default with nextLink := some sh }).getD sh default = ns.getD sh default :=
    getD_set_ne _ _ _ _ (Ne.symm hshlo)
  rw [hsetval] at hs2
  refine chainSeg_concat _ none ca (l0 ++ [lo]) (some sh) (sh :: post) none h3 ?_
  have hend : endPrev none (l0 ++ [lo]) = some lo := by
    rw [endPrev, List.getLast?_concat]
  rw [hend]
  exact hs2

/-- C3 (amended): merging a server-reported history that shares no
message ids with the locally accumulated history, when at least one
server message is retained, yields `ChatHistoryNum = localCount +
serverCount` (with `serverCount` the number of retained server
messages, capped by the remaining budget), leaves the local messages
unchanged at the newest end of the chain, and restores
`ChatHistoryMax` to its pre-merge value. -/
theorem historyMerge_disjoint (s : HistoryState) (l : List Nat) (serverMsgs : List Msg)
    (hwf : WfChain s l) (hle : s.chatHistoryNum ≤ s.chatHistoryMax)
    (hnw : ∀ m ∈ serverMsgs, m.isWhisper = false)
    (hne : serverMsgs ≠ []) (hroom : s.chatHistoryNum < s.chatHistoryMax)
    (hdisj : ∀ m ∈ serverMsgs, ∀ j ∈ l, m.msgId ≠ (s.get j).msg.msgId) :
    ∃ ls, WfChain (handleHistoryReplyCore serverMsgs s) (l ++ ls) ∧
      ls.length = min serverMsgs.length (s.chatHistoryMax - s.chatHistoryNum).toNat ∧
      (handleHistoryReplyCore serverMsgs s).chatHistoryNum
        = s.chatHistoryNum + (ls.length : Int) ∧
      (handleHistoryReplyCore serverMsgs s).chatHistoryMax = s.chatHistoryMax ∧
      (∀ j ∈ l, ((handleHistoryReplyCore serverMsgs s).get j).msg = (s.get j).msg) := by
  obtain ⟨ls, hwf2, hmax2, hmap2, hlen2, hmem2, hframe2⟩ := mergeSetup s l serverMsgs hwf hle
  have hfilter : serverMsgs.filter (fun mm => !mm.isWhisper) = serverMsgs :=
    List.filter_eq_self.mpr (fun m hm => by simp [hnw m hm])
  rw [hfilter] at hmap2
  have hKpos : 0 < (s.chatHistoryMax - s.chatHistoryNum).toNat := by omega
  have hlslen : ls.length
      = min serverMsgs.length (s.chatHistoryMax - s.chatHistoryNum).toNat := by
    have hc := congrArg List.length hmap2
    rw [List.length_map, List.length_take, List.length_reverse] at hc
    rw [hc, Nat.min_comm]
  have hlsne : ls ≠ [] := by
    intro hcon
    rw [hcon] at hlslen
    have h1 : 0 < serverMsgs.length := List.length_pos.mpr hne
    have h2 := Nat.lt_min.mpr ⟨h1, hKpos⟩
    rw [← hlslen] at h2
    simp at h2
  obtain ⟨sh, lstail, rfl⟩ : ∃ sh lstail, ls = sh :: lstail := by
    cases ls with
    | nil => exact absurd rfl hlsne
    | cons x xs => exact ⟨x, xs, rfl⟩
  have hnewest2 : (serverMsgs.foldl addMessageToChatHistory
      { s with chatHistoryNewest := none, chatHistoryOldest := none,
               chatHistoryNum := 0,
               chatHistoryMax := s.chatHistoryMax - s.chatHistoryNum }).chatHistoryNewest
      = some sh := wfChain_newest_cons _ _ _ hwf2
  have hmeml : ∀ j ∈ l, j < s.nodes.length :=
    chainSeg_mem_lt s.nodes none s.chatHistoryNewest l none hwf.1
  have hlsmsgs : ∀ j ∈ (sh :: lstail),
      ((serverMsgs.foldl addMessageToChatHistory
        { s with chatHistoryNewest := none, chatHistoryOldest := none,
                 chatHistoryNum := 0,
                 chatHistoryMax := s.chatHistoryMax - s.chatHistoryNum }).get j).msg
        ∈ serverMsgs := by
    intro j hj
    have hmm : ((serverMsgs.foldl addMessageToChatHistory
        { s with chatHistoryNewest := none, chatHistoryOldest := none,
                 chatHistoryNum := 0,
                 chatHistoryMax := s.chatHistoryMax - s.chatHistoryNum }).get j).msg
        ∈ (sh :: lstail).map (fun j => ((serverMsgs.foldl addMessageToChatHistory
          { s with chatHistoryNewest := none, chatHistoryOldest := none,
                   chatHistoryNum := 0,
                   chatHistoryMax := s.chatHistoryMax - s.chatHistoryNum }).get j).msg) :=
      List.mem_map_of_mem _ hj
    rw [hmap2] at hmm
    exact List.mem_reverse.mp (List.mem_of_mem_take hmm)
  cases l with
  | nil =>
    have holdn : s.chatHistoryOldest = none := by simpa using hwf.2.1
    have hnum0 : s.chatHistoryNum = 0 := by simpa using hwf.2.2.1
    rw [historyCore_eq_localEmpty s _ serverMsgs sh rfl holdn hnewest2]
    refine ⟨sh :: lstail, by simpa using hwf2, hlslen, ?_, ?_, by simp⟩
    · rw [hwf2.2.2.1, hnum0]
      ring
    · rw [hmax2, hnum0]
      ring
  | cons a ltail =>
    have hlne : (a :: ltail) ≠ [] := List.cons_ne_nil _ _
    have hsplit : (a :: ltail).dropLast ++ [(a :: ltail).getLast hlne] = a :: ltail :=
      List.dropLast_concat_getLast _
    set lo := (a :: ltail).getLast hlne with hlodef
    set l0 := (a :: ltail).dropLast with hl0def
    have hlol : lo ∈ (a :: ltail) := List.getLast_mem _
    have hlolt : lo < s.nodes.length := hmeml lo hlol
    have holdlo : s.chatHistoryOldest = some lo := by
      rw [hwf.2.1]
      exact List.getLast?_eq_getLast _ _
    have hgetlo : (serverMsgs.foldl addMessageToChatHistory
        { s with chatHistoryNewest := none, chatHistoryOldest := none,
                 chatHistoryNum := 0,
                 chatHistoryMax := s.chatHistoryMax - s.chatHistoryNum }).get lo = s.get lo :=
      hframe2 lo hlolt
    have hchain2seg : chainSeg (serverMsgs.foldl addMessageToChatHistory
        { s with chatHistoryNewest := none, chatHistoryOldest := none,
                 chatHistoryNum := 0,
                 chatHistoryMax := s.chatHistoryMax - s.chatHistoryNum }).nodes
        none (some sh) (sh :: lstail) none = true := by
      have hx := hwf2.1
      rw [listChain, hnewest2] at hx
      exact hx
    have hscan0 : scanForDupeAux (serverMsgs.foldl addMessageToChatHistory
        { s with chatHistoryNewest := none, chatHistoryOldest := none,
                 chatHistoryNum := 0,
                 chatHistoryMax := s.chatHistoryMax - s.chatHistoryNum })
        (((serverMsgs.foldl addMessageToChatHistory
          { s with chatHistoryNewest := none, chatHistoryOldest := none,
                   chatHistoryNum := 0,
                   chatHistoryMax := s.chatHistoryMax - s.chatHistoryNum }).get lo).msg.msgId)
        (serverMsgs.foldl addMessageToChatHistory
          { s with chatHistoryNewest := none, chatHistoryOldest := none,
                   chatHistoryNum := 0,
                   chatHistoryMax := s.chatHistoryMax - s.chatHistoryNum }).nodes.length
        (some sh) = ((sh :: lstail).length, none) := by
      refine scanForDupe_not_found _ _ (sh :: lstail) _ none (some sh) hchain2seg ?_
        (nodup_length_le _ _ (chainSeg_mem_lt _ _ _ _ _ hchain2seg) hwf2.2.2.2)
      intro j hj
      rw [hgetlo]
      exact hdisj _ (hlsmsgs j hj) lo hlol
    have hscan1 := hscan0
    rw [show ((serverMsgs.foldl addMessageToChatHistory
        { s with chatHistoryNewest := none, chatHistoryOldest := none,
                 chatHistoryNum := 0,
                 chatHistoryMax := s.chatHistoryMax - s.chatHistoryNum }).get lo)
        = ((serverMsgs.foldl addMessageToChatHistory
          { s with chatHistoryNewest := none, chatHistoryOldest := none,
                   chatHistoryNum := 0,
                   chatHistoryMax := s.chatHistoryMax - s.chatHistoryNum }).nodes[lo]?.getD
          default) from by
      simp [HistoryState.get, List.getD_eq_getElem?_getD]] at hscan1
    have hshge : s.nodes.length ≤ sh := hmem2 sh (List.mem_cons_self _ _)
    have hshlo : sh ≠ lo := by omega
    rw [historyCore_eq_noDupe s _ serverMsgs lo sh _ rfl holdlo hnewest2 hshlo hscan1]
    simp only [← List.getD_eq_getElem?_getD]
    have hnewestl : s.chatHistoryNewest = some a := wfChain_newest_cons _ _ _ hwf
    have hlocal2 : chainSeg (serverMsgs.foldl addMessageToChatHistory
        { s with chatHistoryNewest := none, chatHistoryOldest := none,
                 chatHistoryNum := 0,
                 chatHistoryMax := s.chatHistoryMax - s.chatHistoryNum }).nodes
        none (some a) (a :: ltail) none = true := by
      refine chainSeg_congr s.nodes _ none (some a) (a :: ltail) none hlen2 ?_ ?_
      · intro j hj
        exact hframe2 j (hmeml j hj)
      · have hx := hwf.1
        rw [listChain, hnewestl] at hx
        exact hx
    have hdisjle : ∀ j ∈ (a :: ltail), ∀ k ∈ (sh :: lstail), j ≠ k := by
      intro j hj k hk
      have h1 := hmeml j hj
      have h2 := hmem2 k hk
      omega
    have hsplice := chainSeg_splice (serverMsgs.foldl addMessageToChatHistory
        { s with chatHistoryNewest := none, chatHistoryOldest := none,
                 chatHistoryNum := 0,
                 chatHistoryMax := s.chatHistoryMax - s.chatHistoryNum }).nodes
      (some a) l0 lo none none sh lstail (by rw [hsplit]; exact hlocal2) hchain2seg
      (by
        have := hwf.2.2.2
        rw [← hsplit] at this
        have hdisj2 := (List.nodup_append.mp this).2.2
        intro hcon
        exact hdisj2 hcon (List.mem_singleton_self _))
      (by
        have := hwf2.2.2.2
        exact (List.nodup_cons.mp this).1)
      (by
        intro hcon
        exact (hdisjle lo hlol sh (List.mem_cons_self _ _)) (by
          rcases List.mem_cons.mp hcon with h | h
          · exact h
          · exact absurd h (by
              intro hmem
              exact (hdisjle lo hlol lo (List.mem_cons_of_mem _ hmem)) rfl)))
      (by
        intro hcon
        rw [hsplit] at hcon
        exact (hdisjle sh hcon sh (List.mem_cons_self _ _)) rfl)
    rw [hsplit] at hsplice
    refine ⟨sh :: lstail, ⟨?_, ?_, ?_, ?_⟩, hlslen, ?_, ?_, ?_⟩
    · rw [listChain]
      simp only [hnewestl]
      exact hsplice
    · simp only
      rw [hwf2.2.1, List.getLast?_append]
      rw [List.getLast?_eq_getLast (sh :: lstail) (List.cons_ne_nil _ _)]
      rfl
    · simp only
      rw [hwf2.2.2.1, hwf.2.2.1]
      simp only [List.length_append, List.length_cons]
      push_cast
      ring
    · refine List.nodup_append.mpr ⟨hwf.2.2.2, hwf2.2.2.2, ?_⟩
      intro j hjl hjls
      exact hdisjle j hjl j hjls rfl
    · rw [hwf2.2.2.1, hwf.2.2.1]
      ring
    · trivial
    · intro j hj
      have hjlt : j < s.nodes.length := hmeml j hj
      have hjsh : j ≠ sh := by omega
      simp only [HistoryState.get]
      rw [getD_set_ne _ _ _ _ (Ne.symm hjsh), getD_msg_set_next]
      have hx := hframe2 j hjlt
      simp only [HistoryState.get] at hx
      rw [hx]

/-- Splitting a chain segment at an append point. -/
theorem chainSeg_split (ns : List Node) (l1 l2 : List Nat) :
    ∀ (p c e : Option Nat), chainSeg ns p c (l1 ++ l2) e = true →
    ∃ q, chainSeg ns p c l1 q = true ∧ chainSeg ns (endPrev p l1) q l2 e = true := by
  induction l1 with
  | nil =>
    intro p c e h
    refine ⟨c, by simp [chainSeg], ?_⟩
    simpa [endPrev] using h
  | cons i rest ih =>
    intro p c e h
    simp only [List.cons_append, chainSeg, Bool.and_eq_true, decide_eq_true_eq] at h
    obtain ⟨⟨⟨h1, h2⟩, h3⟩, h4⟩ := h
    obtain ⟨q, hq1, hq2⟩ := ih (some i) ((ns.getD i default).nextLink) e h4
    refine ⟨q, ?_, ?_⟩
    · simp only [chainSeg, Bool.and_eq_true, decide_eq_true_eq]
      exact ⟨⟨⟨h1, h2⟩, h3⟩, hq1⟩
    · rw [endPrev_cons]
      exact hq2

/-- Messages survive the splice's pair of link patches. -/
theorem getD_msg_set2b (ns : List Node) (a b : Nat) (va vb : Option Nat) (hab : a ≠ b)
    (j : Nat) :
    (((ns.set a { ns.getD a default with nextLink := va }).set b
        { ns.getD b default with prevLink := vb }).getD j default).msg
      = (ns.getD j default).msg := by
  have h1 : (ns.set a { ns.getD a default with nextLink := va }).getD b default
      = ns.getD b default := getD_set_ne _ _ _ _ hab
  have h2 := getD_msg_set_prev (ns.set a { ns.getD a default with nextLink := va }) b vb j
  rw [h1] at h2
  rw [h2, getD_msg_set_next]

/-- Counterexample to C3 as stated: if every server message is
filtered out (here, a whispered message), the merge shares no ids with
the local history and `serverCount = 0`, yet `ChatHistoryNum` drops
from 1 to 0 and `ChatHistoryMax` is left at 9 instead of being
restored to 10: the early-return branch for an empty rebuilt chain
skips the restoration of both counters. -/
theorem historyMerge_disjoint_cex :
    (∀ m ∈ [mkWhisperMsg 5], ∀ j ∈ [0],
      m.msgId ≠ ((addMessageToChatHistory (emptyHistory 10) (mkIdMsg 7)).get j).msg.msgId) ∧
    (addMessageToChatHistory (emptyHistory 10) (mkIdMsg 7)).chatHistoryNum = 1 ∧
    (addMessageToChatHistory (emptyHistory 10) (mkIdMsg 7)).chatHistoryMax = 10 ∧
    (handleHistoryReplyCore [mkWhisperMsg 5]
      (addMessageToChatHistory (emptyHistory 10) (mkIdMsg 7))).chatHistoryNum ≠ 1 ∧
    (handleHistoryReplyCore [mkWhisperMsg 5]
      (addMessageToChatHistory (emptyHistory 10) (mkIdMsg 7))).chatHistoryMax ≠ 10 := by
  refine ⟨by decide, by decide, by decide, by decide, by decide⟩

theorem historyMerge_disjoint_witness :
    WfChain (([7, 8].map mkIdMsg).foldl addMessageToChatHistory (emptyHistory 10)) [1, 0] ∧
    (∃ ls, WfChain (handleHistoryReplyCore [mkIdMsg 5, mkIdMsg 6]
        (([7, 8].map mkIdMsg).foldl addMessageToChatHistory (emptyHistory 10))) ([1, 0] ++ ls) ∧
      ls.length = min ([mkIdMsg 5, mkIdMsg 6] : List Msg).length
        ((([7, 8].map mkIdMsg).foldl addMessageToChatHistory (emptyHistory 10)).chatHistoryMax
          - (([7, 8].map mkIdMsg).foldl addMessageToChatHistory
              (emptyHistory 10)).chatHistoryNum).toNat ∧
      (handleHistoryReplyCore [mkIdMsg 5, mkIdMsg 6]
        (([7, 8].map mkIdMsg).foldl addMessageToChatHistory (emptyHistory 10))).chatHistoryNum
        = (([7, 8].map mkIdMsg).foldl addMessageToChatHistory
            (emptyHistory 10)).chatHistoryNum + (ls.length : Int) ∧
      (handleHistoryReplyCore [mkIdMsg 5, mkIdMsg 6]
        (([7, 8].map mkIdMsg).foldl addMessageToChatHistory (emptyHistory 10))).chatHistoryMax
        = (([7, 8].map mkIdMsg).foldl addMessageToChatHistory
            (emptyHistory 10)).chatHistoryMax ∧
      (∀ j ∈ [1, 0], ((handleHistoryReplyCore [mkIdMsg 5, mkIdMsg 6]
          (([7, 8].map mkIdMsg).foldl addMessageToChatHistory (emptyHistory 10))).get j).msg
        = ((([7, 8].map mkIdMsg).foldl addMessageToChatHistory (emptyHistory 10)).get j).msg)) := by
  have hwf : WfChain (([7, 8].map mkIdMsg).foldl addMessageToChatHistory
      (emptyHistory 10)) [1, 0] :=
    ⟨by decide, by decide, by decide, by decide⟩
  exact ⟨hwf, historyMerge_disjoint _ [1, 0] [mkIdMsg 5, mkIdMsg 6] hwf (by decide)
    (by decide) (by decide) (by decide) (by decide)⟩

/-- C4: when the server-built chain contains a node carrying the local
oldest message's id, the first such node and every server node newer
than it are discarded: the final chain is the local chain followed by
exactly the server nodes older than the duplicate, no kept server node
carries the duplicated id, `ChatHistoryNum` is reduced by the number
of scanned (discarded) server nodes, and `ChatHistoryMax` is restored.
The server-built messages (newest first) are decomposed as
`pre ++ d :: post` at the first occurrence of the local oldest id. -/
theorem historyMerge_dupeLocalOldest (s : HistoryState) (a : Nat) (ltail : List Nat)
    (serverMsgs : List Msg) (pre post : List Msg) (d : Msg)
    (hwf : WfChain s (a :: ltail)) (hle : s.chatHistoryNum ≤ s.chatHistoryMax)
    (hdec : ((serverMsgs.filter fun mm => !mm.isWhisper).reverse).take
        (s.chatHistoryMax - s.chatHistoryNum).toNat = pre ++ d :: post)
    (hd : d.msgId = (s.get ((a :: ltail).getLast (List.cons_ne_nil a ltail))).msg.msgId)
    (hpre : ∀ m ∈ pre, m.msgId ≠ d.msgId)
    (hpost : ∀ m ∈ post, m.msgId ≠ d.msgId) :
    ∃ lsPost,
      listChain (handleHistoryReplyCore serverMsgs s) ((a :: ltail) ++ lsPost) = true ∧
      ((a :: ltail) ++ lsPost).Nodup ∧
      lsPost.map (fun j => ((handleHistoryReplyCore serverMsgs s).get j).msg) = post ∧
      (handleHistoryReplyCore serverMsgs s).chatHistoryNum
        = s.chatHistoryNum + (post.length : Int) ∧
      (handleHistoryReplyCore serverMsgs s).chatHistoryNum
        = s.chatHistoryNum + ((pre ++ d :: post).length : Int) - ((pre.length : Int) + 1) ∧
      (handleHistoryReplyCore serverMsgs s).chatHistoryMax = s.chatHistoryMax ∧
      (∀ j ∈ (a :: ltail),
        ((handleHistoryReplyCore serverMsgs s).get j).msg = (s.get j).msg) ∧
      (∀ j ∈ lsPost,
        ((handleHistoryReplyCore serverMsgs s).get j).msg.msgId ≠ d.msgId) := by
  obtain ⟨ls, hwf2, hmax2, hmap2, hlen2, hmem2, hframe2⟩ :=
    mergeSetup s (a :: ltail) serverMsgs hwf hle
  set s2 := serverMsgs.foldl addMessageToChatHistory
    { s with chatHistoryNewest := none, chatHistoryOldest := none,
             chatHistoryNum := 0,
             chatHistoryMax := s.chatHistoryMax - s.chatHistoryNum } with hs2def
  rw [hdec, List.map_eq_append_iff] at hmap2
  obtain ⟨lsA, lsR, rfl, hmapA, hmapR⟩ := hmap2
  rw [List.map_eq_cons_iff] at hmapR
  obtain ⟨dn, lsB, rfl, hmapd, hmapB⟩ := hmapR
  have hlne : (a :: ltail) ≠ [] := List.cons_ne_nil _ _
  have hsplit : (a :: ltail).dropLast ++ [(a :: ltail).getLast hlne] = a :: ltail :=
    List.dropLast_concat_getLast _
  set lo := (a :: ltail).getLast hlne with hlodef
  set l0 := (a :: ltail).dropLast with hl0def
  have hlol : lo ∈ (a :: ltail) := List.getLast_mem _
  have hmeml : ∀ j ∈ (a :: ltail), j < s.nodes.length :=
    chainSeg_mem_lt s.nodes none s.chatHistoryNewest (a :: ltail) none hwf.1
  have hlolt : lo < s.nodes.length := hmeml lo hlol
  have holdlo : s.chatHistoryOldest = some lo := by
    rw [hwf.2.1]
    exact List.getLast?_eq_getLast _ _
  obtain ⟨sh, lstail, heq⟩ : ∃ sh lstail, lsA ++ dn :: lsB = sh :: lstail := by
    cases hx : lsA ++ dn :: lsB with
    | nil => exact absurd hx (by simp)
    | cons x xs => exact ⟨x, xs, rfl⟩
  have hwf2x := hwf2
  rw [heq] at hwf2x
  have hnewest2 : s2.chatHistoryNewest = some sh := wfChain_newest_cons _ _ _ hwf2x
  have hchain2 : chainSeg s2.nodes none (some sh) (lsA ++ dn :: lsB) none = true := by
    have hx := hwf2.1
    rw [listChain, hnewest2] at hx
    exact hx
  have hgetlo : s2.get lo = s.get lo := hframe2 lo hlolt
  have htarget : (s2.get lo).msg.msgId = d.msgId := by
    rw [hgetlo]
    exact hd.symm
  have hmapdx : (s2.get dn).msg = d := hmapd
  have hpreN : ∀ j ∈ lsA, (s2.get j).msg.msgId ≠ (s2.get lo).msg.msgId := by
    intro j hj
    rw [htarget]
    have hmm : (s2.get j).msg ∈ pre := by
      rw [← hmapA]
      exact List.mem_map_of_mem _ hj
    exact hpre _ hmm
  have hdN : (s2.get dn).msg.msgId = (s2.get lo).msg.msgId := by
    rw [htarget, hmapdx]
  have hfuel : lsA.length + 1 ≤ s2.nodes.length := by
    have hlenle := nodup_length_le (lsA ++ dn :: lsB) s2.nodes.length
      (chainSeg_mem_lt _ _ _ _ _ hchain2) hwf2.2.2.2
    simp only [List.length_append, List.length_cons] at hlenle
    omega
  have hscan0 : scanForDupeAux s2 ((s2.get lo).msg.msgId) s2.nodes.length (some sh)
      = (lsA.length + 1, some dn) :=
    scanForDupe_found s2 _ lsA s2.nodes.length none (some sh) dn lsB hchain2 hpreN hdN hfuel
  have hscan1 := hscan0
  rw [show (s2.get lo) = (s2.nodes[lo]?.getD default) from by
    simp [HistoryState.get, List.getD_eq_getElem?_getD]] at hscan1
  have hchain2x : chainSeg s2.nodes none (some sh) ((lsA ++ [dn]) ++ lsB) none = true := by
    rw [show (lsA ++ [dn]) ++ lsB = lsA ++ dn :: lsB from by simp]
    exact hchain2
  obtain ⟨q, hq1, hq2⟩ := chainSeg_split s2.nodes (lsA ++ [dn]) lsB none (some sh) none hchain2x
  rw [chainSeg_snoc] at hq1
  obtain ⟨hq1a, hdnlt, hdnprev, hdnnext⟩ := hq1
  have hendA : endPrev none (lsA ++ [dn]) = some dn := by
    rw [endPrev, List.getLast?_concat]
  rw [hendA] at hq2
  have hdnmem : dn ∈ lsA ++ dn :: lsB := by simp
  have hdnge : s.nodes.length ≤ dn := hmem2 dn hdnmem
  have hdnlo : dn ≠ lo := by omega
  have hdisjle : ∀ j ∈ (a :: ltail), ∀ k ∈ lsA ++ dn :: lsB, j ≠ k := by
    intro j hj k hk
    have h1 := hmeml j hj
    have h2 := hmem2 k hk
    omega
  have hnewestl : s.chatHistoryNewest = some a := wfChain_newest_cons _ _ _ hwf
  have hlocal2 : chainSeg s2.nodes none (some a) (a :: ltail) none = true := by
    refine chainSeg_congr s.nodes _ none (some a) (a :: ltail) none hlen2 ?_ ?_
    · intro j hj
      exact hframe2 j (hmeml j hj)
    · have hx := hwf.1
      rw [listChain, hnewestl] at hx
      exact hx
  have hndl : lo ∉ l0 := by
    have hx := hwf.2.2.2
    rw [← hsplit] at hx
    have hy := (List.nodup_append.mp hx).2.2
    intro hcon
    exact hy hcon (List.mem_singleton_self _)
  cases lsB with
  | nil =>
    have hqnone : q = none := by simpa [chainSeg] using hq2
    rw [hqnone] at hdnnext
    have hdnnextQ : (s2.nodes[dn]?.getD default).nextLink = none := by
      rw [← List.getD_eq_getElem?_getD]
      exact hdnnext
    have hpostnil : post = [] := by simpa using hmapB.symm
    rw [historyCore_eq_dupeEnd s s2 serverMsgs lo dn sh (lsA.length + 1) hs2def.symm holdlo
      hnewest2 hscan1 hdnnextQ hdnlo]
    simp only [← List.getD_eq_getElem?_getD]
    refine ⟨[], ?_, ?_, ?_, ?_, ?_, ?_, ?_, ?_⟩
    · rw [listChain]
      simp only [List.append_nil, hnewestl]
      rw [← hsplit]
      exact chainSeg_cut_last s2.nodes none (some a) l0 lo none hndl
        (by rw [hsplit]; exact hlocal2)
    · simpa using hwf.2.2.2
    · simp [hpostnil]
    · rw [hpostnil, hwf2.2.2.1]
      simp only [List.length_append, List.length_cons, List.length_nil]
      push_cast
      ring
    · have hlpre : lsA.length = pre.length := by simpa using congrArg List.length hmapA
      rw [hwf2.2.2.1, hpostnil]
      simp only [List.length_append, List.length_cons, List.length_nil]
      push_cast [hlpre]
      ring
    · trivial
    · intro j hj
      simp only [HistoryState.get]
      rw [getD_msg_set_next]
      have hx := hframe2 j (hmeml j hj)
      simp only [HistoryState.get] at hx
      rw [hx]
    · intro j hj
      exact absurd hj (List.not_mem_nil _)
  | cons succ lsB2 =>
    have hqsucc : q = some succ := by
      simp only [chainSeg, Bool.and_eq_true, decide_eq_true_eq] at hq2
      exact hq2.1.1.1
    rw [hqsucc] at hdnnext hq2
    have hdnnextQ : (s2.nodes[dn]?.getD default).nextLink = some succ := by
      rw [← List.getD_eq_getElem?_getD]
      exact hdnnext
    have hsub : ∀ x ∈ succ :: lsB2, x ∈ lsA ++ dn :: succ :: lsB2 := fun x hx =>
      List.mem_append_right _ (List.mem_cons_of_mem _ hx)
    have hsuccge : s.nodes.length ≤ succ := hmem2 succ (hsub succ (List.mem_cons_self _ _))
    have hsucclo : succ ≠ lo := by omega
    rw [historyCore_eq_dupeMid s s2 serverMsgs lo dn succ sh (lsA.length + 1) hs2def.symm
      holdlo hnewest2 hscan1 hdnnextQ hdnlo hsucclo]
    simp only [← List.getD_eq_getElem?_getD]
    have hndsucc : succ ∉ lsB2 := by
      have h1 := (List.nodup_append.mp hwf2.2.2.2).2.1
      have h2 := (List.nodup_cons.mp h1).2
      exact (List.nodup_cons.mp h2).1
    have hsplice := chainSeg_splice s2.nodes (some a) l0 lo none (some dn) succ lsB2
      (by rw [hsplit]; exact hlocal2) hq2 hndl hndsucc
      (by
        intro hcon
        exact (hdisjle lo hlol lo (hsub lo hcon)) rfl)
      (by
        intro hcon
        rw [hsplit] at hcon
        exact (hdisjle succ hcon succ (hsub succ (List.mem_cons_self _ _))) rfl)
    rw [hsplit] at hsplice
    refine ⟨succ :: lsB2, ?_, ?_, ?_, ?_, ?_, ?_, ?_, ?_⟩
    · rw [listChain]
      simp only [hnewestl]
      exact hsplice
    · refine List.nodup_append.mpr ⟨hwf.2.2.2, ?_, ?_⟩
      · have h1 := (List.nodup_append.mp hwf2.2.2.2).2.1
        exact (List.nodup_cons.mp h1).2
      · intro j hj hk
        exact (hdisjle j hj j (hsub j hk)) rfl
    · have hmapBx : (succ :: lsB2).map (fun j => (s2.get j).msg) = post := hmapB
      rw [← hmapBx]
      refine List.map_congr_left ?_
      intro j hj
      simp only [HistoryState.get]
      exact getD_msg_set2b s2.nodes lo succ (some succ) (some lo) (Ne.symm hsucclo) j
    · have hlpost : post.length = lsB2.length + 1 := by
        simpa using (congrArg List.length hmapB).symm
      rw [hwf2.2.2.1]
      simp only [List.length_append, List.length_cons]
      push_cast [hlpost]
      ring
    · have hlpre : lsA.length = pre.length := by simpa using congrArg List.length hmapA
      have hlpost : post.length = lsB2.length + 1 := by
        simpa using (congrArg List.length hmapB).symm
      rw [hwf2.2.2.1]
      simp only [List.length_append, List.length_cons]
      push_cast [hlpre, hlpost]
      ring
    · trivial
    · intro j hj
      simp only [HistoryState.get]
      rw [getD_msg_set2b s2.nodes lo succ (some succ) (some lo) (Ne.symm hsucclo) j]
      have hx := hframe2 j (hmeml j hj)
      simp only [HistoryState.get] at hx
      rw [hx]
    · intro j hj
      simp only [HistoryState.get]
      rw [getD_msg_set2b s2.nodes lo succ (some succ) (some lo) (Ne.symm hsucclo) j]
      have h2 : (s2.get j).msg ∈ post := by
        rw [← hmapB]
        exact List.mem_map_of_mem _ hj
      exact hpost _ h2

theorem historyMerge_dupeLocalOldest_witness :
    WfChain (([10, 11].map mkIdMsg).foldl addMessageToChatHistory (emptyHistory 10)) [1, 0] ∧
    ((([mkIdMsg 5, mkIdMsg 10] : List Msg).filter fun mm => !mm.isWhisper).reverse).take
        ((([10, 11].map mkIdMsg).foldl addMessageToChatHistory (emptyHistory 10)).chatHistoryMax
          - (([10, 11].map mkIdMsg).foldl addMessageToChatHistory
              (emptyHistory 10)).chatHistoryNum).toNat
      = [] ++ mkIdMsg 10 :: [mkIdMsg 5] ∧
    (∃ lsPost,
      listChain (handleHistoryReplyCore [mkIdMsg 5, mkIdMsg 10]
          (([10, 11].map mkIdMsg).foldl addMessageToChatHistory (emptyHistory 10)))
        ([1, 0] ++ lsPost) = true ∧
      ([1, 0] ++ lsPost).Nodup ∧
      lsPost.map (fun j => ((handleHistoryReplyCore [mkIdMsg 5, mkIdMsg 10]
          (([10, 11].map mkIdMsg).foldl addMessageToChatHistory (emptyHistory 10))).get j).msg)
        = [mkIdMsg 5] ∧
      (handleHistoryReplyCore [mkIdMsg 5, mkIdMsg 10]
          (([10, 11].map mkIdMsg).foldl addMessageToChatHistory
            (emptyHistory 10))).chatHistoryNum
        = (([10, 11].map mkIdMsg).foldl addMessageToChatHistory
            (emptyHistory 10)).chatHistoryNum + (([mkIdMsg 5] : List Msg).length : Int) ∧
      (handleHistoryReplyCore [mkIdMsg 5, mkIdMsg 10]
          (([10, 11].map mkIdMsg).foldl addMessageToChatHistory
            (emptyHistory 10))).chatHistoryNum
        = (([10, 11].map mkIdMsg).foldl addMessageToChatHistory
            (emptyHistory 10)).chatHistoryNum
          + ((([] ++ mkIdMsg 10 :: [mkIdMsg 5] : List Msg)).length : Int)
          - ((([] : List Msg).length : Int) + 1) ∧
      (handleHistoryReplyCore [mkIdMsg 5, mkIdMsg 10]
          (([10, 11].map mkIdMsg).foldl addMessageToChatHistory
            (emptyHistory 10))).chatHistoryMax
        = (([10, 11].map mkIdMsg).foldl addMessageToChatHistory
            (emptyHistory 10)).chatHistoryMax ∧
      (∀ j ∈ [1, 0], ((handleHistoryReplyCore [mkIdMsg 5, mkIdMsg 10]
          (([10, 11].map mkIdMsg).foldl addMessageToChatHistory (emptyHistory 10))).get j).msg
        = ((([10, 11].map mkIdMsg).foldl addMessageToChatHistory (emptyHistory 10)).get j).msg) ∧
      (∀ j ∈ lsPost, ((handleHistoryReplyCore [mkIdMsg 5, mkIdMsg 10]
          (([10, 11].map mkIdMsg).foldl addMessageToChatHistory
            (emptyHistory 10))).get j).msg.msgId ≠ (mkIdMsg 10).msgId)) := by
  have hwf : WfChain (([10, 11].map mkIdMsg).foldl addMessageToChatHistory
      (emptyHistory 10)) [1, 0] :=
    ⟨by decide, by decide, by decide, by decide⟩
  refine ⟨hwf, by decide, ?_⟩
  exact historyMerge_dupeLocalOldest _ 1 [0] [mkIdMsg 5, mkIdMsg 10] [] [mkIdMsg 5]
    (mkIdMsg 10) hwf (by decide) (by decide) (by decide) (by decide) (by decide)

/-- C1: the history-cache invariant is NOT preserved by every mutating
operation. `HandleHistoryReply`, handed a reply whose rebuilt chain is
empty (here: no entries) while a local message is cached, returns
early without restoring `ChatHistoryNum`/`ChatHistoryMax`: the
resulting state still links one node (the stashed local chain, still
reachable from `ChatHistoryNewest`) yet reports `ChatHistoryNum = 0`,
non-null newest/oldest with a zero count, and a clamped
`ChatHistoryMax` of 9; a subsequent delete-all then drives
`ChatHistoryNum` to -1. -/
theorem history_invariant_code_bug :
    listChain (handleHistoryReplyCore []
      (addMessageToChatHistory (emptyHistory 10) (mkIdMsg 7))) [0] = true ∧
    (handleHistoryReplyCore []
      (addMessageToChatHistory (emptyHistory 10) (mkIdMsg 7))).chatHistoryNum = 0 ∧
    (handleHistoryReplyCore []
      (addMessageToChatHistory (emptyHistory 10) (mkIdMsg 7))).chatHistoryNewest = some 0 ∧
    (handleHistoryReplyCore []
      (addMessageToChatHistory (emptyHistory 10) (mkIdMsg 7))).chatHistoryOldest = some 0 ∧
    (handleHistoryReplyCore []
      (addMessageToChatHistory (emptyHistory 10) (mkIdMsg 7))).chatHistoryMax = 9 ∧
    (deleteFromChatHistoryIf (fun _ => true)
      (handleHistoryReplyCore []
        (addMessageToChatHistory (emptyHistory 10) (mkIdMsg 7)))).1.chatHistoryNum = -1 := by
  refine ⟨by decide, by decide, by decide, by decide, by decide, by decide⟩

theorem sentIds_append (a b : List OutEvent) : sentIds (a ++ b) = sentIds a ++ sentIds b := by
  simp [sentIds]

theorem entry_no_frame (o : JVal) :
    sentIds (handleChatMessageEventMessageArrayEntry o).2 = [] := by
  cases h1 : tryGetString o "type" with
  | none => simp [handleChatMessageEventMessageArrayEntry, h1, sentIds]
  | some t =>
    cases h2 : tryGetString o "text" with
    | none => simp [handleChatMessageEventMessageArrayEntry, h1, h2, sentIds]
    | some tx => simp [handleChatMessageEventMessageArrayEntry, h1, h2, sentIds]

theorem fragmentsFold_no_frame (frags : List JVal) :
    sentIds (fragmentsFold frags).2 = [] := by
  induction frags with
  | nil => simp [fragmentsFold, sentIds]
  | cons f rest ih =>
    cases f <;> simp [fragmentsFold, sentIds_append, ih, entry_no_frame]

theorem msgObject_no_frame (o : JVal) (m0 : Msg) :
    sentIds (handleChatMessageEventMessageObject o m0).2 = [] := by
  cases h1 : tryGetArr o "message" with
  | none => simp [handleChatMessageEventMessageObject, h1, sentIds]
  | some frags => simp [handleChatMessageEventMessageObject, h1, fragmentsFold_no_frame]

theorem sentIds_decodeError : sentIds [OutEvent.decodeErrorLogged] = [] := by
  simp [sentIds]

theorem sentIds_cons_warning (evs : List OutEvent) :
    sentIds (OutEvent.warningLogged :: evs) = sentIds evs := by
  simp [sentIds]

theorem sentIds_cons_joined (uid : Int) (evs : List OutEvent) :
    sentIds (OutEvent.memberJoined uid :: evs) = sentIds evs := by
  simp [sentIds]

theorem sentIds_warning : sentIds [OutEvent.warningLogged] = [] := by
  simp [sentIds]

theorem sentIds_joined (uid : Int) : sentIds [OutEvent.memberJoined uid] = [] := by
  simp [sentIds]

theorem sentIds_room (m : Msg) : sentIds [OutEvent.roomMessage m] = [] := by
  simp [sentIds]

theorem sentIds_priv (m : Msg) : sentIds [OutEvent.privateMessage m] = [] := by
  simp [sentIds]

theorem chatMessageParse_no_frame (users : List (Int × ChatUser)) (o : JVal) :
    sentIds (chatMessageParse users o).2.1 = [] := by
  cases h1 : tryGetString o "user_name" with
  | none => simp [chatMessageParse, h1, sentIds]
  | some v1 =>
  cases h2 : tryGetInt o "user_id" with
  | none => simp [chatMessageParse, h1, h2, sentIds]
  | some v2 =>
  cases h3 : tryGetObj o "message" with
  | none => simp [chatMessageParse, h1, h2, h3, sentIds]
  | some v3 =>
  cases h4 : tryGetString o "id" with
  | none => simp [chatMessageParse, h1, h2, h3, h4, sentIds]
  | some v4 =>
  cases h5 : parseGuid v4 with
  | none => simp [chatMessageParse, h1, h2, h3, h4, h5, sentIds]
  | some v5 =>
  cases h6 : users.lookup v2 with
  | none =>
    cases h7 : tryGetInt o "user_level" with
    | none =>
      simp [chatMessageParse, h1, h2, h3, h4, h5, h6, h7, sentIds_cons_warning,
        sentIds_cons_joined, msgObject_no_frame]
    | some lvl =>
      simp [chatMessageParse, h1, h2, h3, h4, h5, h6, h7, sentIds_cons_joined,
        msgObject_no_frame]
  | some u =>
    cases h7 : tryGetInt o "user_level" with
    | none =>
      simp [chatMessageParse, h1, h2, h3, h4, h5, h6, h7, sentIds_cons_warning,
        msgObject_no_frame]
    | some lvl =>
      simp [chatMessageParse, h1, h2, h3, h4, h5, h6, h7, msgObject_no_frame]

theorem historyEntriesParse_no_frame (users : List (Int × ChatUser)) (entries : List JVal) :
    sentIds (historyEntriesParse users entries).2.1 = [] := by
  induction entries generalizing users with
  | nil => simp [historyEntriesParse, sentIds]
  | cons e rest ih =>
    cases e <;> simp [historyEntriesParse, sentIds_append, chatMessageParse_no_frame, ih]

/-- Event handlers never touch the router state or the readiness flag,
never write to the socket, and leave the history unchanged when they
return false. -/
theorem dispatchEvent_frame (s : ConnectionState) (tag : EventTag) (o : JVal) :
    (dispatchEvent s tag o).1.replyHandlers = s.replyHandlers ∧
    (dispatchEvent s tag o).1.messageId = s.messageId ∧
    (dispatchEvent s tag o).1.bIsReady = s.bIsReady ∧
    sentIds (dispatchEvent s tag o).2.1 = [] ∧
    ((dispatchEvent s tag o).2.2 = false → (dispatchEvent s tag o).1.history = s.history) := by
  cases tag with
  | welcome => simp [dispatchEvent, handleWelcomeEvent, sentIds]
  | chatMessage =>
    simp only [dispatchEvent, handleChatMessageEventC]
    cases hm : (chatMessageParse s.cachedUsers o).2.2 with
    | none => simp [hm, chatMessageParse_no_frame]
    | some m =>
      by_cases hw : m.isWhisper = true
      · simp [hm, hw, sentIds_append, chatMessageParse_no_frame, sentIds_priv]
      · simp only [Bool.not_eq_true] at hw
        simp [hm, hw, sentIds_append, chatMessageParse_no_frame, sentIds_room]
  | userJoin =>
    simp only [dispatchEvent, handleUserJoinEvent]
    cases h1 : tryGetInt o "id" with
    | none => simp [sentIds]
    | some uid =>
      cases h2 : s.cachedUsers.lookup uid with
      | some u => simp [h2, sentIds]
      | none =>
        cases h3 : tryGetString o "username" with
        | none => simp [h2, h3, sentIds]
        | some uname => simp [h2, h3, sentIds]
  | userLeave =>
    simp only [dispatchEvent, handleUserLeaveEvent]
    cases h1 : tryGetInt o "id" with
    | none => simp [sentIds]
    | some uid =>
      cases h2 : s.cachedUsers.lookup uid with
      | none => simp [h2, sentIds]
      | some u => simp [h2, sentIds]
  | deleteMessage =>
    simp only [dispatchEvent, handleDeleteMessageEvent]
    cases h1 : tryGetString o "id" with
    | none => simp [sentIds]
    | some idString =>
      cases h2 : parseGuid idString with
      | none => simp [h2, sentIds]
      | some g => simp [h2, sentIds]
  | clearMessages => simp [dispatchEvent, handleClearMessagesEvent, sentIds]
  | purgeMessage =>
    simp only [dispatchEvent, handlePurgeMessageEvent]
    cases h1 : tryGetInt o "user_id" with
    | none => simp [sentIds]
    | some uid => simp [sentIds]

/-- What `RemoveAndCopyValue` returns: the removed binding was in the
table, the remainder is a sub-collection, and the remaining key list
is the original with the key erased. -/
theorem lookupRemove_some_spec (l : List (Int × Option HandlerTag)) (k : Int)
    (v : Option HandlerTag) (rest : List (Int × Option HandlerTag))
    (h : lookupRemove l k = some (v, rest)) :
    (k, v) ∈ l ∧ (∀ p ∈ rest, p ∈ l) ∧ rest.map Prod.fst = (l.map Prod.fst).erase k := by
  induction l generalizing rest with
  | nil => simp [lookupRemove] at h
  | cons a t ih =>
    obtain ⟨k2, v2⟩ := a
    by_cases hk : k2 = k
    · subst hk
      simp only [lookupRemove, if_pos rfl, Option.some.injEq, Prod.mk.injEq] at h
      obtain ⟨rfl, rfl⟩ := h
      refine ⟨List.mem_cons_self _ _, fun p hp => List.mem_cons_of_mem _ hp, ?_⟩
      simp
    · simp only [lookupRemove, if_neg hk] at h
      cases h2 : lookupRemove t k with
      | none => rw [h2] at h; simp at h
      | some pr =>
        obtain ⟨v2x, rest2⟩ := pr
        rw [h2] at h
        simp only [Option.some.injEq, Prod.mk.injEq] at h
        obtain ⟨rfl, rfl⟩ := h
        obtain ⟨hm, hsub, herase⟩ := ih rest2 h2
        refine ⟨List.mem_cons_of_mem _ hm, ?_, ?_⟩
        · intro p hp
          rcases List.mem_cons.mp hp with rfl | hp2
          · exact List.mem_cons_self _ _
          · exact List.mem_cons_of_mem _ (hsub p hp2)
        · simp only [List.map_cons]
          rw [List.erase_cons_tail (by simpa using hk), herase]

/-- A step that leaves the router state alone and writes nothing. -/
theorem stepOk_still (s s2 : ConnectionState) (evs : List OutEvent)
    (h1 : s2.replyHandlers = s.replyHandlers) (h2 : s2.messageId = s.messageId)
    (h3 : sentIds evs = []) : StepOk s s2 evs := by
  refine ⟨by rw [h2], fun p hp => Or.inl (h1 ▸ hp), by rw [h3]; exact List.Pairwise.nil,
    by rw [h3]; intro i hi; exact absurd hi (List.not_mem_nil _), fun hi => ⟨?_, ?_⟩⟩
  · intro p hp
    rw [h2]
    exact hi.1 p (h1 ▸ hp)
  · rw [h1]
    exact hi.2

/-- `SendMethodPacket` as a router step: registers the fresh id and
advances `MessageId`. -/
theorem sendMethodPacket_stepOk (s : ConnectionState) (payload : MethodFrame)
    (handler : Option HandlerTag) (hid : payload.id = s.messageId) :
    StepOk s (sendMethodPacket s payload handler).1 (sendMethodPacket s payload handler).2 := by
  refine ⟨?_, ?_, ?_, ?_, ?_⟩
  · simp [sendMethodPacket]
  · intro p hp
    simp only [sendMethodPacket, List.mem_append, List.mem_singleton] at hp
    rcases hp with hp | rfl
    · exact Or.inl hp
    · refine Or.inr ⟨le_refl _, ?_⟩
      simp [sendMethodPacket]
  · simp [sendMethodPacket, sentIds]
  · intro i hi
    simp only [sendMethodPacket, sentIds, List.filterMap] at hi
    simp only [List.mem_singleton] at hi
    subst hi
    simp [sendMethodPacket, hid]
  · intro hi
    refine ⟨?_, ?_⟩
    · intro p hp
      simp only [sendMethodPacket, List.mem_append, List.mem_singleton] at hp ⊢
      rcases hp with hp | rfl
      · have := hi.1 p hp
        omega
      · simp
    · simp only [sendMethodPacket, List.map_append, List.map_cons, List.map_nil]
      refine List.nodup_append.mpr ⟨hi.2, List.nodup_singleton _, ?_⟩
      intro k hk hk2
      rw [List.mem_singleton] at hk2
      subst hk2
      obtain ⟨p, hp, hfst⟩ := List.mem_map.mp hk
      have := hi.1 p hp
      omega

/-- Router steps compose. -/
theorem stepOk_trans (s1 s2 s3 : ConnectionState) (e1 e2 : List OutEvent)
    (h1 : StepOk s1 s2 e1) (h2 : StepOk s2 s3 e2) : StepOk s1 s3 (e1 ++ e2) := by
  obtain ⟨ha1, hb1, hc1, hd1, he1⟩ := h1
  obtain ⟨ha2, hb2, hc2, hd2, he2⟩ := h2
  refine ⟨le_trans ha1 ha2, ?_, ?_, ?_, fun hi => he2 (he1 hi)⟩
  · intro p hp
    rcases hb2 p hp with hp2 | hp2
    · rcases hb1 p hp2 with hp3 | hp3
      · exact Or.inl hp3
      · exact Or.inr ⟨hp3.1, lt_of_lt_of_le hp3.2 ha2⟩
    · exact Or.inr ⟨le_trans ha1 hp2.1, hp2.2⟩
  · rw [sentIds_append]
    refine List.pairwise_append.mpr ⟨hc1, hc2, ?_⟩
    intro i hi j hj
    exact lt_of_lt_of_le (hd1 i hi).2 (hd2 j hj).1
  · intro i hi
    rw [sentIds_append, List.mem_append] at hi
    rcases hi with hi | hi
    · exact ⟨(hd1 i hi).1, lt_of_lt_of_le (hd1 i hi).2 ha2⟩
    · exact ⟨le_trans ha1 (hd2 i hi).1, (hd2 i hi).2⟩

/-- Appending frame-free events preserves a router step. -/
theorem stepOk_extend_events (s s2 : ConnectionState) (e1 e2 : List OutEvent)
    (h : StepOk s s2 e1) (h2 : sentIds e2 = []) : StepOk s s2 (e1 ++ e2) := by
  obtain ⟨ha, hb, hc, hd, he⟩ := h
  refine ⟨ha, hb, ?_, ?_, he⟩
  · rw [sentIds_append, h2, List.append_nil]
    exact hc
  · rw [sentIds_append, h2, List.append_nil]
    exact hd

/-- Removing a pending entry is a frame-free router step. -/
theorem stepOk_remove (s : ConnectionState) (k : Int) (v : Option HandlerTag)
    (rest : List (Int × Option HandlerTag))
    (h : lookupRemove s.replyHandlers k = some (v, rest)) :
    StepOk s { s with replyHandlers := rest } [] := by
  obtain ⟨hm, hsub, herase⟩ := lookupRemove_some_spec _ _ _ _ h
  refine ⟨le_refl _, fun p hp => Or.inl (hsub p hp), List.Pairwise.nil,
    fun i hi => absurd hi (List.not_mem_nil _), fun hi => ⟨?_, ?_⟩⟩
  · intro p hp
    exact hi.1 p (hsub p hp)
  · show (rest.map Prod.fst).Nodup
    rw [herase]
    exact hi.2.erase _

theorem handleAuthReply_stepOk (s : ConnectionState) (o : JVal) :
    StepOk s (handleAuthReply s o).1 (handleAuthReply s o).2.1 := by
  cases h1 : tryGetObj o "error" with
  | some errFields =>
    have he : handleAuthReply s o = (s, [.connectAttemptFinished false
        ((tryGetString (.jobj errFields) "message").getD "")], false) := by
      simp [handleAuthReply, h1]
    rw [he]
    exact stepOk_still _ _ _ rfl rfl (by simp [sentIds])
  | none =>
    by_cases h2 : (0:Int) < s.history.chatHistoryMax
    · have he : handleAuthReply s o =
          ((sendHistoryC { s with bIsReady := true } (min s.history.chatHistoryMax 100)).1,
           (sendHistoryC { s with bIsReady := true } (min s.history.chatHistoryMax 100)).2
             ++ [.connectAttemptFinished true ""], true) := by
        simp [handleAuthReply, h1, h2, sendHistoryC]
      rw [he]
      refine stepOk_extend_events _ _ _ _ ?_ (by simp [sentIds])
      exact sendMethodPacket_stepOk { s with bIsReady := true } _ _ rfl
    · have he : handleAuthReply s o = ({ s with bIsReady := true },
          [.connectAttemptFinished true ""], true) := by
        simp [handleAuthReply, h1, h2]
      rw [he]
      exact stepOk_still _ _ _ rfl rfl (by simp [sentIds])

theorem handleHistoryReply_stepOk (s : ConnectionState) (o : JVal) :
    StepOk s (handleHistoryReply s o).1 (handleHistoryReply s o).2.1 := by
  cases h1 : tryGetArr o "data" with
  | none =>
    have he : handleHistoryReply s o = (s, [.decodeErrorLogged], false) := by
      simp [handleHistoryReply, h1]
    rw [he]
    exact stepOk_still _ _ _ rfl rfl (by simp [sentIds])
  | some entries =>
    have he : handleHistoryReply s o =
        ({ s with cachedUsers := (historyEntriesParse s.cachedUsers entries).1,
                  history := handleHistoryReplyCore
                    (historyEntriesParse s.cachedUsers entries).2.2 s.history },
         (historyEntriesParse s.cachedUsers entries).2.1, true) := by
      simp [handleHistoryReply, h1]
    rw [he]
    exact stepOk_still _ _ _ rfl rfl (historyEntriesParse_no_frame _ _)

theorem dispatchReply_stepOk (s : ConnectionState) (tag : HandlerTag) (o : JVal) :
    StepOk s (dispatchReply s tag o).1 (dispatchReply s tag o).2.1 := by
  cases tag with
  | authReply => exact handleAuthReply_stepOk s o
  | historyReply => exact handleHistoryReply_stepOk s o

theorem onChatPacket_stepOk (s : ConnectionState) (o : JVal) :
    StepOk s (onChatPacketInternal s o).1 (onChatPacketInternal s o).2.1 := by
  cases h1 : tryGetString o "type" with
  | none =>
    have he : onChatPacketInternal s o = (s, [.decodeErrorLogged], false, none) := by
      simp [onChatPacketInternal, h1]
    rw [he]
    exact stepOk_still _ _ _ rfl rfl (by simp [sentIds])
  | some mt =>
    by_cases hr : mt = "reply"
    · subst hr
      cases h2 : tryGetInt o "id" with
      | none =>
        have he : onChatPacketInternal s o = (s, [.decodeErrorLogged], false, none) := by
          simp [onChatPacketInternal, h1, h2]
        rw [he]
        exact stepOk_still _ _ _ rfl rfl (by simp [sentIds])
      | some rid =>
        cases h3 : lookupRemove s.replyHandlers rid with
        | none =>
          have he : onChatPacketInternal s o
              = (s, [.unexpectedReplyLogged rid], false, none) := by
            simp [onChatPacketInternal, h1, h2, h3]
          rw [he]
          exact stepOk_still _ _ _ rfl rfl (by simp [sentIds])
        | some pr =>
          obtain ⟨handler, rest⟩ := pr
          cases handler with
          | none =>
            have he : onChatPacketInternal s o
                = ({ s with replyHandlers := rest }, [], true, none) := by
              simp [onChatPacketInternal, h1, h2, h3]
            rw [he]
            exact stepOk_remove _ _ _ _ h3
          | some tag =>
            have he : onChatPacketInternal s o =
                ((dispatchReply { s with replyHandlers := rest } tag o).1,
                 (dispatchReply { s with replyHandlers := rest } tag o).2.1, true,
                 some (dispatchReply { s with replyHandlers := rest } tag o).2.2) := by
              simp [onChatPacketInternal, h1, h2, h3]
            rw [he]
            have hA := stepOk_remove s rid (some tag) rest h3
            have hB := dispatchReply_stepOk { s with replyHandlers := rest } tag o
            have hC := stepOk_trans _ _ _ _ _ hA hB
            simpa using hC
    · by_cases hev : mt = "event"
      · subst hev
        cases h2 : tryGetString o "event" with
        | none =>
          have he : onChatPacketInternal s o = (s, [.decodeErrorLogged], false, none) := by
            simp [onChatPacketInternal, h1, h2]
          rw [he]
          exact stepOk_still _ _ _ rfl rfl (by simp [sentIds])
        | some et =>
          cases h3 : tryGetObj o "data" with
          | none =>
            have he : onChatPacketInternal s o = (s, [.decodeErrorLogged], false, none) := by
              simp [onChatPacketInternal, h1, h2, h3]
            rw [he]
            exact stepOk_still _ _ _ rfl rfl (by simp [sentIds])
          | some dataFields =>
            cases h4 : getEventHandler et with
            | none =>
              have he : onChatPacketInternal s o = (s, [.warningLogged], false, none) := by
                simp [onChatPacketInternal, h1, h2, h3, h4]
              rw [he]
              exact stepOk_still _ _ _ rfl rfl (by simp [sentIds])
            | some tag =>
              have he : onChatPacketInternal s o =
                  ((dispatchEvent s tag (.jobj dataFields)).1,
                   (dispatchEvent s tag (.jobj dataFields)).2.1, true,
                   some (dispatchEvent s tag (.jobj dataFields)).2.2) := by
                simp [onChatPacketInternal, h1, h2, h3, h4]
              rw [he]
              obtain ⟨hfa, hfb, _, hfd, _⟩ := dispatchEvent_frame s tag (.jobj dataFields)
              exact stepOk_still _ _ _ hfa hfb hfd
      · have he : onChatPacketInternal s o = (s, [], false, none) := by
          simp [onChatPacketInternal, h1, hr, hev]
        rw [he]
        exact stepOk_still _ _ _ rfl rfl (by simp [sentIds])

theorem sendChat_stepOk (s : ConnectionState) (b : String) :
    StepOk s (sendChatMessageC s b).1 (sendChatMessageC s b).2.1 := by
  cases hb : s.bIsReady with
  | false =>
    have he : sendChatMessageC s b = (s, [.warningLogged], false) := by
      simp [sendChatMessageC, hb]
    rw [he]
    exact stepOk_still _ _ _ rfl rfl (by simp [sentIds])
  | true =>
    cases ha : s.anonymous with
    | true =>
      have he : sendChatMessageC s b = (s, [.warningLogged], false) := by
        simp [sendChatMessageC, IsAnonymous, hb, ha]
      rw [he]
      exact stepOk_still _ _ _ rfl rfl (by simp [sentIds])
    | false =>
      have he : sendChatMessageC s b =
          ((sendMethodPacket s { method := "msg", args := [.argStr b], id := s.messageId }
              none).1,
           (sendMethodPacket s { method := "msg", args := [.argStr b], id := s.messageId }
              none).2,
           true) := by
        simp [sendChatMessageC, IsAnonymous, hb, ha]
      rw [he]
      exact sendMethodPacket_stepOk _ _ _ rfl

theorem sendWhisper_stepOk (s : ConnectionState) (u b : String) :
    StepOk s (sendWhisperC s u b).1 (sendWhisperC s u b).2.1 := by
  cases hb : s.bIsReady with
  | false =>
    have he : sendWhisperC s u b = (s, [.warningLogged], false) := by
      simp [sendWhisperC, hb]
    rw [he]
    exact stepOk_still _ _ _ rfl rfl (by simp [sentIds])
  | true =>
    cases ha : s.anonymous with
    | true =>
      have he : sendWhisperC s u b = (s, [.warningLogged], false) := by
        simp [sendWhisperC, IsAnonymous, hb, ha]
      rw [he]
      exact stepOk_still _ _ _ rfl rfl (by simp [sentIds])
    | false =>
      have he : sendWhisperC s u b =
          ((sendMethodPacket s
              { method := "whisper", args := [.argStr u, .argStr b], id := s.messageId }
              none).1,
           (sendMethodPacket s
              { method := "whisper", args := [.argStr u, .argStr b], id := s.messageId }
              none).2,
           true) := by
        simp [sendWhisperC, IsAnonymous, hb, ha]
      rw [he]
      exact sendMethodPacket_stepOk _ _ _ rfl

theorem connStep_stepOk (s : ConnectionState) (op : ConnOp) :
    StepOk s (connStep s op).1 (connStep s op).2 := by
  cases op with
  | opSendChat b =>
    simp only [connStep]
    exact sendChat_stepOk s b
  | opSendWhisper u b =>
    simp only [connStep]
    exact sendWhisper_stepOk s u b
  | opSendAuth c u k =>
    simp only [connStep, sendAuthC]
    refine sendMethodPacket_stepOk _ _ _ ?_
    cases u with
    | none => rfl
    | some uid =>
      by_cases hk : k = ""
      · simp [hk]
      · simp [hk]
  | opSendHistory n =>
    simp only [connStep, sendHistoryC]
    exact sendMethodPacket_stepOk _ _ _ rfl
  | opPacket o =>
    simp only [connStep]
    exact onChatPacket_stepOk s o

theorem runTrace_stepOk (s : ConnectionState) (ops : List ConnOp) :
    StepOk s (runTrace s ops).1 (runTrace s ops).2 := by
  induction ops generalizing s with
  | nil =>
    simp only [runTrace]
    exact stepOk_still _ _ _ rfl rfl (by simp [sentIds])
  | cons op rest ih =>
    simp only [runTrace]
    exact stepOk_trans _ _ _ _ _ (connStep_stepOk s op) (ih (connStep s op).1)

/-- C6: `SendChatMessage` and `SendWhisper` return false and write
nothing when the connection is not ready or the session is anonymous;
when ready and not anonymous they return true, write a single method
frame ("msg" with the body, resp. "whisper" with recipient and body)
carrying the next correlation id, and register it as pending. -/
theorem send_gated_by_ready_and_auth (s : ConnectionState) (messageBody toUser : String) :
    (s.bIsReady = false ∨ IsAnonymous s = true →
      sendChatMessageC s messageBody = (s, [.warningLogged], false) ∧
      sendWhisperC s toUser messageBody = (s, [.warningLogged], false)) ∧
    (s.bIsReady = true → IsAnonymous s = false →
      sendChatMessageC s messageBody =
        ({ s with replyHandlers := s.replyHandlers ++ [(s.messageId, none)],
                  messageId := s.messageId + 1 },
         [.sentFrame { method := "msg", args := [.argStr messageBody], id := s.messageId }],
         true) ∧
      sendWhisperC s toUser messageBody =
        ({ s with replyHandlers := s.replyHandlers ++ [(s.messageId, none)],
                  messageId := s.messageId + 1 },
         [.sentFrame
            { method := "whisper", args := [.argStr toUser, .argStr messageBody],
              id := s.messageId }],
         true)) := by
  constructor
  · rintro (h | h)
    · constructor <;> simp [sendChatMessageC, sendWhisperC, h]
    · simp only [IsAnonymous] at h
      cases hb : s.bIsReady <;>
        constructor <;> simp [sendChatMessageC, sendWhisperC, IsAnonymous, hb, h]
  · intro hb ha
    simp only [IsAnonymous] at ha
    constructor <;>
      simp [sendChatMessageC, sendWhisperC, sendMethodPacket, IsAnonymous, hb, ha]

theorem send_gated_by_ready_and_auth_witness :
    (sendChatMessageC { initialConnection 10 false with bIsReady := true } "hello").2.2
      = true ∧
    sentIds (sendChatMessageC
        { initialConnection 10 false with bIsReady := true } "hello").2.1 = [0] ∧
    (sendChatMessageC (initialConnection 10 true) "hello").2.2 = false ∧
    (sendChatMessageC (initialConnection 10 true) "hello").1 = initialConnection 10 true := by
  have h1 := ((send_gated_by_ready_and_auth
    { initialConnection 10 false with bIsReady := true } "hello" "bob").2 rfl rfl).1
  have h2 := ((send_gated_by_ready_and_auth (initialConnection 10 true) "hello" "bob").1
    (Or.inr (by decide))).1
  refine ⟨by rw [h1], by rw [h1]; simp [sentIds, initialConnection], by rw [h2], by rw [h2]⟩

/-- C8: `HandleAuthReply` with an error field reports a failed connect
attempt and leaves the state (readiness included) untouched; without
an error field it becomes ready, reports success, and, if a history
cache is configured, first requests `min(ChatHistoryMax, 100)` prior
messages — never more than 100 regardless of the configured size. -/
theorem auth_reply_transitions (s : ConnectionState) (o : JVal) :
    (∀ errFields, tryGetObj o "error" = some errFields →
      handleAuthReply s o =
        (s, [.connectAttemptFinished false
              ((tryGetString (.jobj errFields) "message").getD "")], false)) ∧
    (tryGetObj o "error" = none →
      (handleAuthReply s o).1.bIsReady = true ∧
      (0 < s.history.chatHistoryMax →
        handleAuthReply s o =
          ({ s with bIsReady := true,
                    replyHandlers := s.replyHandlers ++ [(s.messageId, some .historyReply)],
                    messageId := s.messageId + 1 },
           [.sentFrame { method := "history",
                         args := [.argInt (min s.history.chatHistoryMax 100)],
                         id := s.messageId },
            .connectAttemptFinished true ""],
           true) ∧
        min s.history.chatHistoryMax 100 ≤ 100) ∧
      (s.history.chatHistoryMax ≤ 0 →
        handleAuthReply s o =
          ({ s with bIsReady := true }, [.connectAttemptFinished true ""], true))) := by
  refine ⟨?_, ?_⟩
  · intro errFields herr
    simp [handleAuthReply, herr]
  · intro hnone
    refine ⟨?_, ?_, ?_⟩
    · by_cases hmax : (0:Int) < s.history.chatHistoryMax
      · simp [handleAuthReply, hnone, hmax, sendHistoryC, sendMethodPacket]
      · simp [handleAuthReply, hnone, hmax]
    · intro hmax
      refine ⟨?_, min_le_right _ _⟩
      simp [handleAuthReply, hnone, hmax, sendHistoryC, sendMethodPacket]
    · intro hmax
      have hneg : ¬ (0:Int) < s.history.chatHistoryMax := by omega
      simp [handleAuthReply, hnone, hneg]

theorem auth_reply_transitions_witness :
    (handleAuthReply (initialConnection 200 false)
      (JVal.jobj [("error", JVal.jobj [("message", JVal.jstr "bad")])])).2.2 = false ∧
    (handleAuthReply (initialConnection 200 false)
      (JVal.jobj [("error", JVal.jobj [("message", JVal.jstr "bad")])])).1
      = initialConnection 200 false ∧
    (handleAuthReply (initialConnection 200 false) (JVal.jobj [])).1.bIsReady = true ∧
    (handleAuthReply (initialConnection 200 false) (JVal.jobj [])).2.1
      = [.sentFrame { method := "history", args := [.argInt 100], id := 0 },
         .connectAttemptFinished true ""] := by
  have h1 := (auth_reply_transitions (initialConnection 200 false)
    (JVal.jobj [("error", JVal.jobj [("message", JVal.jstr "bad")])])).1
    [("message", JVal.jstr "bad")] rfl
  have h2 := (auth_reply_transitions (initialConnection 200 false) (JVal.jobj [])).2 rfl
  have h3 := (h2.2.1 (by decide)).1
  refine ⟨by rw [h1], by rw [h1], h2.1, ?_⟩
  rw [h3]
  simp [initialConnection, emptyHistory]

theorem entry_events (o : JVal) :
    ∀ e ∈ (handleChatMessageEventMessageArrayEntry o).2, e = OutEvent.decodeErrorLogged := by
  cases h1 : tryGetString o "type" with
  | none => simp [handleChatMessageEventMessageArrayEntry, h1]
  | some t =>
    cases h2 : tryGetString o "text" with
    | none => simp [handleChatMessageEventMessageArrayEntry, h1, h2]
    | some tx => simp [handleChatMessageEventMessageArrayEntry, h1, h2]

theorem fragments_events (frags : List JVal) :
    ∀ e ∈ (fragmentsFold frags).2, e = OutEvent.decodeErrorLogged := by
  induction frags with
  | nil => simp [fragmentsFold]
  | cons f rest ih =>
    intro e he
    cases f with
    | jobj fields =>
      simp only [fragmentsFold] at he
      rcases List.mem_append.mp he with h | h
      · exact entry_events _ e h
      · exact ih e h
    | jnull =>
      simp only [fragmentsFold] at he
      rcases List.mem_append.mp he with h | h
      · exact absurd h (List.not_mem_nil _)
      · exact ih e h
    | jbool b =>
      simp only [fragmentsFold] at he
      rcases List.mem_append.mp he with h | h
      · exact absurd h (List.not_mem_nil _)
      · exact ih e h
    | jnum n =>
      simp only [fragmentsFold] at he
      rcases List.mem_append.mp he with h | h
      · exact absurd h (List.not_mem_nil _)
      · exact ih e h
    | jstr t =>
      simp only [fragmentsFold] at he
      rcases List.mem_append.mp he with h | h
      · exact absurd h (List.not_mem_nil _)
      · exact ih e h
    | jarr vs =>
      simp only [fragmentsFold] at he
      rcases List.mem_append.mp he with h | h
      · exact absurd h (List.not_mem_nil _)
      · exact ih e h

theorem msgObject_events (o : JVal) (m0 : Msg) :
    ∀ e ∈ (handleChatMessageEventMessageObject o m0).2, e = OutEvent.decodeErrorLogged := by
  cases h1 : tryGetArr o "message" with
  | none => simp [handleChatMessageEventMessageObject, h1]
  | some frags =>
    intro e he
    simp only [handleChatMessageEventMessageObject, h1] at he
    exact fragments_events frags e he

theorem setUserLevel_lookup (l : List (Int × ChatUser)) (k lvl u : Int) :
    ((setUserLevel l k lvl).lookup u).isSome = (l.lookup u).isSome := by
  induction l with
  | nil => simp [setUserLevel]
  | cons p t ih =>
    obtain ⟨k2, v⟩ := p
    simp only [setUserLevel, List.map_cons]
    by_cases hk : k2 = k
    · rw [if_pos hk]
      by_cases hu : u = k2
      · subst hu
        simp [List.lookup]
      · have hb : (u == k2) = false := beq_eq_false_iff_ne.mpr hu
        simp only [setUserLevel] at ih
        simp [List.lookup, hb, ih]
    · rw [if_neg hk]
      by_cases hu : u = k2
      · subst hu
        simp [List.lookup]
      · have hb : (u == k2) = false := beq_eq_false_iff_ne.mpr hu
        simp only [setUserLevel] at ih
        simp [List.lookup, hb, ih]

/-- C10: a member-joined notification fires iff the user id moves from
absent to present in `CachedUsers` — for `UserJoin` events and for
`ChatMessage` events (whispers included, since registration happens
before the whisper flag is read) — and a member-left notification
fires iff the id was present right before a `UserLeave` removal. -/
theorem join_leave_notifications (s : ConnectionState) (o : JVal) (uid : Int) :
    ((tryGetInt o "id" = some uid → (s.cachedUsers.lookup uid).isSome = true →
        handleUserJoinEvent s o = (s, [], true)) ∧
     (∀ uname, tryGetInt o "id" = some uid → s.cachedUsers.lookup uid = none →
        tryGetString o "username" = some uname →
        handleUserJoinEvent s o =
          ({ s with cachedUsers := s.cachedUsers ++
              [(uid, { name := uname, uid := uid, level := 0 })] },
           [.memberJoined uid], true))) ∧
    ((tryGetInt o "id" = some uid → (s.cachedUsers.lookup uid).isSome = true →
        handleUserLeaveEvent s o =
          ({ s with cachedUsers := removeUser s.cachedUsers uid },
           [.memberLeft uid], true)) ∧
     (tryGetInt o "id" = some uid → s.cachedUsers.lookup uid = none →
        handleUserLeaveEvent s o = (s, [], true))) ∧
    (∀ uname mfields idstr g,
      tryGetString o "user_name" = some uname →
      tryGetInt o "user_id" = some uid →
      tryGetObj o "message" = some mfields →
      tryGetString o "id" = some idstr →
      parseGuid idstr = some g →
      ((OutEvent.memberJoined uid ∈ (chatMessageParse s.cachedUsers o).2.1 ↔
          s.cachedUsers.lookup uid = none) ∧
       ((chatMessageParse s.cachedUsers o).1.lookup uid).isSome = true ∧
       (∀ w, OutEvent.memberJoined w ∈ (chatMessageParse s.cachedUsers o).2.1 → w = uid))) := by
  refine ⟨⟨?_, ?_⟩, ⟨?_, ?_⟩, ?_⟩
  · intro hid hsome
    cases h2 : s.cachedUsers.lookup uid with
    | none => rw [h2] at hsome; simp at hsome
    | some u => simp [handleUserJoinEvent, hid, h2]
  · intro uname hid hnone huser
    simp [handleUserJoinEvent, hid, hnone, huser]
  · intro hid hsome
    cases h2 : s.cachedUsers.lookup uid with
    | none => rw [h2] at hsome; simp at hsome
    | some u => simp [handleUserLeaveEvent, hid, h2]
  · intro hid hnone
    simp [handleUserLeaveEvent, hid, hnone]
  · intro uname mfields idstr g h1 h2 h3 h4 h5
    cases h6 : s.cachedUsers.lookup uid with
    | none =>
      cases h7 : tryGetInt o "user_level" with
      | none =>
        refine ⟨⟨fun _ => rfl, fun _ => ?_⟩, ?_, ?_⟩
        · simp [chatMessageParse, h1, h2, h3, h4, h5, h6, h7]
        · simp [chatMessageParse, h1, h2, h3, h4, h5, h6, h7, List.lookup_append,
            List.lookup]
        · intro w hw
          simp [chatMessageParse, h1, h2, h3, h4, h5, h6, h7] at hw
          rcases hw with hw | hw
          · exact hw
          · have hx := msgObject_events _ _ _ hw
            simp at hx
      | some lvl =>
        refine ⟨⟨fun _ => rfl, fun _ => ?_⟩, ?_, ?_⟩
        · simp [chatMessageParse, h1, h2, h3, h4, h5, h6, h7]
        · simp [chatMessageParse, h1, h2, h3, h4, h5, h6, h7, setUserLevel_lookup,
            List.lookup_append, List.lookup]
        · intro w hw
          simp [chatMessageParse, h1, h2, h3, h4, h5, h6, h7] at hw
          rcases hw with hw | hw
          · exact hw
          · have hx := msgObject_events _ _ _ hw
            simp at hx
    | some u =>
      cases h7 : tryGetInt o "user_level" with
      | none =>
        refine ⟨⟨?_, fun hc => ?_⟩, ?_, ?_⟩
        · intro hmem
          exfalso
          simp [chatMessageParse, h1, h2, h3, h4, h5, h6, h7] at hmem
          have hx := msgObject_events _ _ _ hmem
          simp at hx
        · exact Option.noConfusion hc
        · simp [chatMessageParse, h1, h2, h3, h4, h5, h6, h7]
        · intro w hw
          simp [chatMessageParse, h1, h2, h3, h4, h5, h6, h7] at hw
          have hx := msgObject_events _ _ _ hw
          simp at hx
      | some lvl =>
        refine ⟨⟨?_, fun hc => ?_⟩, ?_, ?_⟩
        · intro hmem
          exfalso
          simp [chatMessageParse, h1, h2, h3, h4, h5, h6, h7] at hmem
          have hx := msgObject_events _ _ _ hmem
          simp at hx
        · exact Option.noConfusion hc
        · simp [chatMessageParse, h1, h2, h3, h4, h5, h6, h7, setUserLevel_lookup]
        · intro w hw
          simp [chatMessageParse, h1, h2, h3, h4, h5, h6, h7] at hw
          have hx := msgObject_events _ _ _ hw
          simp at hx

theorem join_leave_notifications_witness :
    handleUserJoinEvent (initialConnection 10 false)
      (JVal.jobj [("id", JVal.jnum 7), ("username", JVal.jstr "bob")])
      = ({ initialConnection 10 false with
            cachedUsers := [(7, { name := "bob", uid := 7, level := 0 })] },
         [.memberJoined 7], true) ∧
    handleUserLeaveEvent (initialConnection 10 false) (JVal.jobj [("id", JVal.jnum 7)])
      = (initialConnection 10 false, [], true) ∧
    OutEvent.memberJoined 42 ∈ (chatMessageParse ([] : List (Int × ChatUser))
      (JVal.jobj [("user_name", JVal.jstr "alice"), ("user_id", JVal.jnum 42),
        ("message", JVal.jobj [("message", JVal.jarr [])]),
        ("id", JVal.jstr "00000000000000000000000000000abc")])).2.1 := by
  refine ⟨?_, ?_, ?_⟩
  · exact (join_leave_notifications (initialConnection 10 false) _ 7).1.2 "bob" rfl rfl rfl
  · exact (join_leave_notifications (initialConnection 10 false) _ 7).2.1.2 rfl rfl
  · exact (((join_leave_notifications (initialConnection 10 false)
      (JVal.jobj [("user_name", JVal.jstr "alice"), ("user_id", JVal.jnum 42),
        ("message", JVal.jobj [("message", JVal.jarr [])]),
        ("id", JVal.jstr "00000000000000000000000000000abc")]) 42).2.2
      "alice" [("message", JVal.jarr [])] "00000000000000000000000000000abc" 2748
      rfl rfl rfl rfl (by decide)).1).mpr rfl

/-- A reply handler that returns false leaves the state it was handed
unchanged (the pending entry was already consumed by the router). -/
theorem dispatchReply_false (s : ConnectionState) (tag : HandlerTag) (o : JVal)
    (h : (dispatchReply s tag o).2.2 = false) : (dispatchReply s tag o).1 = s := by
  cases tag with
  | authReply =>
    cases h1 : tryGetObj o "error" with
    | some errFields => simp [dispatchReply, handleAuthReply, h1]
    | none =>
      exfalso
      by_cases h2 : (0:Int) < s.history.chatHistoryMax
      · simp [dispatchReply, handleAuthReply, h1, h2] at h
      · simp [dispatchReply, handleAuthReply, h1, h2] at h
  | historyReply =>
    cases h1 : tryGetArr o "data" with
    | none => simp [dispatchReply, handleHistoryReply, h1]
    | some entries =>
      exfalso
      simp [dispatchReply, handleHistoryReply, h1] at h

/-- C7 (amended): an inbound frame the router itself fails to decode
(missing type, reply id, event name or data, unknown type, unknown
event, or unexpected reply id) is dropped with the connection state
exactly as before. A decode failure inside a dispatched handler,
however, is weaker: the history, readiness flag and `MessageId` are
untouched, but a failed reply handler has still consumed its pending
entry, and a failed ChatMessage payload may have registered its sender
(see the counterexample). The connection is never torn down. -/
theorem packet_failure_scope (s : ConnectionState) (o : JVal) :
    ((onChatPacketInternal s o).2.2.1 = false → (onChatPacketInternal s o).1 = s) ∧
    ((onChatPacketInternal s o).2.2.2 = some false →
      (onChatPacketInternal s o).1.history = s.history ∧
      (onChatPacketInternal s o).1.bIsReady = s.bIsReady ∧
      (onChatPacketInternal s o).1.messageId = s.messageId ∧
      ((onChatPacketInternal s o).1.replyHandlers = s.replyHandlers ∨
       (∃ rid v rest, tryGetInt o "id" = some rid ∧
          lookupRemove s.replyHandlers rid = some (v, rest) ∧
          (onChatPacketInternal s o).1.replyHandlers = rest))) := by
  cases h1 : tryGetString o "type" with
  | none =>
    have he : onChatPacketInternal s o = (s, [.decodeErrorLogged], false, none) := by
      simp [onChatPacketInternal, h1]
    rw [he]
    exact ⟨fun _ => rfl, fun hc => absurd hc (by simp)⟩
  | some mt =>
    by_cases hr : mt = "reply"
    · subst hr
      cases h2 : tryGetInt o "id" with
      | none =>
        have he : onChatPacketInternal s o = (s, [.decodeErrorLogged], false, none) := by
          simp [onChatPacketInternal, h1, h2]
        rw [he]
        exact ⟨fun _ => rfl, fun hc => absurd hc (by simp)⟩
      | some rid =>
        cases h3 : lookupRemove s.replyHandlers rid with
        | none =>
          have he : onChatPacketInternal s o
              = (s, [.unexpectedReplyLogged rid], false, none) := by
            simp [onChatPacketInternal, h1, h2, h3]
          rw [he]
          exact ⟨fun _ => rfl, fun hc => absurd hc (by simp)⟩
        | some pr =>
          obtain ⟨handler, rest⟩ := pr
          cases handler with
          | none =>
            have he : onChatPacketInternal s o
                = ({ s with replyHandlers := rest }, [], true, none) := by
              simp [onChatPacketInternal, h1, h2, h3]
            rw [he]
            exact ⟨fun h => absurd h (by simp), fun hc => absurd hc (by simp)⟩
          | some tag =>
            have he : onChatPacketInternal s o =
                ((dispatchReply { s with replyHandlers := rest } tag o).1,
                 (dispatchReply { s with replyHandlers := rest } tag o).2.1, true,
                 some (dispatchReply { s with replyHandlers := rest } tag o).2.2) := by
              simp [onChatPacketInternal, h1, h2, h3]
            rw [he]
            refine ⟨fun h => absurd h (by simp), fun hc => ?_⟩
            have hf : (dispatchReply { s with replyHandlers := rest } tag o).2.2 = false := by
              simpa using hc
            have hstate := dispatchReply_false { s with replyHandlers := rest } tag o hf
            refine ⟨?_, ?_, ?_, Or.inr ⟨rid, some tag, rest, rfl, h3, ?_⟩⟩ <;> simp [hstate]
    · by_cases hev : mt = "event"
      · subst hev
        cases h2 : tryGetString o "event" with
        | none =>
          have he : onChatPacketInternal s o = (s, [.decodeErrorLogged], false, none) := by
            simp [onChatPacketInternal, h1, h2]
          rw [he]
          exact ⟨fun _ => rfl, fun hc => absurd hc (by simp)⟩
        | some et =>
          cases h3 : tryGetObj o "data" with
          | none =>
            have he : onChatPacketInternal s o = (s, [.decodeErrorLogged], false, none) := by
              simp [onChatPacketInternal, h1, h2, h3]
            rw [he]
            exact ⟨fun _ => rfl, fun hc => absurd hc (by simp)⟩
          | some dataFields =>
            cases h4 : getEventHandler et with
            | none =>
              have he : onChatPacketInternal s o = (s, [.warningLogged], false, none) := by
                simp [onChatPacketInternal, h1, h2, h3, h4]
              rw [he]
              exact ⟨fun _ => rfl, fun hc => absurd hc (by simp)⟩
            | some tag =>
              have he : onChatPacketInternal s o =
                  ((dispatchEvent s tag (.jobj dataFields)).1,
                   (dispatchEvent s tag (.jobj dataFields)).2.1, true,
                   some (dispatchEvent s tag (.jobj dataFields)).2.2) := by
                simp [onChatPacketInternal, h1, h2, h3, h4]
              rw [he]
              refine ⟨fun h => absurd h (by simp), fun hc => ?_⟩
              have hf : (dispatchEvent s tag (.jobj dataFields)).2.2 = false := by
                simpa using hc
              obtain ⟨hfa, hfb, hfc, _, hfh⟩ := dispatchEvent_frame s tag (.jobj dataFields)
              exact ⟨hfh hf, hfc, hfb, Or.inl hfa⟩
      · have he : onChatPacketInternal s o = (s, [], false, none) := by
          simp [onChatPacketInternal, h1, hr, hev]
        rw [he]
        exact ⟨fun _ => rfl, fun hc => absurd hc (by simp)⟩

/-- Counterexample to C7 as stated: (i) a reply whose payload fails to
decode (a history reply with no "data" field) has already consumed its
pending entry and still counts as handled; (ii) a ChatMessage event
whose message payload fails to decode has already registered its
sender in `CachedUsers`, and the frame still counts as handled. -/
theorem packet_decode_failure_cex :
    (onChatPacketInternal
        { initialConnection 10 false with messageId := 6, replyHandlers := [(5, some HandlerTag.historyReply)] }
        (JVal.jobj [("type", JVal.jstr "reply"), ("id", JVal.jnum 5)])).1.replyHandlers
      = [] ∧
    (onChatPacketInternal
        { initialConnection 10 false with messageId := 6, replyHandlers := [(5, some HandlerTag.historyReply)] }
        (JVal.jobj [("type", JVal.jstr "reply"), ("id", JVal.jnum 5)])).2.2.1 = true ∧
    (onChatPacketInternal
        { initialConnection 10 false with messageId := 6, replyHandlers := [(5, some HandlerTag.historyReply)] }
        (JVal.jobj [("type", JVal.jstr "reply"), ("id", JVal.jnum 5)])).2.1
      = [OutEvent.decodeErrorLogged] ∧
    (onChatPacketInternal (initialConnection 10 false)
        (JVal.jobj [("type", JVal.jstr "event"), ("event", JVal.jstr "ChatMessage"),
          ("data", JVal.jobj [("user_name", JVal.jstr "alice"), ("user_id", JVal.jnum 42),
            ("message", JVal.jobj []),
            ("id", JVal.jstr "00000000000000000000000000000abc")])])).1.cachedUsers
      = [(42, { name := "alice", uid := 42, level := 0 })] ∧
    (onChatPacketInternal (initialConnection 10 false)
        (JVal.jobj [("type", JVal.jstr "event"), ("event", JVal.jstr "ChatMessage"),
          ("data", JVal.jobj [("user_name", JVal.jstr "alice"), ("user_id", JVal.jnum 42),
            ("message", JVal.jobj []),
            ("id", JVal.jstr "00000000000000000000000000000abc")])])).2.2.1 = true := by
  refine ⟨by decide, by decide, by decide, by decide, by decide⟩

theorem packet_failure_scope_witness :
    (onChatPacketInternal
      { initialConnection 10 false with messageId := 6, replyHandlers := [(5, some HandlerTag.historyReply)] } (JVal.jobj [])).1
      = { initialConnection 10 false with messageId := 6, replyHandlers := [(5, some HandlerTag.historyReply)] } ∧
    (onChatPacketInternal
        { initialConnection 10 false with messageId := 6, replyHandlers := [(5, some HandlerTag.historyReply)] }
        (JVal.jobj [("type", JVal.jstr "reply"), ("id", JVal.jnum 5)])).1.history
      = ({ initialConnection 10 false with messageId := 6, replyHandlers := [(5, some HandlerTag.historyReply)] }
          : ConnectionState).history ∧
    ((onChatPacketInternal
        { initialConnection 10 false with messageId := 6, replyHandlers := [(5, some HandlerTag.historyReply)] }
        (JVal.jobj [("type", JVal.jstr "reply"), ("id", JVal.jnum 5)])).1.replyHandlers
        = ({ initialConnection 10 false with messageId := 6, replyHandlers := [(5, some HandlerTag.historyReply)] }
            : ConnectionState).replyHandlers ∨
     (∃ rid v rest,
        tryGetInt (JVal.jobj [("type", JVal.jstr "reply"), ("id", JVal.jnum 5)]) "id"
          = some rid ∧
        lookupRemove ({ initialConnection 10 false with messageId := 6, replyHandlers := [(5, some HandlerTag.historyReply)] }
            : ConnectionState).replyHandlers rid = some (v, rest) ∧
        (onChatPacketInternal
          { initialConnection 10 false with messageId := 6, replyHandlers := [(5, some HandlerTag.historyReply)] }
          (JVal.jobj [("type", JVal.jstr "reply"), ("id", JVal.jnum 5)])).1.replyHandlers
          = rest)) := by
  have hA := (packet_failure_scope
    { initialConnection 10 false with messageId := 6, replyHandlers := [(5, some HandlerTag.historyReply)] } (JVal.jobj [])).1 (by decide)
  have hB := (packet_failure_scope
    { initialConnection 10 false with messageId := 6, replyHandlers := [(5, some HandlerTag.historyReply)] }
    (JVal.jobj [("type", JVal.jstr "reply"), ("id", JVal.jnum 5)])).2 (by decide)
  exact ⟨hA, hB.1, hB.2.2.2⟩

/-- C5: `SendMethodPacket` hands out the current `MessageId` and
advances it, so the frames written during any run of operations carry
strictly increasing correlation ids, none of which collides with an id
still pending when the run began, and the router invariant is
preserved. On arrival of a reply the pending entry is removed at that
moment — afterwards its id is pending nowhere, so the registered
handler can never be dispatched a second time — and a reply whose id
has no pending entry is logged as unexpected and changes nothing. -/
theorem correlation_id_router (s : ConnectionState) (ops : List ConnOp) (o : JVal)
    (rid : Int) (hinv : RouterInv s) :
    ((∀ payload handler,
        (sendMethodPacket s payload handler).1.messageId = s.messageId + 1 ∧
        (sendMethodPacket s payload handler).1.replyHandlers
          = s.replyHandlers ++ [(s.messageId, handler)]) ∧
      RouterInv (runTrace s ops).1 ∧
      (sentIds (runTrace s ops).2).Pairwise (fun i j => i < j) ∧
      (∀ i ∈ sentIds (runTrace s ops).2, ∀ p ∈ s.replyHandlers, p.1 < i)) ∧
    (tryGetString o "type" = some "reply" → tryGetInt o "id" = some rid →
      ((∀ v rest, lookupRemove s.replyHandlers rid = some (v, rest) →
          rid ∉ ((onChatPacketInternal s o).1.replyHandlers.map Prod.fst)) ∧
       (lookupRemove s.replyHandlers rid = none →
          onChatPacketInternal s o = (s, [.unexpectedReplyLogged rid], false, none)))) := by
  obtain ⟨ha, hb, hc, hd, he⟩ := runTrace_stepOk s ops
  refine ⟨⟨?_, he hinv, hc, ?_⟩, ?_⟩
  · intro payload handler
    exact ⟨by simp [sendMethodPacket], by simp [sendMethodPacket]⟩
  · intro i hi p hp
    exact lt_of_lt_of_le (hinv.1 p hp) (hd i hi).1
  · intro ht hid
    constructor
    · intro v rest hlr
      have hridlt : rid < s.messageId := hinv.1 _ (lookupRemove_some_spec _ _ _ _ hlr).1
      have herase := (lookupRemove_some_spec _ _ _ _ hlr).2.2
      have hnotrest : rid ∉ rest.map Prod.fst := by
        rw [herase]
        intro hcon
        exact ((List.Nodup.mem_erase_iff hinv.2).mp hcon).1 rfl
      cases v with
      | none =>
        have he2 : onChatPacketInternal s o
            = ({ s with replyHandlers := rest }, [], true, none) := by
          simp [onChatPacketInternal, ht, hid, hlr]
        rw [he2]
        exact hnotrest
      | some tag =>
        have he2 : onChatPacketInternal s o =
            ((dispatchReply { s with replyHandlers := rest } tag o).1,
             (dispatchReply { s with replyHandlers := rest } tag o).2.1, true,
             some (dispatchReply { s with replyHandlers := rest } tag o).2.2) := by
          simp [onChatPacketInternal, ht, hid, hlr]
        rw [he2]
        intro hcon
        obtain ⟨p, hp, hfst⟩ := List.mem_map.mp hcon
        have hstep := dispatchReply_stepOk { s with replyHandlers := rest } tag o
        rcases hstep.2.1 p hp with hmem | hmem
        · exact hnotrest (hfst ▸ List.mem_map_of_mem Prod.fst hmem)
        · have h5 : s.messageId ≤ p.1 := hmem.1
          omega
    · intro hlr
      simp [onChatPacketInternal, ht, hid, hlr]

theorem correlation_id_router_witness :
    RouterInv { initialConnection 10 false with bIsReady := true, messageId := 3, replyHandlers := [(2, some HandlerTag.historyReply)] } ∧
    RouterInv (runTrace { initialConnection 10 false with bIsReady := true, messageId := 3, replyHandlers := [(2, some HandlerTag.historyReply)] } [ConnOp.opSendChat "hi"]).1 ∧
    (2 : Int) ∉ ((onChatPacketInternal { initialConnection 10 false with bIsReady := true, messageId := 3, replyHandlers := [(2, some HandlerTag.historyReply)] }
        (JVal.jobj [("type", JVal.jstr "reply"), ("id", JVal.jnum 2)])).1.replyHandlers.map
        Prod.fst) := by
  have hinv : RouterInv { initialConnection 10 false with bIsReady := true, messageId := 3, replyHandlers := [(2, some HandlerTag.historyReply)] } :=
    ⟨by decide, by decide⟩
  have h := correlation_id_router
    { initialConnection 10 false with bIsReady := true, messageId := 3, replyHandlers := [(2, some HandlerTag.historyReply)] }
    [ConnOp.opSendChat "hi"]
    (JVal.jobj [("type", JVal.jstr "reply"), ("id", JVal.jnum 2)]) 2 hinv
  exact ⟨hinv, h.1.2.1, (h.2 rfl rfl).1 (some HandlerTag.historyReply) [] (by decide)⟩

end MixerChat
